import Mathlib

/-!
# Map module of Highcharts (`js/modules/map.src.js`): a shallow embedding

JavaScript numbers are modelled as exact rationals: binary rounding error, overflow and the
sign of zero are not modelled. Where the source can produce a non-finite number from finite
operands (a division) the result lives in `JSNum`, which adds `NaN` and the two infinities.
Mutable objects become values that the operations return.
-/

namespace MapModule

/-! ## Boxes and `Chart.prototype.fitToBox` -/

/-- A rectangle with the four fields `x`, `y`, `width`, `height` that `fitToBox` reads and writes. -/
structure Box where
  x : ℚ
  y : ℚ
  width : ℚ
  height : ℚ
  deriving DecidableEq, Repr

/-- The body of the callback `function (dim)` inside `fitToBox`, for one pair `[pos, size]`: it
takes `inner[pos]`, `inner[size]`, `outer[pos]`, `outer[size]` and returns the new
`(inner[pos], inner[size])`. The three `if` statements run in source order. -/
def fitDim (pos size opos osize : ℚ) : ℚ × ℚ :=
  -- if (inner[pos] + inner[size] > outer[pos] + outer[size])  // right overflow
  let s1 : ℚ × ℚ :=
    if pos + size > opos + osize then
      -- if (inner[size] > outer[size])  // fit fully to outer
      if size > osize then (opos, osize)
      -- else align right
      else (opos + osize - size, size)
    else (pos, size)
  -- if (inner[size] > outer[size]) inner[size] = outer[size]
  let size2 : ℚ := if s1.2 > osize then osize else s1.2
  -- if (inner[pos] < outer[pos]) inner[pos] = outer[pos]
  let pos2 : ℚ := if s1.1 < opos then opos else s1.1
  (pos2, size2)

/-- The function `fitToBox(inner, outer)`: the callback is applied to `['x', 'width']` and then to
`['y', 'height']`; the (mutated) inner box is returned. -/
def fitToBox (inner outer : Box) : Box :=
  let h := fitDim inner.x inner.width outer.x outer.width
  let v := fitDim inner.y inner.height outer.y outer.height
  { x := h.1, y := v.1, width := h.2, height := v.2 }

/-! ## JavaScript numbers that may be non-finite -/

/-- A JavaScript number: a finite value (kept exact), `Infinity`, `-Infinity` or `NaN`. -/
inductive JSNum where
  | fin (q : ℚ)
  | posInf
  | negInf
  | nan
  deriving DecidableEq, Repr

namespace JSNum

/-- Unary minus. -/
def neg : JSNum → JSNum
  | fin q => fin (-q)
  | posInf => negInf
  | negInf => posInf
  | nan => nan

/-- The operator `a + b`. -/
def add : JSNum → JSNum → JSNum
  | fin a, fin b => fin (a + b)
  | fin _, posInf => posInf
  | fin _, negInf => negInf
  | posInf, fin _ => posInf
  | posInf, posInf => posInf
  | negInf, fin _ => negInf
  | negInf, negInf => negInf
  | _, _ => nan

/-- The operator `a - b`. -/
def sub (a b : JSNum) : JSNum := add a (neg b)

/-- An infinity of the given sign (`true` for negative). -/
def inf (negative : Bool) : JSNum := if negative then negInf else posInf

/-- The operator `a * b`; zero times an infinity is `NaN`. -/
def mul : JSNum → JSNum → JSNum
  | fin a, fin b => fin (a * b)
  | fin a, posInf => if a = 0 then nan else inf (decide (a < 0))
  | fin a, negInf => if a = 0 then nan else inf (decide (0 < a))
  | posInf, fin b => if b = 0 then nan else inf (decide (b < 0))
  | negInf, fin b => if b = 0 then nan else inf (decide (0 < b))
  | posInf, posInf => posInf
  | posInf, negInf => negInf
  | negInf, posInf => negInf
  | negInf, negInf => posInf
  | _, _ => nan

/-- The operator `a / b`; a zero divisor is taken as `+0`, so `0 / 0` is `NaN` and a nonzero
finite number over zero is the infinity of its own sign. -/
def div : JSNum → JSNum → JSNum
  | fin a, fin b =>
    if b = 0 then (if a = 0 then nan else inf (decide (a < 0))) else fin (a / b)
  | fin _, posInf => fin 0
  | fin _, negInf => fin 0
  | posInf, fin b => inf (decide (b < 0))
  | negInf, fin b => inf (decide (0 ≤ b))
  | _, _ => nan

/-- The comparison `a < b`, false as soon as an operand is `NaN`. -/
def lt : JSNum → JSNum → Bool
  | fin a, fin b => decide (a < b)
  | fin _, posInf => true
  | negInf, fin _ => true
  | negInf, posInf => true
  | _, _ => false

/-- The comparison `a > b`. -/
def gt (a b : JSNum) : Bool := lt b a

/-- The function `Math.min(a, b)`: `NaN` if an operand is `NaN`. -/
def min : JSNum → JSNum → JSNum
  | nan, _ => nan
  | _, nan => nan
  | a, b => if lt b a then b else a

/-- The function `Math.max(a, b)`: `NaN` if an operand is `NaN`. -/
def max : JSNum → JSNum → JSNum
  | nan, _ => nan
  | _, nan => nan
  | a, b => if lt a b then b else a

end JSNum

/-- The function `Math.round` on a finite number: the nearest integer, a tie going up. -/
def jsRound (q : ℚ) : ℤ := ⌊q + 1 / 2⌋

/-- The function `Math.round`; infinities and `NaN` are returned as they are. -/
def JSNum.round : JSNum → JSNum
  | JSNum.fin q => JSNum.fin (jsRound q)
  | v => v

/-- The helper `pick(a, b)` of the host library for two arguments: the first one unless it is
`undefined` or `null` (here `none`). -/
def pick {α : Type} (a : Option α) (b : α) : α := a.getD b

/-! ## Axes, the chart, and `Chart.prototype.mapZoom` -/

/-- The fields of an axis object that this module reads or writes. `transA` is `none` while
the axis has no scale yet (`undefined`). -/
structure Axis where
  min : ℚ
  max : ℚ
  dataMin : ℚ
  dataMax : ℚ
  len : ℚ
  transA : Option JSNum
  minPixelPadding : JSNum
  deriving DecidableEq, Repr

/-- The values of `chart.options.chart.animation` that `mapZoom` tells apart. An animation
object carries its `duration` when it has one. -/
inductive Animation where
  | undefined
  | null
  | bool (b : Bool)
  | object (duration : Option ℚ)
  deriving DecidableEq, Repr

/-- The chart fields used by this module: `options.chart.type`, `options.chart.animation`,
`plotWidth`, `plotHeight`, `xAxis[0]`, `yAxis[0]` and the flag `isMapZooming`
(a missing flag is falsy, here `false`). -/
structure Chart where
  chartType : String
  animation : Animation
  plotWidth : ℚ
  plotHeight : ℚ
  xAxis : Axis
  yAxis : Axis
  isMapZooming : Bool
  deriving DecidableEq, Repr

/-- Modelled from the spec: `Axis.prototype.setExtremes` belongs to the host library and is not
in this module. The spec says of the call "Apply the fitted rectangle as both axes' new
extremes (without triggering an intermediate redraw)", so the call stores the two arguments
as the axis's `min` and `max`. -/
def Axis.setExtremes (a : Axis) (newMin newMax : ℚ) : Axis :=
  { a with min := newMin, max := newMax }

/-- The variable `delay` of `mapZoom`, after `animation = pick(options.chart.animation, true)`:
`delay = animation ? animation.duration || 500 : 0`. The value `true` has no `duration`, and a
duration of `0` is falsy, so both give 500. -/
def zoomDelay (anim : Animation) : ℚ :=
  match pick (match anim with
      | Animation.undefined => none
      | Animation.null => none
      | a => some a) (Animation.bool true) with
  | Animation.bool false => 0
  | Animation.object (some d) => if d = 0 then 500 else d
  | _ => 500

/-- The box `{x: newXMin, y: newYMin, width: newXRange, height: newYRange}` that `mapZoom`
hands to `fitToBox` as `inner`. -/
def zoomCandidate (chart : Chart) (howMuch : ℚ) (centerXArg centerYArg : Option ℚ) : Box :=
  let xAxis := chart.xAxis
  let xRange := xAxis.max - xAxis.min
  let centerX := pick centerXArg (xAxis.min + xRange / 2)
  let newXRange := xRange * howMuch
  let yAxis := chart.yAxis
  let yRange := yAxis.max - yAxis.min
  let centerY := pick centerYArg (yAxis.min + yRange / 2)
  let newYRange := yRange * howMuch
  let newXMin := centerX - newXRange / 2
  let newYMin := centerY - newYRange / 2
  { x := newXMin, y := newYMin, width := newXRange, height := newYRange }

/-- The box that `mapZoom` hands to `fitToBox` as `outer`: the data bounds of both axes. -/
def dataBox (chart : Chart) : Box :=
  { x := chart.xAxis.dataMin, y := chart.yAxis.dataMin,
    width := chart.xAxis.dataMax - chart.xAxis.dataMin,
    height := chart.yAxis.dataMax - chart.yAxis.dataMin }

/-- The method `mapZoom(howMuch, centerXArg, centerYArg)` as a function of the chart. The early
`return` leaves the chart as it is. Otherwise both axes get their new extremes and, when
`delay` is truthy, `isMapZooming` becomes `true`. The timer that clears the flag later and the
final `redraw()` lie outside this synchronous step. -/
def mapZoom (howMuch : ℚ) (centerXArg centerYArg : Option ℚ) (chart : Chart) : Chart :=
  if chart.isMapZooming then chart
  else
    let newExt := fitToBox (zoomCandidate chart howMuch centerXArg centerYArg) (dataBox chart)
    let delay := zoomDelay chart.animation
    { chart with
      xAxis := chart.xAxis.setExtremes newExt.x (newExt.x + newExt.width)
      yAxis := chart.yAxis.setExtremes newExt.y (newExt.y + newExt.height)
      isMapZooming := if delay ≠ 0 then true else chart.isMapZooming }

/-! ## The wrapper around `Axis.prototype.setAxisTranslation` -/

/-- A property that is read as a number: `undefined` (here `none`) converts to `NaN`. -/
def toNumber (v : Option JSNum) : JSNum :=
  match v with
  | some n => n
  | none => JSNum.nan

/-- The wrapper installed by `wrap(Axis.prototype, 'setAxisTranslation', ...)`, run on `xAxis[0]`
(`isXAxis = true`) or on `yAxis[0]` (`isXAxis = false`). The wrapped host method is the
parameter `proceed`; it acts on the axis it is called on. -/
def setAxisTranslation (proceed : Axis → Axis) (chart : Chart) (isXAxis : Bool) : Chart :=
  -- plotRatio = chart.plotWidth / chart.plotHeight
  let plotRatio := JSNum.div (JSNum.fin chart.plotWidth) (JSNum.fin chart.plotHeight)
  if isXAxis then
    -- proceed.call(this); the condition `!isXAxis` fails
    { chart with xAxis := proceed chart.xAxis }
  else
    let this := proceed chart.yAxis
    let xAxis := chart.xAxis
    if chart.chartType = "map" ∧ xAxis.transA ≠ none then
      -- this.transA = xAxis.transA = Math.min(this.transA, xAxis.transA)
      let shared := JSNum.min (toNumber this.transA) (toNumber xAxis.transA)
      let this := { this with transA := some shared }
      let xAxis := { xAxis with transA := some shared }
      -- mapRatio = (xAxis.max - xAxis.min) / (this.max - this.min)
      let mapRatio := JSNum.div (JSNum.fin (xAxis.max - xAxis.min)) (JSNum.fin (this.max - this.min))
      -- padAxis = mapRatio > plotRatio ? this : xAxis
      if JSNum.gt mapRatio plotRatio then
        let adjustedAxisLength := JSNum.mul (JSNum.fin (this.max - this.min)) shared
        { chart with
          xAxis := xAxis
          yAxis := { this with
            minPixelPadding :=
              JSNum.div (JSNum.sub (JSNum.fin this.len) adjustedAxisLength) (JSNum.fin 2) } }
      else
        let adjustedAxisLength := JSNum.mul (JSNum.fin (xAxis.max - xAxis.min)) shared
        { chart with
          xAxis := { xAxis with
            minPixelPadding :=
              JSNum.div (JSNum.sub (JSNum.fin xAxis.len) adjustedAxisLength) (JSNum.fin 2) }
          yAxis := this }
    else
      { chart with yAxis := this }

/-- Modelled from the spec: the host's own `setAxisTranslation` is not in this module. The
spec calls its result "the generic per-axis scale (pixel-length / domain-range)", so it stores
`len / (max - min)` as the axis's `transA`. -/
def genericSetAxisTranslation (a : Axis) : Axis :=
  { a with transA := some (JSNum.div (JSNum.fin a.len) (JSNum.fin (a.max - a.min))) }

/-- The chart of the axis-lock example: domain ranges 100 and 50, pixel lengths 200 and 200,
no scale computed yet. -/
def lockChart : Chart :=
  { chartType := "map", animation := Animation.undefined, plotWidth := 200, plotHeight := 200,
    xAxis := { min := 0, max := 100, dataMin := 0, dataMax := 100, len := 200, transA := none,
               minPixelPadding := JSNum.fin 0 },
    yAxis := { min := 0, max := 50, dataMin := 0, dataMax := 50, len := 200, transA := none,
               minPixelPadding := JSNum.fin 0 },
    isMapZooming := false }

/-! ## Paths, `getBox` and `translatePath` -/

/-- An element of a path array: a command (a string), a number, or the number `NaN`.
Infinite numbers are not modelled. -/
inductive PathToken where
  | cmd (s : String)
  | num (v : ℚ)
  | nan
  deriving DecidableEq, Repr

/-- The test `typeof path[i] === 'number'`; it holds for `NaN` too. -/
def PathToken.isNumber : PathToken → Bool
  | PathToken.cmd _ => false
  | _ => true

/-- The constant `Number.MAX_VALUE`, the largest finite double `(2^53 - 1) * 2^971`. -/
def MAX_VALUE : ℚ := (2 ^ 53 - 1) * 2 ^ 971

/-- The constant `Number.MIN_VALUE`, the smallest positive double `2^(-1074)`. -/
def MIN_VALUE : ℚ := 1 / 2 ^ 1074

/-- The local variables of the callback in `getBox` while the `while (i--)` loop runs. -/
structure PointBox where
  maxX : ℚ
  minX : ℚ
  maxY : ℚ
  minY : ℚ
  even : Bool
  deriving DecidableEq, Repr

/-- The values of the callback's variables before the loop: `even = false`,
`pointMaxX = pointMaxY = Number.MIN_VALUE`, `pointMinX = pointMinY = Number.MAX_VALUE`. -/
def PointBox.init : PointBox :=
  { maxX := MIN_VALUE, minX := MAX_VALUE, maxY := MIN_VALUE, minY := MAX_VALUE, even := false }

/-- One pass through the body of the `while (i--)` loop of `getBox`, at the element `tok`. -/
def PointBox.step (tok : PathToken) (s : PointBox) : PointBox :=
  match tok with
  -- typeof path[i] === 'number' && !isNaN(path[i])
  | PathToken.num v =>
    if s.even then
      { s with maxX := max s.maxX v, minX := min s.minX v, even := !s.even }
    else
      { s with maxY := max s.maxY v, minY := min s.minY v, even := !s.even }
  | _ => s

/-- The loop `i = path.length; while (i--) { ... }` of `getBox`: the elements are visited
from the last one to the first. -/
def pointBox (path : List PathToken) : PointBox :=
  path.foldr PointBox.step PointBox.init

/-- An element of the array that `getBox` walks through (`paths || this.options.data`): its
`path` (possibly missing), the options `middleX` and `middleY`, and the cached `_midX`,
`_midY`. -/
structure Shape where
  path : Option (List PathToken)
  middleX : Option ℚ
  middleY : Option ℚ
  midX : Option ℚ
  midY : Option ℚ
  deriving DecidableEq, Repr

/-- The four properties `minX`, `maxX`, `minY`, `maxY` that `getBox` stores on the series. -/
structure Extent where
  minX : ℚ
  maxX : ℚ
  minY : ℚ
  maxY : ℚ
  deriving DecidableEq, Repr

/-- The loop variables for one shape; `point.path || []` stands in for a missing path. -/
def Shape.box (point : Shape) : PointBox := pointBox (pick point.path [])

/-- The two assignments to `point._midX` and `point._midY`. -/
def Shape.cacheMid (point : Shape) : Shape :=
  let b := point.box
  { point with
    midX := some (b.minX + (b.maxX - b.minX) * pick point.middleX (1 / 2))
    midY := some (b.minY + (b.maxY - b.minY) * pick point.middleY (1 / 2)) }

/-- The four updates of `maxX`, `minX`, `maxY`, `minY` at the end of the callback. -/
def Extent.absorb (e : Extent) (b : PointBox) : Extent :=
  { maxX := max e.maxX b.maxX, minX := min e.minX b.minX,
    maxY := max e.maxY b.maxY, minY := min e.minY b.minY }

/-- The method `getBox(paths)`: the extent stored on the series and the shapes with their
cached midpoints. The outer variables start at `Number.MIN_VALUE` and `Number.MAX_VALUE`. -/
def getBox (paths : List Shape) : Extent × List Shape :=
  (paths.foldl (fun e point => e.absorb point.box)
      { maxX := MIN_VALUE, minX := MAX_VALUE, maxY := MIN_VALUE, minY := MAX_VALUE },
   paths.map Shape.cacheMid)

/-- The loop of `translatePath` on the elements from index `i` on: the translated elements and
the value of `even` once they have all been visited (the loop runs from the end). The host
methods `xAxis.translate` and `yAxis.translate` are the parameters `xTranslate`, `yTranslate`;
they compute with the number they are given, so `NaN` comes back as `NaN`. -/
def translateLoop (xTranslate yTranslate : ℚ → ℚ) (yAxis : Axis) :
    List PathToken → List PathToken × Bool
  | [] => ([], false)
  | tok :: rest =>
    let r := translateLoop xTranslate yTranslate yAxis rest
    match tok with
    | PathToken.cmd c => (PathToken.cmd c :: r.1, r.2)
    | PathToken.num v =>
      ((if r.2 then PathToken.num (jsRound (xTranslate v))
        else PathToken.num (jsRound (yAxis.len - yTranslate v))) :: r.1, !r.2)
    | PathToken.nan => (PathToken.nan :: r.1, !r.2)

/-- The method `translatePath(path)`: a fresh array (`[].concat(path)`) with the numbers
replaced. -/
def translatePath (xTranslate yTranslate : ℚ → ℚ) (yAxis : Axis) (path : List PathToken) :
    List PathToken :=
  (translateLoop xTranslate yTranslate yAxis path).1

/-- What the claim on `translatePath` describes, read from the start of the path: the numbers
alternate between x and y beginning with x (`isX = true`), commands stay as they are. -/
def projectFromStart (xTranslate yTranslate : ℚ → ℚ) (yAxis : Axis) :
    Bool → List PathToken → List PathToken
  | _, [] => []
  | isX, PathToken.cmd c :: rest =>
    PathToken.cmd c :: projectFromStart xTranslate yTranslate yAxis isX rest
  | isX, PathToken.num v :: rest =>
    (if isX then PathToken.num (jsRound (xTranslate v))
     else PathToken.num (jsRound (yAxis.len - yTranslate v)))
      :: projectFromStart xTranslate yTranslate yAxis (!isX) rest
  | isX, PathToken.nan :: rest =>
    PathToken.nan :: projectFromStart xTranslate yTranslate yAxis (!isX) rest

/-- The path `['M', 0, 0, 'L', 10, 0, 'L', 10, 5, 'Z']` of the extent example. -/
def examplePath : List PathToken :=
  [PathToken.cmd "M", PathToken.num 0, PathToken.num 0, PathToken.cmd "L", PathToken.num 10,
   PathToken.num 0, PathToken.cmd "L", PathToken.num 10, PathToken.num 5, PathToken.cmd "Z"]

/-- A path whose coordinates are all negative: `['M', -10, -10, 'L', -5, -5, 'Z']`. -/
def negativePath : List PathToken :=
  [PathToken.cmd "M", PathToken.num (-10), PathToken.num (-10), PathToken.cmd "L",
   PathToken.num (-5), PathToken.num (-5), PathToken.cmd "Z"]

/-- A shape with the given path and no other option set. -/
def Shape.ofPath (path : List PathToken) : Shape :=
  { path := some path, middleX := none, middleY := none, midX := none, midY := none }

/-! ## `Highcharts.splitPath` -/

/-- The character class `[A-Za-z]`. -/
def isLetter (c : Char) : Bool :=
  (65 ≤ c.toNat && c.toNat ≤ 90) || (97 ≤ c.toNat && c.toNat ≤ 122)

/-- The character class `\s` of a regular expression, which is also what `parseFloat` skips at
the start: tab, line feed, vertical tab, form feed, carriage return, space, no-break space,
the other Unicode space separators, the line and paragraph separators and the byte order
mark. -/
def isWhiteSpace (c : Char) : Bool :=
  (9 ≤ c.toNat && c.toNat ≤ 13) || c.toNat = 32 || c.toNat = 160 || c.toNat = 5760 ||
  (8192 ≤ c.toNat && c.toNat ≤ 8202) || c.toNat = 8232 || c.toNat = 8233 || c.toNat = 8239 ||
  c.toNat = 8287 || c.toNat = 12288 || c.toNat = 65279

/-- The character class `[ ,]`: a space or a comma. -/
def isSeparator (c : Char) : Bool := c.toNat = 32 || c.toNat = 44

/-- A decimal digit `0` to `9`. -/
def isDigit (c : Char) : Bool := 48 ≤ c.toNat && c.toNat ≤ 57

/-- The first statement, `path.replace(/([A-Za-z])/g, ' $1 ')`: every letter gets a space on
both sides. -/
def moveLettersApart : List Char → List Char
  | [] => []
  | c :: cs =>
    if isLetter c then ' ' :: c :: ' ' :: moveLettersApart cs else c :: moveLettersApart cs

/-- The replacement `.replace(/\s*$/, "")`: the white space at the end is removed. -/
def trimEnd : List Char → List Char
  | [] => []
  | c :: cs => if trimEnd cs = [] ∧ isWhiteSpace c = true then [] else c :: trimEnd cs

/-- The second statement, `path.replace(/^\s*/, "").replace(/\s*$/, "")`. -/
def trim (s : List Char) : List Char := trimEnd (s.dropWhile isWhiteSpace)

/-- The third statement, `path.split(/[ ,]+/)`: the pieces between the maximal runs of
separators, with an empty piece before a leading run and after a trailing run; the empty
string gives one empty piece. -/
def splitSeparators : List Char → List (List Char)
  | [] => [[]]
  | c :: cs =>
    if isSeparator c then
      match cs with
      | [] => [[], []]
      | d :: _ => if isSeparator d then splitSeparators cs else [] :: splitSeparators cs
    else
      match splitSeparators cs with
      | [] => [[c]]
      | piece :: pieces => (c :: piece) :: pieces

/-- The value of a digit character. -/
def digitValue (c : Char) : ℕ := c.toNat - 48

/-- The value of a run of digit characters read as a decimal numeral. -/
def digitsValue (ds : List Char) : ℕ := ds.foldl (fun n c => 10 * n + digitValue c) 0

/-- The exponent of a numeric string after its digits: `e` or `E`, an optional sign and at
least one digit; 0 when there is no such part. -/
def exponentPart : List Char → ℤ
  | [] => 0
  | c :: rest =>
    if c = 'e' ∨ c = 'E' then
      match rest with
      | [] => 0
      | d :: ds =>
        if d = '-' then
          (if ds.takeWhile isDigit = [] then 0 else -(digitsValue (ds.takeWhile isDigit) : ℤ))
        else if d = '+' then
          (if ds.takeWhile isDigit = [] then 0 else (digitsValue (ds.takeWhile isDigit) : ℤ))
        else
          (if rest.takeWhile isDigit = [] then 0 else (digitsValue (rest.takeWhile isDigit) : ℤ))
    else 0

/-- The unsigned part of what `parseFloat` reads: digits, an optional point with more digits,
an optional exponent; `none` (for `NaN`) when there is no digit at all. -/
def parseUnsigned (s : List Char) : Option ℚ :=
  let intDigits := s.takeWhile isDigit
  let afterInt := s.dropWhile isDigit
  let fracDigits := match afterInt with
    | [] => []
    | c :: r => if c = '.' then r.takeWhile isDigit else []
  let afterFrac := match afterInt with
    | [] => []
    | c :: r => if c = '.' then r.dropWhile isDigit else afterInt
  if intDigits = [] ∧ fracDigits = [] then none
  else
    some (((digitsValue intDigits : ℚ) + (digitsValue fracDigits : ℚ) / 10 ^ fracDigits.length)
      * 10 ^ exponentPart afterFrac)

/-- The built-in `parseFloat` on a string: leading white space is skipped, then the longest
decimal literal is read and what follows is ignored; `none` stands for `NaN`. The literal
`Infinity` is not modelled: it is made of letters, and `splitPath` never passes a string with a
letter to `parseFloat`. -/
def parseFloat (s : List Char) : Option ℚ :=
  match s.dropWhile isWhiteSpace with
  | [] => none
  | c :: r =>
    if c = '-' then (parseUnsigned r).map (fun v => -v)
    else if c = '+' then parseUnsigned r
    else parseUnsigned (c :: r)

/-- The body of the `for` loop of `splitPath`: a piece in which `/[a-zA-Z]/` finds a letter is
kept as a string, another piece is replaced by `parseFloat` of it. -/
def pieceToken (piece : List Char) : PathToken :=
  if piece.any isLetter then PathToken.cmd (String.mk piece)
  else
    match parseFloat piece with
    | some v => PathToken.num v
    | none => PathToken.nan

/-- The function `Highcharts.splitPath(path)`. -/
def splitPath (path : String) : List PathToken :=
  (splitSeparators (trim (moveLettersApart path.data))).map pieceToken

/-! ### Well-formed path strings, as the claim on `splitPath` describes them -/

/-- The character of a decimal digit. -/
def digitChar (d : Fin 10) : Char := Char.ofNat (48 + d.val)

/-- The number written by a run of decimal digits. -/
def digitsNat (ds : List (Fin 10)) : ℕ := ds.foldl (fun n d => 10 * n + d.val) 0

/-- The sign written in front of a decimal operand: none, `+` or `-`. -/
inductive Sign where
  | absent
  | plus
  | minus
  deriving DecidableEq, Repr

/-- The characters of a sign. -/
def Sign.chars : Sign → List Char
  | Sign.absent => []
  | Sign.plus => ['+']
  | Sign.minus => ['-']

/-- A decimal operand as written: a sign, the digits before the point and, when there is a
point, the digits after it. -/
structure NumLit where
  sign : Sign
  intDigits : List (Fin 10)
  fracDigits : Option (List (Fin 10))
  deriving DecidableEq, Repr

/-- The characters after the integer digits: nothing, or the point and the digits after it. -/
def NumLit.fracChars (n : NumLit) : List Char :=
  match n.fracDigits with
  | none => []
  | some f => '.' :: f.map digitChar

/-- The characters of a decimal operand. -/
def NumLit.chars (n : NumLit) : List Char :=
  n.sign.chars ++ (n.intDigits.map digitChar ++ n.fracChars)

/-- The absolute value that a decimal operand denotes. -/
def NumLit.magnitude (n : NumLit) : ℚ :=
  match n.fracDigits with
  | none => (digitsNat n.intDigits : ℚ)
  | some f => (digitsNat n.intDigits : ℚ) + (digitsNat f : ℚ) / 10 ^ f.length

/-- The number that a decimal operand denotes. -/
def NumLit.value (n : NumLit) : ℚ :=
  match n.sign with
  | Sign.minus => -n.magnitude
  | _ => n.magnitude

/-- A decimal operand has at least one digit, before or after the point. -/
def NumLit.wf (n : NumLit) : Bool :=
  !n.intDigits.isEmpty ||
    (match n.fracDigits with
     | none => false
     | some f => !f.isEmpty)

/-- A token as written in a path string: a one-letter command or a decimal operand. -/
inductive PathItem where
  | command (c : Char)
  | number (n : NumLit)
  deriving DecidableEq, Repr

/-- The characters of a written token. -/
def PathItem.chars : PathItem → List Char
  | PathItem.command c => [c]
  | PathItem.number n => n.chars

/-- The token that a written token stands for: the command as a one-character string, the
operand as its numeric value. -/
def PathItem.token : PathItem → PathToken
  | PathItem.command c => PathToken.cmd (String.mk [c])
  | PathItem.number n => PathToken.num n.value

/-- A written command is a letter; a written operand has a digit. -/
def PathItem.wf : PathItem → Bool
  | PathItem.command c => isLetter c
  | PathItem.number n => n.wf

/-- Whether a written token is an operand. -/
def PathItem.isOperand : PathItem → Bool
  | PathItem.command _ => false
  | PathItem.number _ => true

/-- A path string with at least one token: white space, the first token, then each further
token with the separator characters written before it, then white space. -/
structure PathText where
  leading : List Char
  first : PathItem
  rest : List (List Char × PathItem)
  trailing : List Char
  deriving DecidableEq, Repr

/-- The characters of the further tokens with their separators. -/
def restChars : List (List Char × PathItem) → List Char
  | [] => []
  | (sep, item) :: more => sep ++ (item.chars ++ restChars more)

/-- The characters of a path string. -/
def PathText.chars (t : PathText) : List Char :=
  t.leading ++ (t.first.chars ++ (restChars t.rest ++ t.trailing))

/-- The tokens of a path string in input order. -/
def PathText.tokens (t : PathText) : List PathToken :=
  t.first.token :: t.rest.map (fun p => p.2.token)

/-- The further tokens are well formed when each separator is made of characters accepted by
`sepChar`, a separator between two operands is not empty, and each token is well formed. -/
def restWf (sepChar : Char → Bool) : PathItem → List (List Char × PathItem) → Bool
  | _, [] => true
  | previous, (sep, item) :: more =>
    sep.all sepChar && (!(previous.isOperand && item.isOperand) || !sep.isEmpty) &&
      item.wf && restWf sepChar item more

/-- A path string of the kind `split(/[ ,]+/)` is written for: tokens separated by spaces and
commas, the separator being optional next to a letter, and any white space around the
whole. -/
def PathText.wf (t : PathText) : Bool :=
  t.leading.all isWhiteSpace && t.trailing.all isWhiteSpace && t.first.wf &&
    restWf isSeparator t.first t.rest

/-- White space of any kind, or a comma. -/
def isLooseSeparator (c : Char) : Bool := isWhiteSpace c || c.toNat = 44

/-- A path string in the words of the claim: tokens separated by optional white space and
commas, where white space is any white space. -/
def PathText.wfAsStated (t : PathText) : Bool :=
  t.leading.all isWhiteSpace && t.trailing.all isWhiteSpace && t.first.wf &&
    restWf isLooseSeparator t.first t.rest

/-- The operand `0`. -/
def zeroLit : NumLit := { sign := Sign.absent, intDigits := [0], fracDigits := none }

/-- The operand `10`. -/
def tenLit : NumLit := { sign := Sign.absent, intDigits := [1, 0], fracDigits := none }

/-- The path string `M0,0L10,10Z` as written tokens. -/
def exampleText : PathText :=
  { leading := [], first := PathItem.command 'M',
    rest := [([], PathItem.number zeroLit), ([','], PathItem.number zeroLit),
             ([], PathItem.command 'L'), ([], PathItem.number tenLit),
             ([','], PathItem.number tenLit), ([], PathItem.command 'Z')],
    trailing := [] }

/-- The path string `M0<tab>0`: the two operands are separated by a tab. -/
def tabText : PathText :=
  { leading := [], first := PathItem.command 'M',
    rest := [([], PathItem.number zeroLit), (['\t'], PathItem.number zeroLit)],
    trailing := [] }

/-- The space that `moveLettersApart` puts on each side of a written command. -/
def PathItem.pad : PathItem → List Char
  | PathItem.command _ => [' ']
  | PathItem.number _ => []

/-- The further tokens once the letters are moved apart, followed by the trailing white
space. -/
def movedRest : List (List Char × PathItem) → List Char → List Char
  | [], trailing => trailing
  | (sep, item) :: more, trailing =>
    sep ++ (item.pad ++ (item.chars ++ (item.pad ++ movedRest more trailing)))

/-- A character of a decimal operand: a digit, `+`, `-` or the point. -/
def isNumChar (c : Char) : Bool :=
  isDigit c || c.toNat = 43 || c.toNat = 45 || c.toNat = 46

/-! ## Colours: `tweenColors` and `translateColors` -/

/-- The four numbers of the `rgba` array of a parsed colour (the host's `Color(...)`). -/
structure RGBA where
  r : ℚ
  g : ℚ
  b : ℚ
  a : ℚ
  deriving DecidableEq, Repr

/-- A colour value: a colour string of the options, or the string `'rgba(r,g,b,a)'` that
`tweenColors` builds, kept as its four numbers. -/
inductive Colour where
  | str (s : String)
  | rgba (r g b a : JSNum)
  deriving DecidableEq, Repr

/-- The test `if (color)` on a colour string: only the empty string is falsy. -/
def Colour.truthy : Colour → Bool
  | Colour.str s => decide (s ≠ "")
  | Colour.rgba _ _ _ _ => true

/-- One channel of `tweenColors`:
`Math.round(to.rgba[i] + (from.rgba[i] - to.rgba[i]) * (1 - pos))`. -/
def tweenChannel (from_ to_ : ℚ) (pos : JSNum) : JSNum :=
  JSNum.round
    (JSNum.add (JSNum.fin to_)
      (JSNum.mul (JSNum.fin (from_ - to_)) (JSNum.sub (JSNum.fin 1) pos)))

/-- The function `tweenColors(from, to, pos)`; the loop `while (i--)` treats the four channels
alike. -/
def tweenColors (from_ to_ : RGBA) (pos : JSNum) : Colour :=
  Colour.rgba (tweenChannel from_.r to_.r pos) (tweenChannel from_.g to_.g pos)
    (tweenChannel from_.b to_.b pos) (tweenChannel from_.a to_.a pos)

/-- The value `point[colorKey]` of a point: `undefined`, `null` or a number. -/
inductive Value where
  | undefined
  | null
  | num (v : ℚ)
  deriving DecidableEq, Repr

/-- An entry of the option `valueRanges`: optional bounds `from` and `to` (`none` when the
property is missing) and a colour. -/
structure ValueRange where
  from_ : Option ℚ
  to_ : Option ℚ
  color : Colour
  deriving DecidableEq, Repr

/-- The option `colorRange`, with its two colours already parsed by `Color(...)`. -/
structure ColorRange where
  from_ : RGBA
  to_ : RGBA
  deriving DecidableEq, Repr

/-- The series options that `translateColors` reads. -/
structure SeriesOptions where
  valueRanges : Option (List ValueRange)
  colorRange : Option ColorRange
  nullColor : Colour
  deriving DecidableEq, Repr

/-- A point of the series: its value, its `color` (reset to `null`, here `none`, when a
colour is written) and its `options.color`. -/
structure Point where
  value : Value
  color : Option Colour
  optionsColor : Option Colour
  deriving DecidableEq, Repr

/-- The test `(from === UNDEFINED || value >= from) && (to === UNDEFINED || value <= to)`. -/
def ValueRange.test (range : ValueRange) (value : ℚ) : Bool :=
  (match range.from_ with
    | none => true
    | some f => decide (value ≥ f)) &&
  (match range.to_ with
    | none => true
    | some t => decide (value ≤ t))

/-- The loop `i = valueRanges.length; while (i--) { ... break; }` given the ranges from the
last one to the first: the colour of the first range met that passes the test. -/
def rangeLoop (value : ℚ) : List ValueRange → Option Colour
  | [] => none
  | range :: earlier => if range.test value then some range.color else rangeLoop value earlier

/-- The local variable `color` at the end of the callback of `translateColors`
(`none` while it is still `undefined`). -/
def pointColor (seriesOptions : SeriesOptions) (dataMin dataMax : ℚ) (value : Value) :
    Option Colour :=
  match seriesOptions.valueRanges with
  | some valueRanges =>
    match value with
    | Value.num v => rangeLoop v valueRanges.reverse
    -- value === null || value === undefined
    | _ => some seriesOptions.nullColor
  | none =>
    match seriesOptions.colorRange, value with
    -- colorRange && value !== undefined
    | some _, Value.null => some seriesOptions.nullColor
    | some colorRange, Value.num v =>
      -- pos = 1 - ((dataMax - value) / (dataMax - dataMin))
      let pos := JSNum.sub (JSNum.fin 1)
        (JSNum.div (JSNum.fin (dataMax - v)) (JSNum.fin (dataMax - dataMin)))
      some (tweenColors colorRange.from_ colorRange.to_ pos)
    | _, _ => none

/-- The final `if (color) { point.color = null; point.options.color = color; }`. -/
def Point.write (point : Point) (color : Option Colour) : Point :=
  match color with
  | some c => if c.truthy then { point with color := none, optionsColor := some c } else point
  | none => point

/-- The method `translateColors(dataMin, dataMax)` on the points `this.data`. -/
def translateColors (seriesOptions : SeriesOptions) (dataMin dataMax : ℚ) (data : List Point) :
    List Point :=
  data.map (fun point => point.write (pointColor seriesOptions dataMin dataMax point.value))

/-- Reference for the discrete mode, in the words of the claim: whether the bounds of a range
contain a value, a missing bound being unbounded. -/
def ValueRange.contains (range : ValueRange) (value : ℚ) : Bool :=
  decide ((∀ f ∈ range.from_, f ≤ value) ∧ (∀ t ∈ range.to_, value ≤ t))

/-- Reference for the discrete mode, in the words of the claim: a `null` or `undefined` value
gets `nullColor`; another value gets the colour of the last-declared range that contains it;
when no range contains it the point is left as it is. -/
def discreteReference (nullColor : Colour) (valueRanges : List ValueRange) (point : Point) :
    Point :=
  match point.value with
  | Value.num v =>
    match (valueRanges.filter (fun range => range.contains v)).getLast? with
    | some range => { point with color := none, optionsColor := some range.color }
    | none => point
  | _ => { point with color := none, optionsColor := some nullColor }

/-- The ranges `[{to: 5, color: 'A'}, {from: 5, to: 10, color: 'B'}]` of the colour example. -/
def exampleRanges : List ValueRange :=
  [{ from_ := none, to_ := some 5, color := Colour.str "A" },
   { from_ := some 5, to_ := some 10, color := Colour.str "B" }]

/-- Series options in discrete mode with the example ranges and the default `nullColor`. -/
def discreteOptions : SeriesOptions :=
  { valueRanges := some exampleRanges, colorRange := none, nullColor := Colour.str "#F8F8F8" }

/-- A point with the given value and no colour yet. -/
def Point.ofValue (value : Value) : Point :=
  { value := value, color := none, optionsColor := none }

/-- Series options in gradient mode from `rgba(0,0,0,1)` to `rgba(255,255,255,1)`. -/
def gradientOptions : SeriesOptions :=
  { valueRanges := none,
    colorRange := some { from_ := ⟨0, 0, 0, 1⟩, to_ := ⟨255, 255, 255, 1⟩ },
    nullColor := Colour.str "#F8F8F8" }

/-- Series options in gradient mode between two half-transparent colours,
`rgba(0,0,0,0.5)` and `rgba(255,255,255,0.5)`. -/
def translucentOptions : SeriesOptions :=
  { valueRanges := none,
    colorRange := some { from_ := ⟨0, 0, 0, 1 / 2⟩, to_ := ⟨255, 255, 255, 1 / 2⟩ },
    nullColor := Colour.str "#F8F8F8" }

/-- A parsed colour as a colour value, channel by channel and without rounding. -/
def Colour.ofRGBA (c : RGBA) : Colour :=
  Colour.rgba (JSNum.fin c.r) (JSNum.fin c.g) (JSNum.fin c.b) (JSNum.fin c.a)

/-- Reference for the gradient mode, in the words of the claim: each channel is
`round (from_i + (to_i - from_i) * pos)`. -/
def gradientColour (colorRange : ColorRange) (pos : ℚ) : Colour :=
  Colour.rgba
    (JSNum.fin (jsRound (colorRange.from_.r + (colorRange.to_.r - colorRange.from_.r) * pos)))
    (JSNum.fin (jsRound (colorRange.from_.g + (colorRange.to_.g - colorRange.from_.g) * pos)))
    (JSNum.fin (jsRound (colorRange.from_.b + (colorRange.to_.b - colorRange.from_.b) * pos)))
    (JSNum.fin (jsRound (colorRange.from_.a + (colorRange.to_.a - colorRange.from_.a) * pos)))

/-- A parsed colour whose four channels are whole numbers. -/
def RGBA.integral (c : RGBA) : Prop :=
  ∃ r g b a : ℤ, c = { r := r, g := g, b := b, a := a }

/-- Whether a path holds an odd number of numbers. -/
def oddNumbers : List PathToken → Bool
  | [] => false
  | PathToken.cmd _ :: rest => oddNumbers rest
  | _ :: rest => !oddNumbers rest

/-- A linear axis transform `v ↦ 2 * v + 1`, used for sample evaluations. -/
def sampleTranslate (v : ℚ) : ℚ := 2 * v + 1

/-- The current range `max - min` of an axis (`xRange`, `yRange` in `mapZoom`). -/
def Axis.range (a : Axis) : ℚ := a.max - a.min

/-- The focal coordinate of a zoom on an axis: the supplied one or, when it is omitted, the
current midpoint `min + range / 2`. -/
def Axis.zoomCenter (a : Axis) (arg : Option ℚ) : ℚ :=
  match arg with
  | some c => c
  | none => a.min + a.range / 2

/-- A small idle chart: both axes show `[0, 10]` of data bounds `[0, 100]`. -/
def sampleAxis : Axis :=
  { min := 0, max := 10, dataMin := 0, dataMax := 100, len := 200, transA := none,
    minPixelPadding := JSNum.fin 0 }

/-- A small idle chart with the default animation setting. -/
def sampleChart : Chart :=
  { chartType := "map", animation := Animation.undefined, plotWidth := 200, plotHeight := 200,
    xAxis := sampleAxis, yAxis := sampleAxis, isMapZooming := false }

/-- The chart as it is once the transition of a zoom is over: the flag `isMapZooming` is
cleared (the timer set by `mapZoom` does this), everything else stays. -/
def Chart.idle (chart : Chart) : Chart := { chart with isMapZooming := false }

/-- An idle chart that shows `[40, 50]` of the data bounds `[0, 100]` on both axes. -/
def innerChart : Chart :=
  { chartType := "map", animation := Animation.undefined, plotWidth := 200, plotHeight := 200,
    xAxis := { min := 40, max := 50, dataMin := 0, dataMax := 100, len := 200, transA := none,
               minPixelPadding := JSNum.fin 0 },
    yAxis := { min := 40, max := 50, dataMin := 0, dataMax := 100, len := 200, transA := none,
               minPixelPadding := JSNum.fin 0 },
    isMapZooming := false }

/-- The candidate box `{x: -10, y: 0, width: 120, height: 50}` of the box-fitting example. -/
def wideBox : Box := { x := -10, y := 0, width := 120, height := 50 }

/-- The bound `{x: 0, y: 0, width: 100, height: 50}` of the box-fitting example. -/
def boundBox : Box := { x := 0, y := 0, width := 100, height := 50 }

/-- A box that fits in `boundBox` but hangs over its right edge. -/
def shiftedBox : Box := { x := 70, y := 10, width := 40, height := 20 }

/-! ### Writing a token sequence back to text -/

/-- The decimal digits of `n` put in front of `acc`, most significant first; `fuel` bounds the
number of digits. -/
def natDigitsAux : ℕ → ℕ → List (Fin 10) → List (Fin 10)
  | 0, _, acc => acc
  | fuel + 1, n, acc =>
    if n = 0 then acc else natDigitsAux fuel (n / 10) (Fin.ofNat (n % 10) :: acc)

/-- The decimal digits of a natural number, most significant first; no digit for 0. -/
def natDigits (n : ℕ) : List (Fin 10) := natDigitsAux n n []

/-- The search for the least `j` from `start` on with `den ∣ 10 ^ j`, in at most `fuel`
steps. -/
def decimalPlacesAux (den : ℕ) : ℕ → ℕ → ℕ
  | 0, start => start
  | fuel + 1, start =>
    if 10 ^ start % den = 0 then start else decimalPlacesAux den fuel (start + 1)

/-- The number of digits after the point in the decimal writing of a fraction with
denominator `den` in lowest terms: the least `j` with `den ∣ 10 ^ j`. Every double is such a
fraction. -/
def decimalPlaces (den : ℕ) : ℕ := decimalPlacesAux den den 0

/-- A run of digits without its zeros at the end. -/
def stripTrailingZeros (ds : List (Fin 10)) : List (Fin 10) :=
  (ds.reverse.dropWhile (fun d => decide (d = 0))).reverse

/-- The exponent notation of number-to-string conversion, for the digits `ds` and the decimal
exponent `n` (the value is `0.ds × 10 ^ n`): the first digit, the point and the other
significant digits when there are any, then `e`, the sign of `n - 1` and its digits. -/
def exponentForm (ds : List (Fin 10)) (n : ℤ) : List Char :=
  (match stripTrailingZeros ds with
    | [] => []
    | [d] => [digitChar d]
    | d :: more => digitChar d :: '.' :: more.map digitChar) ++
  ('e' :: (if n - 1 < 0 then '-' else '+') :: (natDigits (n - 1).natAbs).map digitChar)

/-- The standard string form of the positive number `num / den` (a fraction in lowest terms),
after the rules of number-to-string conversion in the language standard: with `ds` its
significant digits and `n` its decimal exponent, plain digits for a whole number of at most 21
digits, digits with a point inside when `0 < n ≤ 21`, `0.` followed by zeros and the digits
when `-6 < n ≤ 0`, and exponent notation otherwise. -/
def positiveToString (num den : ℕ) : List Char :=
  let j := decimalPlaces den
  let ds := natDigits (num * 10 ^ j / den)
  let n : ℤ := (ds.length : ℤ) - (j : ℤ)
  if j = 0 ∧ n ≤ 21 then ds.map digitChar
  else if 0 < j ∧ 0 < n ∧ n ≤ 21 then
    (ds.take n.toNat).map digitChar ++ '.' :: (ds.drop n.toNat).map digitChar
  else if -6 < n ∧ n ≤ 0 then
    '0' :: '.' :: ((List.replicate (-n).toNat (0 : Fin 10)).map digitChar ++ ds.map digitChar)
  else exponentForm ds n

/-- The standard string form `String(v)` of a finite number. -/
def numberToString (v : ℚ) : List Char :=
  if v = 0 then ['0']
  else if v < 0 then '-' :: positiveToString v.num.natAbs v.den
  else positiveToString v.num.natAbs v.den

/-- The text of one token: a command as its string, a number in its standard string form. -/
def serializeToken : PathToken → List Char
  | PathToken.cmd s => s.data
  | PathToken.num v => numberToString v
  | PathToken.nan => ['N', 'a', 'N']

/-- The texts of the tokens after the first, each with the joining character in front. -/
def serializeRest (sep : Char) : List PathToken → List Char
  | [] => []
  | tok :: more => sep :: (serializeToken tok ++ serializeRest sep more)

/-- The token sequence written back to text, the tokens joined by `sep`
(`path.join(' ')` or `path.join(',')`). -/
def serialize (sep : Char) : List PathToken → List Char
  | [] => []
  | tok :: more => serializeToken tok ++ serializeRest sep more

/-- The operands of a path string, as written. -/
def PathText.operands (t : PathText) : List NumLit :=
  (t.first :: t.rest.map (fun p => p.2)).filterMap (fun item =>
    match item with
    | PathItem.number n => some n
    | PathItem.command _ => none)

/-- The path string `M0.0000001`: its operand is one ten-millionth. -/
def tinyText : PathText :=
  { leading := [], first := PathItem.command 'M',
    rest := [([], PathItem.number
      { sign := Sign.absent, intDigits := [0], fracDigits := some [0, 0, 0, 0, 0, 0, 1] })],
    trailing := [] }

/-! ### The vector-path mini-language -/

/-- The command letters of the claim on the vector-path mini-language: move, line, cubic
curve and close, in upper and lower case. -/
def isSvgCommand (c : Char) : Bool :=
  c = 'M' || c = 'm' || c = 'L' || c = 'l' || c = 'C' || c = 'c' || c = 'Z' || c = 'z'

/-- A written token of the mini-language: an operand, or one of its command letters. -/
def PathItem.isSvg : PathItem → Bool
  | PathItem.command c => isSvgCommand c
  | PathItem.number _ => true

/-- A path string all of whose commands are move, line, cubic-curve or close commands. -/
def PathText.isSvg (t : PathText) : Bool :=
  t.first.isSvg && t.rest.all (fun p => p.2.isSvg)

/-- The path string `M10 -5L3.5,4Z` as written tokens. -/
def svgText : PathText :=
  { leading := [], first := PathItem.command 'M',
    rest := [([], PathItem.number tenLit),
             ([' '], PathItem.number { sign := Sign.minus, intDigits := [5], fracDigits := none }),
             ([], PathItem.command 'L'),
             ([], PathItem.number { sign := Sign.absent, intDigits := [3], fracDigits := some [5] }),
             ([','], PathItem.number { sign := Sign.absent, intDigits := [4], fracDigits := none }),
             ([], PathItem.command 'Z')],
    trailing := [] }

/-! ## `translate`: the value extremes handed to `translateColors` -/

/-- A point of a map series as `translate` sees it: the fields used for colouring (its value
is `point.y`, the series' `colorKey` being `'y'`), its `path` and its `shapeArgs.d`. -/
structure MapPoint where
  point : Point
  path : List PathToken
  shapeArgs : Option (List PathToken)
  deriving DecidableEq, Repr

/-- The body of the callback of `translate` that follows `dataMin` and `dataMax`, as a
function of the pair `(dataMin, dataMax)`:
`if (typeof point.y === 'number') { if (point.y > dataMax) { dataMax = point.y; }
else if (point.y < dataMin) { dataMin = point.y; } }`. -/
def extremesStep (acc : ℚ × ℚ) (y : Value) : ℚ × ℚ :=
  match y with
  | Value.num v =>
    if v > acc.2 then (acc.1, v)
    else if v < acc.1 then (v, acc.2)
    else acc
  | _ => acc

/-- The variables `dataMin` and `dataMax` of `translate` after the loop over `series.data`;
they start at `Number.MAX_VALUE` and `Number.MIN_VALUE`. -/
def translateExtremes (data : List MapPoint) : ℚ × ℚ :=
  data.foldl (fun acc p => extremesStep acc p.point.value) (MAX_VALUE, MIN_VALUE)

/-- The method `translate()`: every point gets `shapeArgs.d = translatePath(point.path)`, then
`translateColors(dataMin, dataMax)` runs on the points. -/
def translate (xTranslate yTranslate : ℚ → ℚ) (yAxis : Axis) (seriesOptions : SeriesOptions)
    (data : List MapPoint) : List MapPoint :=
  let extremes := translateExtremes data
  List.zipWith
    (fun p coloured =>
      { p with point := coloured
               shapeArgs := some (translatePath xTranslate yTranslate yAxis p.path) })
    data (translateColors seriesOptions extremes.1 extremes.2 (data.map (fun p => p.point)))

/-- A map point with the given numeric value and an empty path. -/
def MapPoint.ofNumber (v : ℚ) : MapPoint :=
  { point := Point.ofValue (Value.num v), path := [], shapeArgs := none }

/-! ## The wrapper around `Axis.prototype.getSeriesExtremes` -/

/-- The fields of a series that the wrapper of `getSeriesExtremes` reads or writes. -/
structure Series where
  useMapGeometry : Bool
  xData : List ℚ
  minX : ℚ
  maxX : ℚ
  minY : ℚ
  maxY : ℚ
  deriving DecidableEq, Repr

/-- The first loop of the wrapper: the `xData` of every map-geometry series is put aside and
replaced by an empty array. -/
def hideXData (series : List Series) : List Series :=
  series.map (fun s => if s.useMapGeometry then { s with xData := [] } else s)

/-- The second loop of the wrapper on the pair `(dataMin, dataMax)`: every map-geometry series
brings in its `minX`/`maxX` on an X axis and its `minY`/`maxY` on a Y axis. -/
def geometryExtremes (isXAxis : Bool) (start : ℚ × ℚ) (series : List Series) : ℚ × ℚ :=
  series.foldl
    (fun acc s =>
      if s.useMapGeometry then
        (min acc.1 (if isXAxis then s.minX else s.minY),
         max acc.2 (if isXAxis then s.maxX else s.maxY))
      else acc)
    start

/-- The wrapper installed by `wrap(Axis.prototype, 'getSeriesExtremes', ...)`. The wrapped host
method is the parameter `proceed`: from the series as it sees them (the map-geometry ones
without `xData`) it gives the axis's `dataMin` and `dataMax`, `none` when it found no value.
The result is the axis with its new `dataMin` and `dataMax`, and the series with their
`xData` put back. -/
def getSeriesExtremes (proceed : List Series → Option ℚ × Option ℚ) (isXAxis : Bool)
    (axis : Axis) (series : List Series) : Axis × List Series :=
  let generic := proceed (hideXData series)
  -- dataMin = pick(this.dataMin, Number.MAX_VALUE); dataMax = pick(this.dataMax, Number.MIN_VALUE)
  let start : ℚ × ℚ := (pick generic.1 MAX_VALUE, pick generic.2 MIN_VALUE)
  let extremes := geometryExtremes isXAxis start series
  ({ axis with dataMin := extremes.1, dataMax := extremes.2 }, series)

/-- A map-geometry series whose extent lies in the negative quadrant: x and y from -10 to -5. -/
def negativeSeries : Series :=
  { useMapGeometry := true, xData := [], minX := -10, maxX := -5, minY := -10, maxY := -5 }

/-- The shared scale of the claim on centring: the smaller of the two scales
`len / (max - min)`. -/
def sharedScale (chart : Chart) : ℚ :=
  min (chart.yAxis.len / chart.yAxis.range) (chart.xAxis.len / chart.xAxis.range)

/-- The padding of the claim on centring: `(len - (max - min) * sharedScale) / 2`. -/
def centringPad (a : Axis) (shared : ℚ) : ℚ := (a.len - a.range * shared) / 2

/-- The chart of the axis-lock example once the generic scale of its X axis is known. -/
def lockChartX : Chart := setAxisTranslation genericSetAxisTranslation lockChart true

/-! ## The coordinates of a path, read from its start -/

/-- The test `typeof path[i] === 'number' && !isNaN(path[i])` of the loop of `getBox`. -/
def PathToken.isCoordinate : PathToken → Bool
  | PathToken.num _ => true
  | _ => false

/-- Whether a path holds an odd number of elements that pass the test of `getBox`. -/
def oddCoordinates : List PathToken → Bool
  | [] => false
  | PathToken.num _ :: rest => !oddCoordinates rest
  | _ :: rest => oddCoordinates rest

/-- The four bounds among the loop variables of `getBox`. -/
def PointBox.extent (b : PointBox) : Extent :=
  { minX := b.minX, maxX := b.maxX, minY := b.minY, maxY := b.maxY }

/-- What the claim on the axes of the coordinates describes, read from the start of the path:
the coordinates alternate between x and y, the first one met being an x when `isX` is `true`;
commands and `NaN` are passed over. The bounds start at the same sentinels as in `getBox`. -/
def boxFromStart : Bool → List PathToken → Extent
  | _, [] => { minX := MAX_VALUE, maxX := MIN_VALUE, minY := MAX_VALUE, maxY := MIN_VALUE }
  | isX, PathToken.num v :: rest =>
    let e := boxFromStart (!isX) rest
    if isX then { e with maxX := max e.maxX v, minX := min e.minX v }
    else { e with maxY := max e.maxY v, minY := min e.minY v }
  | isX, _ :: rest => boxFromStart isX rest

/-- The path `['M', 1, 2, 3]`, with an odd number of coordinates. -/
def oddPath : List PathToken :=
  [PathToken.cmd "M", PathToken.num 1, PathToken.num 2, PathToken.num 3]

/-- A shape without coordinates: no element of `point.path || []` passes the test of
`getBox`. -/
def Shape.noCoordinates (point : Shape) : Bool :=
  (pick point.path []).all (fun tok => !tok.isCoordinate)

/-- A shape whose `path` is missing. -/
def pathlessShape : Shape :=
  { path := none, middleX := none, middleY := none, midX := none, midY := none }

/-- A shape whose path holds commands only: `['M', 'Z']`. -/
def commandShape : Shape := Shape.ofPath [PathToken.cmd "M", PathToken.cmd "Z"]

/-- The test `isNaN` on an element of a path. -/
def PathToken.isNaN : PathToken → Bool
  | PathToken.nan => true
  | _ => false

/-- The pieces that `splitPath` hands to its `for` loop: the input after the letters are moved
apart, the ends trimmed and the text split on spaces and commas. -/
def pathPieces (path : String) : List (List Char) :=
  splitSeparators (trim (moveLettersApart path.data))

/-- The token sequence `['M', 1, NaN, 2]`. -/
def malformedPath : List PathToken :=
  [PathToken.cmd "M", PathToken.num 1, PathToken.nan, PathToken.num 2]

/-- The test `isFinite` on a number: neither an infinity nor `NaN`. -/
def JSNum.isFinite : JSNum → Bool
  | JSNum.fin _ => true
  | _ => false

/-- A series without the flag `useMapGeometry`, with two x values. -/
def ordinarySeries : Series :=
  { useMapGeometry := false, xData := [1, 2], minX := 0, maxX := 0, minY := 0, maxY := 0 }

/-- The sample chart with `animation: false`. -/
def instantChart : Chart := { sampleChart with animation := Animation.bool false }

/-- The sample chart with `animation: {duration: 0}`. -/
def zeroDurationChart : Chart := { sampleChart with animation := Animation.object (some 0) }

/-- The sample chart with `animation: {duration: 250}`. -/
def timedChart : Chart := { sampleChart with animation := Animation.object (some 250) }

/-! # Theorems -/

/-! ## Box fitting and zooming -/

/-- One dimension of `fitToBox`: the fitted interval lies inside the outer one. -/
theorem fitDim_inside (pos size opos osize : ℚ) :
    opos ≤ (fitDim pos size opos osize).1 ∧
      (fitDim pos size opos osize).1 + (fitDim pos size opos osize).2 ≤ opos + osize := by
  dsimp only [fitDim]
  by_cases h1 : pos + size > opos + osize <;> by_cases h2 : size > osize <;>
    by_cases h3 : pos < opos <;> simp only [h1, h2, h3, if_true, if_false] <;>
    constructor <;> (try split_ifs) <;> linarith

/-- One dimension of `fitToBox`: an interval that already lies inside the outer one is kept. -/
theorem fitDim_of_inside (pos size opos osize : ℚ) (h1 : opos ≤ pos)
    (h2 : pos + size ≤ opos + osize) : fitDim pos size opos osize = (pos, size) := by
  unfold fitDim
  have h3 : ¬ (pos + size > opos + osize) := not_lt.mpr h2
  have h4 : ¬ (size > osize) := by intro h; linarith
  have h5 : ¬ (pos < opos) := not_lt.mpr h1
  simp [h3, h4, h5]

/-- One dimension of `fitToBox`: the fitted size is the inner size or the outer size. -/
theorem fitDim_size (pos size opos osize : ℚ) :
    (fitDim pos size opos osize).2 = size ∨ (fitDim pos size opos osize).2 = osize := by
  dsimp only [fitDim]
  by_cases h1 : pos + size > opos + osize <;> by_cases h2 : size > osize <;>
    simp [h1, h2]

/-- C1: for every inner and outer box, the box returned by `fitToBox inner outer` lies inside
`outer` on both axes: its left edge is not before `outer.x`, its right edge not after
`outer.x + outer.width`, and likewise for `y` and `height`. -/
theorem fitToBox_inside (inner outer : Box) :
    outer.x ≤ (fitToBox inner outer).x ∧
    (fitToBox inner outer).x + (fitToBox inner outer).width ≤ outer.x + outer.width ∧
    outer.y ≤ (fitToBox inner outer).y ∧
    (fitToBox inner outer).y + (fitToBox inner outer).height ≤ outer.y + outer.height := by
  have hx := fitDim_inside inner.x inner.width outer.x outer.width
  have hy := fitDim_inside inner.y inner.height outer.y outer.height
  exact ⟨hx.1, hx.2, hy.1, hy.2⟩

/-- The extremes that an accepted `mapZoom` call stores on the two axes are the edges of the
fitted box. -/
theorem mapZoom_idle (howMuch : ℚ) (cx cy : Option ℚ) (chart : Chart)
    (hidle : chart.isMapZooming = false) :
    (mapZoom howMuch cx cy chart).xAxis.min =
        (fitDim (chart.xAxis.zoomCenter cx - chart.xAxis.range * howMuch / 2)
          (chart.xAxis.range * howMuch) chart.xAxis.dataMin
          (chart.xAxis.dataMax - chart.xAxis.dataMin)).1 ∧
    (mapZoom howMuch cx cy chart).xAxis.max =
        (fitDim (chart.xAxis.zoomCenter cx - chart.xAxis.range * howMuch / 2)
          (chart.xAxis.range * howMuch) chart.xAxis.dataMin
          (chart.xAxis.dataMax - chart.xAxis.dataMin)).1 +
        (fitDim (chart.xAxis.zoomCenter cx - chart.xAxis.range * howMuch / 2)
          (chart.xAxis.range * howMuch) chart.xAxis.dataMin
          (chart.xAxis.dataMax - chart.xAxis.dataMin)).2 ∧
    (mapZoom howMuch cx cy chart).yAxis.min =
        (fitDim (chart.yAxis.zoomCenter cy - chart.yAxis.range * howMuch / 2)
          (chart.yAxis.range * howMuch) chart.yAxis.dataMin
          (chart.yAxis.dataMax - chart.yAxis.dataMin)).1 ∧
    (mapZoom howMuch cx cy chart).yAxis.max =
        (fitDim (chart.yAxis.zoomCenter cy - chart.yAxis.range * howMuch / 2)
          (chart.yAxis.range * howMuch) chart.yAxis.dataMin
          (chart.yAxis.dataMax - chart.yAxis.dataMin)).1 +
        (fitDim (chart.yAxis.zoomCenter cy - chart.yAxis.range * howMuch / 2)
          (chart.yAxis.range * howMuch) chart.yAxis.dataMin
          (chart.yAxis.dataMax - chart.yAxis.dataMin)).2 := by
  cases cx <;> cases cy <;>
    simp [mapZoom, hidle, fitToBox, zoomCandidate, dataBox, Axis.setExtremes, Axis.zoomCenter,
      Axis.range, pick]

/-- C8: when the chart is idle and the candidate rectangle lies inside the data bounds,
`mapZoom howMuch cx cy` sets the extremes of each axis to `[c - r*howMuch/2, c + r*howMuch/2]`,
with `r` the current range and `c` the supplied focal coordinate or else the current midpoint;
so the new range is `howMuch` times the old one: smaller for a factor below 1 and larger for a
factor above 1, when the old range is positive. -/
theorem mapZoom_inside_bounds (howMuch : ℚ) (cx cy : Option ℚ) (chart : Chart)
    (hidle : chart.isMapZooming = false)
    (hx1 : chart.xAxis.dataMin ≤ chart.xAxis.zoomCenter cx - chart.xAxis.range * howMuch / 2)
    (hx2 : chart.xAxis.zoomCenter cx + chart.xAxis.range * howMuch / 2 ≤ chart.xAxis.dataMax)
    (hy1 : chart.yAxis.dataMin ≤ chart.yAxis.zoomCenter cy - chart.yAxis.range * howMuch / 2)
    (hy2 : chart.yAxis.zoomCenter cy + chart.yAxis.range * howMuch / 2 ≤ chart.yAxis.dataMax) :
    (mapZoom howMuch cx cy chart).xAxis.min
        = chart.xAxis.zoomCenter cx - chart.xAxis.range * howMuch / 2 ∧
    (mapZoom howMuch cx cy chart).xAxis.max
        = chart.xAxis.zoomCenter cx + chart.xAxis.range * howMuch / 2 ∧
    (mapZoom howMuch cx cy chart).yAxis.min
        = chart.yAxis.zoomCenter cy - chart.yAxis.range * howMuch / 2 ∧
    (mapZoom howMuch cx cy chart).yAxis.max
        = chart.yAxis.zoomCenter cy + chart.yAxis.range * howMuch / 2 ∧
    (mapZoom howMuch cx cy chart).xAxis.range = howMuch * chart.xAxis.range ∧
    (mapZoom howMuch cx cy chart).yAxis.range = howMuch * chart.yAxis.range ∧
    (0 < chart.xAxis.range → howMuch < 1 →
      (mapZoom howMuch cx cy chart).xAxis.range < chart.xAxis.range) ∧
    (0 < chart.xAxis.range → 1 < howMuch →
      chart.xAxis.range < (mapZoom howMuch cx cy chart).xAxis.range) ∧
    (0 < chart.yAxis.range → howMuch < 1 →
      (mapZoom howMuch cx cy chart).yAxis.range < chart.yAxis.range) ∧
    (0 < chart.yAxis.range → 1 < howMuch →
      chart.yAxis.range < (mapZoom howMuch cx cy chart).yAxis.range) := by
  obtain ⟨e1, e2, e3, e4⟩ := mapZoom_idle howMuch cx cy chart hidle
  rw [fitDim_of_inside _ _ _ _ hx1 (by linarith)] at e1 e2
  rw [fitDim_of_inside _ _ _ _ hy1 (by linarith)] at e3 e4
  simp only [] at e1 e2 e3 e4
  have r1 : (mapZoom howMuch cx cy chart).xAxis.range
      = (mapZoom howMuch cx cy chart).xAxis.max - (mapZoom howMuch cx cy chart).xAxis.min := rfl
  have r2 : (mapZoom howMuch cx cy chart).yAxis.range
      = (mapZoom howMuch cx cy chart).yAxis.max - (mapZoom howMuch cx cy chart).yAxis.min := rfl
  rw [r1, r2, e1, e2, e3, e4]
  refine ⟨rfl, by ring, rfl, by ring, by ring, by ring, ?_, ?_, ?_, ?_⟩ <;>
    (intro hr hf; nlinarith)

/-- Witness for C8: zooming the sample chart in by one half around its midpoint. -/
theorem mapZoom_inside_bounds_witness :
    (mapZoom (1 / 2) none none sampleChart).xAxis.min
        = sampleChart.xAxis.zoomCenter none - sampleChart.xAxis.range * (1 / 2) / 2 ∧
    (mapZoom (1 / 2) none none sampleChart).xAxis.max
        = sampleChart.xAxis.zoomCenter none + sampleChart.xAxis.range * (1 / 2) / 2 ∧
    (mapZoom (1 / 2) none none sampleChart).yAxis.min
        = sampleChart.yAxis.zoomCenter none - sampleChart.yAxis.range * (1 / 2) / 2 ∧
    (mapZoom (1 / 2) none none sampleChart).yAxis.max
        = sampleChart.yAxis.zoomCenter none + sampleChart.yAxis.range * (1 / 2) / 2 ∧
    (mapZoom (1 / 2) none none sampleChart).xAxis.range = 1 / 2 * sampleChart.xAxis.range ∧
    (mapZoom (1 / 2) none none sampleChart).yAxis.range = 1 / 2 * sampleChart.yAxis.range ∧
    (0 < sampleChart.xAxis.range → (1 / 2 : ℚ) < 1 →
      (mapZoom (1 / 2) none none sampleChart).xAxis.range < sampleChart.xAxis.range) ∧
    (0 < sampleChart.xAxis.range → (1 : ℚ) < 1 / 2 →
      sampleChart.xAxis.range < (mapZoom (1 / 2) none none sampleChart).xAxis.range) ∧
    (0 < sampleChart.yAxis.range → (1 / 2 : ℚ) < 1 →
      (mapZoom (1 / 2) none none sampleChart).yAxis.range < sampleChart.yAxis.range) ∧
    (0 < sampleChart.yAxis.range → (1 : ℚ) < 1 / 2 →
      sampleChart.yAxis.range < (mapZoom (1 / 2) none none sampleChart).yAxis.range) :=
  mapZoom_inside_bounds (1 / 2) none none sampleChart rfl
    (by norm_num [sampleChart, sampleAxis, Axis.zoomCenter, Axis.range])
    (by norm_num [sampleChart, sampleAxis, Axis.zoomCenter, Axis.range])
    (by norm_num [sampleChart, sampleAxis, Axis.zoomCenter, Axis.range])
    (by norm_num [sampleChart, sampleAxis, Axis.zoomCenter, Axis.range])

/-- C9: for a positive factor and any focal point, on an idle chart whose axes have
`min ≤ max` and `dataMin ≤ dataMax`, the extremes that `mapZoom` sets satisfy
`dataMin ≤ newMin ≤ newMax ≤ dataMax` on each axis. -/
theorem mapZoom_within_data_bounds (howMuch : ℚ) (cx cy : Option ℚ) (chart : Chart)
    (hpos : 0 < howMuch) (hidle : chart.isMapZooming = false)
    (hx : chart.xAxis.min ≤ chart.xAxis.max) (hdx : chart.xAxis.dataMin ≤ chart.xAxis.dataMax)
    (hy : chart.yAxis.min ≤ chart.yAxis.max) (hdy : chart.yAxis.dataMin ≤ chart.yAxis.dataMax) :
    chart.xAxis.dataMin ≤ (mapZoom howMuch cx cy chart).xAxis.min ∧
    (mapZoom howMuch cx cy chart).xAxis.min ≤ (mapZoom howMuch cx cy chart).xAxis.max ∧
    (mapZoom howMuch cx cy chart).xAxis.max ≤ chart.xAxis.dataMax ∧
    chart.yAxis.dataMin ≤ (mapZoom howMuch cx cy chart).yAxis.min ∧
    (mapZoom howMuch cx cy chart).yAxis.min ≤ (mapZoom howMuch cx cy chart).yAxis.max ∧
    (mapZoom howMuch cx cy chart).yAxis.max ≤ chart.yAxis.dataMax := by
  obtain ⟨e1, e2, e3, e4⟩ := mapZoom_idle howMuch cx cy chart hidle
  rw [e1, e2, e3, e4]
  have ix := fitDim_inside (chart.xAxis.zoomCenter cx - chart.xAxis.range * howMuch / 2)
    (chart.xAxis.range * howMuch) chart.xAxis.dataMin (chart.xAxis.dataMax - chart.xAxis.dataMin)
  have iy := fitDim_inside (chart.yAxis.zoomCenter cy - chart.yAxis.range * howMuch / 2)
    (chart.yAxis.range * howMuch) chart.yAxis.dataMin (chart.yAxis.dataMax - chart.yAxis.dataMin)
  have sx := fitDim_size (chart.xAxis.zoomCenter cx - chart.xAxis.range * howMuch / 2)
    (chart.xAxis.range * howMuch) chart.xAxis.dataMin (chart.xAxis.dataMax - chart.xAxis.dataMin)
  have sy := fitDim_size (chart.yAxis.zoomCenter cy - chart.yAxis.range * howMuch / 2)
    (chart.yAxis.range * howMuch) chart.yAxis.dataMin (chart.yAxis.dataMax - chart.yAxis.dataMin)
  have rx : 0 ≤ chart.xAxis.range * howMuch :=
    mul_nonneg (by unfold Axis.range; linarith) hpos.le
  have ry : 0 ≤ chart.yAxis.range * howMuch :=
    mul_nonneg (by unfold Axis.range; linarith) hpos.le
  refine ⟨ix.1, ?_, by linarith [ix.2], iy.1, ?_, by linarith [iy.2]⟩
  · rcases sx with h | h <;> rw [h] <;> linarith
  · rcases sy with h | h <;> rw [h] <;> linarith

/-- Witness for C9: zooming the sample chart out by a factor of 20 around the point (3, 4). -/
theorem mapZoom_within_data_bounds_witness :
    sampleChart.xAxis.dataMin ≤ (mapZoom 20 (some 3) (some 4) sampleChart).xAxis.min ∧
    (mapZoom 20 (some 3) (some 4) sampleChart).xAxis.min
      ≤ (mapZoom 20 (some 3) (some 4) sampleChart).xAxis.max ∧
    (mapZoom 20 (some 3) (some 4) sampleChart).xAxis.max ≤ sampleChart.xAxis.dataMax ∧
    sampleChart.yAxis.dataMin ≤ (mapZoom 20 (some 3) (some 4) sampleChart).yAxis.min ∧
    (mapZoom 20 (some 3) (some 4) sampleChart).yAxis.min
      ≤ (mapZoom 20 (some 3) (some 4) sampleChart).yAxis.max ∧
    (mapZoom 20 (some 3) (some 4) sampleChart).yAxis.max ≤ sampleChart.yAxis.dataMax :=
  mapZoom_within_data_bounds 20 (some 3) (some 4) sampleChart (by norm_num) rfl
    (by norm_num [sampleChart, sampleAxis]) (by norm_num [sampleChart, sampleAxis])
    (by norm_num [sampleChart, sampleAxis]) (by norm_num [sampleChart, sampleAxis])

/-- C10: while the flag `isMapZooming` is set, `mapZoom` changes nothing, whatever the factor
and the focal point: the chart, with both axes' extremes and the flag, is returned as it was. -/
theorem mapZoom_noop_while_zooming (howMuch : ℚ) (cx cy : Option ℚ) (chart : Chart)
    (hzooming : chart.isMapZooming = true) : mapZoom howMuch cx cy chart = chart := by
  simp [mapZoom, hzooming]

/-- Witness for C10: a first zoom on the sample chart sets the flag, and a second zoom issued
right after it leaves the result of the first call in place. -/
theorem mapZoom_noop_while_zooming_witness :
    (mapZoom (1 / 2) none none sampleChart).isMapZooming = true ∧
    mapZoom 2 (some 1) (some 1) (mapZoom (1 / 2) none none sampleChart)
      = mapZoom (1 / 2) none none sampleChart :=
  ⟨by simp [mapZoom, sampleChart, zoomDelay, pick],
   mapZoom_noop_while_zooming 2 (some 1) (some 1) (mapZoom (1 / 2) none none sampleChart)
    (by simp [mapZoom, sampleChart, zoomDelay, pick])⟩

/-! ## Axis lock -/

/-- On finite numbers `Math.min` is the smaller of the two. -/
theorem jsMin_fin (a b : ℚ) : JSNum.min (JSNum.fin a) (JSNum.fin b) = JSNum.fin (min a b) := by
  by_cases h : b < a
  · simp [JSNum.min, JSNum.lt, h, min_eq_right h.le]
  · simp [JSNum.min, JSNum.lt, h, min_eq_left (not_lt.mp h)]

/-- The wrapper on the Y axis of a map chart whose X axis has a scale gives both axes the
smaller of the two scales. -/
theorem setAxisTranslation_both_scales (proceed : Axis → Axis) (chart : Chart)
    (sy sx : JSNum) (hmap : chart.chartType = "map") (hx : chart.xAxis.transA = some sx)
    (hy : (proceed chart.yAxis).transA = some sy) :
    (setAxisTranslation proceed chart false).xAxis.transA = some (JSNum.min sy sx) ∧
    (setAxisTranslation proceed chart false).yAxis.transA = some (JSNum.min sy sx) := by
  simp only [setAxisTranslation, hmap, hx, hy, toNumber]
  constructor <;> split_ifs <;> simp_all

/-- C6: on a chart of type `map`, when the wrapper runs for the Y axis and the X axis already
has a scale, both axes end with the same `transA`: the smaller of the scale the generic method
gave the Y axis and the previous scale of the X axis (for finite scales `ty` and `tx` this is
`min ty tx`). For domain ranges 100 and 50 with pixel lengths 200 and 200 the shared scale
is 2. -/
theorem setAxisTranslation_shared_scale (proceed : Axis → Axis) (chart : Chart) (sy sx : JSNum)
    (hmap : chart.chartType = "map") (hx : chart.xAxis.transA = some sx)
    (hy : (proceed chart.yAxis).transA = some sy) :
    ((setAxisTranslation proceed chart false).xAxis.transA = some (JSNum.min sy sx) ∧
     (setAxisTranslation proceed chart false).yAxis.transA = some (JSNum.min sy sx) ∧
     (∀ ty tx : ℚ, sy = JSNum.fin ty → sx = JSNum.fin tx →
        (setAxisTranslation proceed chart false).xAxis.transA = some (JSNum.fin (min ty tx)) ∧
        (setAxisTranslation proceed chart false).yAxis.transA = some (JSNum.fin (min ty tx)))) ∧
    ((setAxisTranslation genericSetAxisTranslation
        (setAxisTranslation genericSetAxisTranslation lockChart true) false).xAxis.transA
        = some (JSNum.fin 2) ∧
     (setAxisTranslation genericSetAxisTranslation
        (setAxisTranslation genericSetAxisTranslation lockChart true) false).yAxis.transA
        = some (JSNum.fin 2)) := by
  have key : (setAxisTranslation proceed chart false).xAxis.transA = some (JSNum.min sy sx) ∧
      (setAxisTranslation proceed chart false).yAxis.transA = some (JSNum.min sy sx) := by
    simp only [setAxisTranslation, hmap, hx, hy, toNumber]
    constructor <;> split_ifs <;> simp_all
  refine ⟨⟨key.1, key.2, ?_⟩, ?_⟩
  · intro ty tx h1 h2
    rw [key.1, key.2, h1, h2, jsMin_fin]
    exact ⟨rfl, rfl⟩
  · constructor <;>
      simp [setAxisTranslation, genericSetAxisTranslation, lockChart, toNumber, JSNum.div,
        JSNum.min, JSNum.lt, JSNum.gt] <;> norm_num

/-- Witness for C6: the Y pass on the example chart after its X pass. -/
theorem setAxisTranslation_shared_scale_witness :
    (setAxisTranslation genericSetAxisTranslation
        (setAxisTranslation genericSetAxisTranslation lockChart true) false).xAxis.transA
      = some (JSNum.min (JSNum.fin 4) (JSNum.fin 2)) :=
  (setAxisTranslation_shared_scale genericSetAxisTranslation
    (setAxisTranslation genericSetAxisTranslation lockChart true) (JSNum.fin 4) (JSNum.fin 2)
    rfl
    (by norm_num [setAxisTranslation, genericSetAxisTranslation, lockChart, JSNum.div])
    (by norm_num [setAxisTranslation, genericSetAxisTranslation, lockChart, JSNum.div])).1.1

/-! ## Extents -/

/-- The constant `Number.MIN_VALUE` is positive. -/
theorem MIN_VALUE_pos : 0 < MIN_VALUE := by
  unfold MIN_VALUE; positivity

/-- The constant `Number.MAX_VALUE` is at least 2^1023. -/
theorem MAX_VALUE_large : (1 : ℚ) ≤ MAX_VALUE := by
  unfold MAX_VALUE
  have h1 : (1 : ℚ) ≤ 2 ^ 53 - 1 := by norm_num
  have h2 : (1 : ℚ) ≤ 2 ^ 971 := one_le_pow₀ (by norm_num)
  calc (1 : ℚ) = 1 * 1 := by ring
    _ ≤ (2 ^ 53 - 1) * 2 ^ 971 := mul_le_mul h1 h2 (by norm_num) (by norm_num)

/-- The loop variables of `getBox` after the example path. -/
theorem pointBox_examplePath :
    pointBox examplePath = { maxX := 10, minX := 0, maxY := 5, minY := 0, even := false } := by
  have a := MIN_VALUE_pos
  have b := MAX_VALUE_large
  have e1 : max MIN_VALUE 5 = 5 := max_eq_right (by
    unfold MIN_VALUE
    rw [div_le_iff₀ (by positivity)]
    have : (1 : ℚ) ≤ 2 ^ 1074 := one_le_pow₀ (by norm_num)
    linarith)
  have e2 : min MAX_VALUE 5 = 5 := by
    unfold MAX_VALUE; norm_num
  have e3 : max MIN_VALUE 10 = 10 := max_eq_right (by
    unfold MIN_VALUE
    rw [div_le_iff₀ (by positivity)]
    have : (1 : ℚ) ≤ 2 ^ 1074 := one_le_pow₀ (by norm_num)
    linarith)
  have e4 : min MAX_VALUE 10 = 10 := by
    unfold MAX_VALUE; norm_num
  simp [pointBox, examplePath, PointBox.step, PointBox.init, e1, e2, e3, e4]

/-- The extent that `getBox` stores for the single example path: `minX` 0, `maxX` 10, `minY` 0,
`maxY` 5. -/
theorem getBox_examplePath :
    (getBox [Shape.ofPath examplePath]).1 = { minX := 0, maxX := 10, minY := 0, maxY := 5 } := by
  have e1 : max MIN_VALUE 5 = 5 := max_eq_right (by
    unfold MIN_VALUE
    rw [div_le_iff₀ (by positivity)]
    have : (1 : ℚ) ≤ 2 ^ 1074 := one_le_pow₀ (by norm_num)
    linarith)
  have e3 : max MIN_VALUE 10 = 10 := max_eq_right (by
    unfold MIN_VALUE
    rw [div_le_iff₀ (by positivity)]
    have : (1 : ℚ) ≤ 2 ^ 1074 := one_le_pow₀ (by norm_num)
    linarith)
  have e2 : min MAX_VALUE 0 = 0 := min_eq_right (by linarith [MAX_VALUE_large])
  simp [getBox, Shape.box, Shape.ofPath, pick, pointBox_examplePath, Extent.absorb, e1, e2, e3]

/-- The loop variables of `getBox` after the all-negative path: both maxima are still
`Number.MIN_VALUE`. -/
theorem pointBox_negativePath :
    pointBox negativePath
      = { maxX := MIN_VALUE, minX := -10, maxY := MIN_VALUE, minY := -10, even := false } := by
  have a := MIN_VALUE_pos
  have b := MAX_VALUE_large
  have e1 : max MIN_VALUE (-5) = MIN_VALUE := max_eq_left (by linarith)
  have e2 : max MIN_VALUE (-10) = MIN_VALUE := max_eq_left (by linarith)
  have e3 : min MAX_VALUE (-5) = -5 := min_eq_right (by linarith)
  have e4 : min (-5 : ℚ) (-10) = -10 := by norm_num
  simp [pointBox, negativePath, PointBox.step, PointBox.init, e1, e2, e3, e4]

/-- C3 (the code departs from the claim): for the single path `['M', -10, -10, 'L', -5, -5, 'Z']`
the minima that `getBox` stores are right (`-10`), but both maxima are `Number.MIN_VALUE`, a
positive number, and not `-5`, the largest coordinate on each axis. -/
theorem getBox_negativePath :
    (getBox [Shape.ofPath negativePath]).1
        = { minX := -10, maxX := MIN_VALUE, minY := -10, maxY := MIN_VALUE } ∧
    (getBox [Shape.ofPath negativePath]).1.maxX ≠ -5 ∧
    (getBox [Shape.ofPath negativePath]).1.maxY ≠ -5 := by
  have a := MIN_VALUE_pos
  have b := MAX_VALUE_large
  have e2 : min MAX_VALUE (-10) = -10 := min_eq_right (by linarith)
  have key : (getBox [Shape.ofPath negativePath]).1
      = { minX := -10, maxX := MIN_VALUE, minY := -10, maxY := MIN_VALUE } := by
    simp [getBox, Shape.box, Shape.ofPath, pick, pointBox_negativePath, Extent.absorb, e2]
  rw [key]
  refine ⟨rfl, ?_, ?_⟩ <;> simp only [] <;> linarith

/-! ## Projection -/

/-- The flag `even` at the end of the loop of `translatePath` tells whether the number of
numbers visited is odd. -/
theorem translateLoop_snd (xT yT : ℚ → ℚ) (yAxis : Axis) (path : List PathToken) :
    (translateLoop xT yT yAxis path).2 = oddNumbers path := by
  induction path with
  | nil => rfl
  | cons tok rest ih => cases tok <;> simp [translateLoop, oddNumbers, ih]

/-- The loop of `translatePath`, which runs from the end, agrees with the reading from the
start that begins with x exactly when the numbers left are even in number. -/
theorem translateLoop_fst (xT yT : ℚ → ℚ) (yAxis : Axis) (path : List PathToken) :
    (translateLoop xT yT yAxis path).1
      = projectFromStart xT yT yAxis (!oddNumbers path) path := by
  induction path with
  | nil => rfl
  | cons tok rest ih =>
    cases tok <;>
      simp [translateLoop, oddNumbers, projectFromStart, ih, translateLoop_snd]

/-- The parity of the count of numbers in a path. -/
theorem oddNumbers_eq (path : List PathToken) :
    oddNumbers path = decide (path.countP PathToken.isNumber % 2 = 1) := by
  induction path with
  | nil => rfl
  | cons tok rest ih =>
    cases tok
    · simp [oddNumbers, ih, PathToken.isNumber, List.countP_cons]
    all_goals
      simp only [oddNumbers, ih, PathToken.isNumber, List.countP_cons, if_true]
      generalize List.countP PathToken.isNumber rest = n
      have h2 : (n + 1) % 2 = 1 - n % 2 := by omega
      rcases Nat.mod_two_eq_zero_or_one n with h | h <;> simp [h, h2]

/-- The reading from the start keeps the length of the path. -/
theorem projectFromStart_length (xT yT : ℚ → ℚ) (yAxis : Axis) (isX : Bool)
    (path : List PathToken) : (projectFromStart xT yT yAxis isX path).length = path.length := by
  induction path generalizing isX with
  | nil => rfl
  | cons tok rest ih => cases tok <;> simp [projectFromStart, ih]

/-- The reading from the start keeps every command where it is. -/
theorem projectFromStart_cmd (xT yT : ℚ → ℚ) (yAxis : Axis) (isX : Bool)
    (path : List PathToken) (i : ℕ) (c : String) (h : path[i]? = some (PathToken.cmd c)) :
    (projectFromStart xT yT yAxis isX path)[i]? = some (PathToken.cmd c) := by
  induction path generalizing isX i with
  | nil => simp at h
  | cons tok rest ih =>
    cases i with
    | zero =>
      simp only [List.getElem?_cons_zero, Option.some.injEq] at h
      subst h
      simp [projectFromStart]
    | succ j =>
      simp only [List.getElem?_cons_succ] at h
      cases tok <;> simp [projectFromStart, ih _ _ h]

/-- The reading from the start produces whole numbers only, and `NaN` only from `NaN`. -/
theorem projectFromStart_integral (xT yT : ℚ → ℚ) (yAxis : Axis) (isX : Bool)
    (path : List PathToken) (i : ℕ) :
    (∀ v, (projectFromStart xT yT yAxis isX path)[i]? = some (PathToken.num v) →
      ∃ z : ℤ, v = z) ∧
    ((projectFromStart xT yT yAxis isX path)[i]? = some PathToken.nan →
      path[i]? = some PathToken.nan) := by
  induction path generalizing isX i with
  | nil => simp [projectFromStart]
  | cons tok rest ih =>
    cases i with
    | zero =>
      cases tok <;> simp [projectFromStart]
      split_ifs <;> simp
    | succ j =>
      cases tok <;> simp only [projectFromStart, List.getElem?_cons_succ] <;> exact ih _ _

/-- The reading from the start sends the number at index `i` through the x transform or the
y transform according to the start flag and the parity of the numbers before it. -/
theorem projectFromStart_num (xT yT : ℚ → ℚ) (yAxis : Axis) (isX : Bool)
    (path : List PathToken) (i : ℕ) (v : ℚ) (h : path[i]? = some (PathToken.num v)) :
    (projectFromStart xT yT yAxis isX path)[i]? =
      some (PathToken.num (jsRound
        (if (isX != oddNumbers (path.take i)) = true then xT v else yAxis.len - yT v))) := by
  induction path generalizing isX i with
  | nil => simp at h
  | cons tok rest ih =>
    cases i with
    | zero =>
      simp only [List.getElem?_cons_zero, Option.some.injEq] at h
      subst h
      cases isX <;> simp [projectFromStart, oddNumbers]
    | succ j =>
      simp only [List.getElem?_cons_succ] at h
      cases tok
      · simp [projectFromStart, oddNumbers, ih _ _ h]
      · have hb : ∀ a b : Bool, ((!a) != b) = (a != !b) := by decide
        simp only [projectFromStart, List.getElem?_cons_succ, List.take_succ_cons, oddNumbers,
          ih _ _ h, hb]
      · have hb : ∀ a b : Bool, ((!a) != b) = (a != !b) := by decide
        simp only [projectFromStart, List.getElem?_cons_succ, List.take_succ_cons, oddNumbers,
          ih _ _ h, hb]

/-- C7: for a path of commands and coordinate pairs (an even number of numbers),
`translatePath` returns a path of the same length, with every command unchanged at its index,
in which the `k`-th number counted from the start (`k` from 0, the count of numbers before it)
is replaced by `round (xAxis.translate v)` when `k` is even and by
`round (yAxis.len - yAxis.translate v)` when `k` is odd; every number of the result is a whole
number. The result is a new value, so the input path is not modified. -/
theorem translatePath_pairs (xT yT : ℚ → ℚ) (yAxis : Axis) (path : List PathToken)
    (hpairs : Even (path.countP PathToken.isNumber)) :
    (translatePath xT yT yAxis path).length = path.length ∧
    (∀ (i : ℕ) (c : String), path[i]? = some (PathToken.cmd c) →
      (translatePath xT yT yAxis path)[i]? = some (PathToken.cmd c)) ∧
    (∀ (i : ℕ) (v : ℚ), path[i]? = some (PathToken.num v) →
      (translatePath xT yT yAxis path)[i]? =
        some (PathToken.num (jsRound
          (if (path.take i).countP PathToken.isNumber % 2 = 0 then xT v
           else yAxis.len - yT v)))) ∧
    (∀ (i : ℕ) (v : ℚ), (translatePath xT yT yAxis path)[i]? = some (PathToken.num v) →
      ∃ z : ℤ, v = z) ∧
    translatePath xT yT yAxis path = projectFromStart xT yT yAxis true path := by
  have hodd : oddNumbers path = false := by
    rw [oddNumbers_eq]
    have := Nat.even_iff.mp hpairs
    simp [this]
  have key : translatePath xT yT yAxis path = projectFromStart xT yT yAxis true path := by
    unfold translatePath
    rw [translateLoop_fst, hodd]
    rfl
  rw [key]
  refine ⟨projectFromStart_length _ _ _ _ _, fun i c h => projectFromStart_cmd _ _ _ _ _ i c h,
    ?_, fun i v h => (projectFromStart_integral _ _ _ _ _ i).1 v h, rfl⟩
  intro i v h
  rw [projectFromStart_num _ _ _ _ _ i v h, oddNumbers_eq]
  rcases Nat.mod_two_eq_zero_or_one ((path.take i).countP PathToken.isNumber) with h2 | h2 <;>
    simp [h2]

/-- Witness for C7: the example path under the sample transforms. -/
theorem translatePath_pairs_witness :
    (translatePath sampleTranslate sampleTranslate sampleAxis examplePath).length
      = examplePath.length :=
  (translatePath_pairs sampleTranslate sampleTranslate sampleAxis examplePath
    (by decide)).1

/-! ## Colour mapping -/

/-- The test of the source and the reference predicate agree. -/
theorem ValueRange.test_eq_contains (range : ValueRange) (value : ℚ) :
    range.test value = range.contains value := by
  unfold ValueRange.test ValueRange.contains
  cases range.from_ <;> cases range.to_ <;> simp

/-- The backwards loop over the ranges finds the first range, from the end, that passes. -/
theorem rangeLoop_eq_find (value : ℚ) (ranges : List ValueRange) :
    rangeLoop value ranges = (ranges.find? (fun range => range.test value)).map (·.color) := by
  induction ranges with
  | nil => rfl
  | cons range earlier ih =>
    by_cases h : range.test value = true
    · simp [rangeLoop, h]
    · simp [rangeLoop, h, ih]

/-- The backwards loop returns the colour of the last-declared range containing the value. -/
theorem rangeLoop_reverse (value : ℚ) (ranges : List ValueRange) :
    rangeLoop value ranges.reverse
      = ((ranges.filter (fun range => range.contains value)).getLast?).map (·.color) := by
  rw [rangeLoop_eq_find, List.getLast?_eq_head?_reverse, ← List.filter_reverse,
    List.filter_head?]
  congr 2
  funext range
  exact ValueRange.test_eq_contains range value

/-- C4: in discrete-range mode, with a non-empty `nullColor` string and non-empty range
colours, `translateColors` treats every point as the reference does: a `null` or `undefined`
value gets `nullColor`, another value gets the colour of the last-declared range whose bounds
contain it (a missing bound is unbounded), and a value in no range leaves the point as it was.
With the ranges `[{to:5,color:'A'},{from:5,to:10,color:'B'}]` the values 3, 7 and `null` get
'A', 'B' and `nullColor`. -/
theorem translateColors_discrete (seriesOptions : SeriesOptions) (valueRanges : List ValueRange)
    (dataMin dataMax : ℚ) (data : List Point)
    (hmode : seriesOptions.valueRanges = some valueRanges)
    (hnull : seriesOptions.nullColor.truthy = true)
    (hcolors : ∀ range ∈ valueRanges, range.color.truthy = true) :
    translateColors seriesOptions dataMin dataMax data
        = data.map (discreteReference seriesOptions.nullColor valueRanges) ∧
    translateColors discreteOptions 0 10
        [Point.ofValue (Value.num 3), Point.ofValue (Value.num 7), Point.ofValue Value.null]
      = [{ value := Value.num 3, color := none, optionsColor := some (Colour.str "A") },
         { value := Value.num 7, color := none, optionsColor := some (Colour.str "B") },
         { value := Value.null, color := none, optionsColor := some (Colour.str "#F8F8F8") }] := by
  constructor
  · unfold translateColors
    apply List.map_congr_left
    intro point _
    unfold pointColor discreteReference
    rw [hmode]
    cases hv : point.value with
    | undefined => simp [Point.write, hnull, hv]
    | null => simp [Point.write, hnull, hv]
    | num v =>
      simp only [rangeLoop_reverse]
      cases hl : (valueRanges.filter (fun range => range.contains v)).getLast? with
      | none => simp [Point.write, hv]
      | some range =>
        have hmem : range ∈ valueRanges :=
          (List.mem_filter.mp (List.mem_of_getLast?_eq_some hl)).1
        simp [Point.write, hcolors range hmem, hv]
  · have ha : ("A" : String) ≠ "" := by decide
    have hb : ("B" : String) ≠ "" := by decide
    have hn : ("#F8F8F8" : String) ≠ "" := by decide
    norm_num [translateColors, pointColor, discreteOptions, exampleRanges, Point.ofValue,
      rangeLoop, ValueRange.test, Point.write, Colour.truthy, ha, hb, hn]

/-- Witness for C4: the example ranges and the three example points. -/
theorem translateColors_discrete_witness :
    translateColors discreteOptions 0 10
        [Point.ofValue (Value.num 3), Point.ofValue (Value.num 7), Point.ofValue Value.null]
      = [Point.ofValue (Value.num 3), Point.ofValue (Value.num 7), Point.ofValue Value.null].map
          (discreteReference discreteOptions.nullColor exampleRanges) :=
  (translateColors_discrete discreteOptions exampleRanges 0 10
    [Point.ofValue (Value.num 3), Point.ofValue (Value.num 7), Point.ofValue Value.null]
    rfl (by decide) (by decide)).1

/-- Rounding a number that lies within one half of a whole number. -/
theorem jsRound_eq (q : ℚ) (z : ℤ) (h1 : (z : ℚ) ≤ q + 1 / 2) (h2 : q + 1 / 2 < z + 1) :
    jsRound q = z :=
  Int.floor_eq_iff.mpr ⟨h1, h2⟩

/-- Rounding a whole number gives it back. -/
theorem jsRound_intCast (z : ℤ) : jsRound (z : ℚ) = z :=
  jsRound_eq _ _ (by linarith) (by linarith)

/-- One channel of `tweenColors` at a finite position. -/
theorem tweenChannel_fin (f t p : ℚ) :
    tweenChannel f t (JSNum.fin p) = JSNum.fin (jsRound (f + (t - f) * p)) := by
  simp only [tweenChannel, JSNum.sub, JSNum.neg, JSNum.add, JSNum.mul, JSNum.round]
  congr 3
  ring

/-- The colour computed in gradient mode for a numeric value when `dataMin < dataMax`. -/
theorem pointColor_gradient (seriesOptions : SeriesOptions) (colorRange : ColorRange)
    (dataMin dataMax v : ℚ) (h1 : seriesOptions.valueRanges = none)
    (h2 : seriesOptions.colorRange = some colorRange) (hlt : dataMin < dataMax) :
    pointColor seriesOptions dataMin dataMax (Value.num v)
      = some (gradientColour colorRange ((v - dataMin) / (dataMax - dataMin))) := by
  have hne : dataMax - dataMin ≠ 0 := by
    intro h
    linarith
  have hpos : (1 : ℚ) + -((dataMax - v) / (dataMax - dataMin))
      = (v - dataMin) / (dataMax - dataMin) := by
    field_simp
  simp only [pointColor, h1, h2, JSNum.div, hne, if_false, JSNum.sub, JSNum.neg, JSNum.add,
    tweenColors, tweenChannel_fin, hpos, gradientColour]

/-- C5 (the code departs from the claim): between the half-transparent colours
`rgba(0,0,0,0.5)` and `rgba(255,255,255,0.5)` over `[0, 10]`, the value `dataMin = 0`
(position 0) gets `rgba(0,0,0,1)`, which is not the from colour: `tweenColors` rounds the alpha
channel 0.5 to 1, against its own comment that position 0 is the from colour. -/
theorem translateColors_gradient_fractional_alpha :
    translateColors translucentOptions 0 10 [Point.ofValue (Value.num 0)]
      = [{ value := Value.num 0, color := none,
           optionsColor :=
             some (Colour.rgba (JSNum.fin 0) (JSNum.fin 0) (JSNum.fin 0) (JSNum.fin 1)) }] ∧
    Colour.rgba (JSNum.fin 0) (JSNum.fin 0) (JSNum.fin 0) (JSNum.fin 1)
      ≠ Colour.ofRGBA { r := 0, g := 0, b := 0, a := 1 / 2 } := by
  constructor
  · have h := pointColor_gradient translucentOptions
      { from_ := ⟨0, 0, 0, 1 / 2⟩, to_ := ⟨255, 255, 255, 1 / 2⟩ } 0 10 0 rfl rfl (by norm_num)
    have r0 : jsRound (0 : ℚ) = 0 := jsRound_eq _ _ (by norm_num) (by norm_num)
    have r1 : jsRound (1 / 2 : ℚ) = 1 := jsRound_eq _ _ (by norm_num) (by norm_num)
    simp only [translateColors, Point.ofValue, List.map, h, gradientColour, Point.write,
      Colour.truthy, if_true]
    norm_num [r0, r1]
  · simp [Colour.ofRGBA]

/-- The part of the gradient mapping that the code meets: in gradient mode with
`dataMin < dataMax`, a point with the numeric value `v` is given the colour whose four channels
are `round (from_i + (to_i - from_i) * pos)` with
`pos = (v - dataMin) / (dataMax - dataMin)`. At `v = dataMin` this is the from colour with each
channel rounded, at `v = dataMax` the to colour with each channel rounded; these are the from
and to colours themselves when their channels are whole numbers. The gradient from
`rgba(0,0,0,1)` to `rgba(255,255,255,1)` over `[0, 10]` maps the value 5 to
`rgba(128,128,128,1)`. -/
theorem translateColors_gradient (seriesOptions : SeriesOptions) (colorRange : ColorRange)
    (dataMin dataMax : ℚ) (data : List Point)
    (hmode : seriesOptions.valueRanges = none)
    (hrange : seriesOptions.colorRange = some colorRange) (hlt : dataMin < dataMax) :
    (∀ (i : ℕ) (point : Point) (v : ℚ), data[i]? = some point → point.value = Value.num v →
      (translateColors seriesOptions dataMin dataMax data)[i]? =
        some { point with
          color := none
          optionsColor :=
            some (gradientColour colorRange ((v - dataMin) / (dataMax - dataMin))) }) ∧
    gradientColour colorRange ((dataMin - dataMin) / (dataMax - dataMin))
      = Colour.rgba (JSNum.fin (jsRound colorRange.from_.r))
          (JSNum.fin (jsRound colorRange.from_.g)) (JSNum.fin (jsRound colorRange.from_.b))
          (JSNum.fin (jsRound colorRange.from_.a)) ∧
    gradientColour colorRange ((dataMax - dataMin) / (dataMax - dataMin))
      = Colour.rgba (JSNum.fin (jsRound colorRange.to_.r))
          (JSNum.fin (jsRound colorRange.to_.g)) (JSNum.fin (jsRound colorRange.to_.b))
          (JSNum.fin (jsRound colorRange.to_.a)) ∧
    (colorRange.from_.integral →
      gradientColour colorRange ((dataMin - dataMin) / (dataMax - dataMin))
        = Colour.ofRGBA colorRange.from_) ∧
    (colorRange.to_.integral →
      gradientColour colorRange ((dataMax - dataMin) / (dataMax - dataMin))
        = Colour.ofRGBA colorRange.to_) ∧
    translateColors gradientOptions 0 10 [Point.ofValue (Value.num 5)]
      = [{ value := Value.num 5, color := none,
           optionsColor :=
             some (Colour.rgba (JSNum.fin 128) (JSNum.fin 128) (JSNum.fin 128) (JSNum.fin 1)) }] := by
  have hne : dataMax - dataMin ≠ 0 := by
    intro h
    linarith
  have p0 : (dataMin - dataMin) / (dataMax - dataMin) = 0 := by simp
  have p1 : (dataMax - dataMin) / (dataMax - dataMin) = 1 := div_self hne
  have e0 : gradientColour colorRange 0
      = Colour.rgba (JSNum.fin (jsRound colorRange.from_.r))
          (JSNum.fin (jsRound colorRange.from_.g)) (JSNum.fin (jsRound colorRange.from_.b))
          (JSNum.fin (jsRound colorRange.from_.a)) := by
    simp [gradientColour]
  have e1 : gradientColour colorRange 1
      = Colour.rgba (JSNum.fin (jsRound colorRange.to_.r))
          (JSNum.fin (jsRound colorRange.to_.g)) (JSNum.fin (jsRound colorRange.to_.b))
          (JSNum.fin (jsRound colorRange.to_.a)) := by
    simp [gradientColour]
  refine ⟨?_, by rw [p0, e0], by rw [p1, e1], ?_, ?_, ?_⟩
  · intro i point v hi hv
    simp only [translateColors, List.getElem?_map, hi, Option.map_some', hv,
      pointColor_gradient seriesOptions colorRange dataMin dataMax v hmode hrange hlt,
      Point.write, gradientColour, Colour.truthy, if_true]
  · rintro ⟨r, g, b, a, h⟩
    rw [p0, e0, h]
    simp [Colour.ofRGBA, jsRound_intCast]
  · rintro ⟨r, g, b, a, h⟩
    rw [p1, e1, h]
    simp [Colour.ofRGBA, jsRound_intCast]
  · have h := pointColor_gradient gradientOptions
      { from_ := ⟨0, 0, 0, 1⟩, to_ := ⟨255, 255, 255, 1⟩ } 0 10 5 rfl rfl (by norm_num)
    have r1 : jsRound (0 + (255 - 0) * ((5 - 0) / (10 - 0)) : ℚ) = 128 :=
      jsRound_eq _ _ (by norm_num) (by norm_num)
    have r2 : jsRound (1 + (1 - 1) * ((5 - 0) / (10 - 0)) : ℚ) = 1 :=
      jsRound_eq _ _ (by norm_num) (by norm_num)
    simp only [translateColors, Point.ofValue, List.map, h, gradientColour, Point.write,
      Colour.truthy, if_true, r1, r2]
    norm_num

/-- The gradient mapping at the example gradient over `[0, 10]` and a point of value 5. -/
theorem translateColors_gradient_witness :
    (translateColors gradientOptions 0 10 [Point.ofValue (Value.num 5)])[0]? =
      some { Point.ofValue (Value.num 5) with
        color := none
        optionsColor :=
          some (gradientColour { from_ := ⟨0, 0, 0, 1⟩, to_ := ⟨255, 255, 255, 1⟩ }
            ((5 - 0) / (10 - 0))) } :=
  (translateColors_gradient gradientOptions { from_ := ⟨0, 0, 0, 1⟩, to_ := ⟨255, 255, 255, 1⟩ }
    0 10 [Point.ofValue (Value.num 5)] rfl rfl (by norm_num)).1 0
      (Point.ofValue (Value.num 5)) 5 rfl rfl

/-! ## Path parsing -/

/-- A letter is not white space. -/
theorem isWhiteSpace_of_isLetter (c : Char) (h : isLetter c = true) : isWhiteSpace c = false := by
  simp only [isLetter, Bool.or_eq_true, Bool.and_eq_true, decide_eq_true_eq] at h
  simp only [isWhiteSpace, Bool.or_eq_false_iff, Bool.and_eq_false_iff, decide_eq_false_iff_not]
  omega

/-- A letter is not a separator. -/
theorem isSeparator_of_isLetter (c : Char) (h : isLetter c = true) : isSeparator c = false := by
  simp only [isLetter, Bool.or_eq_true, Bool.and_eq_true, decide_eq_true_eq] at h
  simp only [isSeparator, Bool.or_eq_false_iff, decide_eq_false_iff_not]
  omega

/-- White space is not a letter. -/
theorem isLetter_of_isWhiteSpace (c : Char) (h : isWhiteSpace c = true) : isLetter c = false := by
  cases hl : isLetter c
  · rfl
  · rw [isWhiteSpace_of_isLetter c hl] at h
    cases h

/-- A separator is not a letter. -/
theorem isLetter_of_isSeparator (c : Char) (h : isSeparator c = true) : isLetter c = false := by
  cases hl : isLetter c
  · rfl
  · rw [isSeparator_of_isLetter c hl] at h
    cases h

/-- A character of an operand is neither a letter, nor white space, nor a separator. -/
theorem isNumChar_spec (c : Char) (h : isNumChar c = true) :
    isLetter c = false ∧ isWhiteSpace c = false ∧ isSeparator c = false := by
  simp only [isNumChar, isDigit, Bool.or_eq_true, Bool.and_eq_true, decide_eq_true_eq] at h
  simp only [isLetter, isWhiteSpace, isSeparator, Bool.or_eq_false_iff, Bool.and_eq_false_iff,
    decide_eq_false_iff_not]
  omega

/-- The code of a digit character. -/
theorem digitChar_toNat (d : Fin 10) : (digitChar d).toNat = 48 + d.val := by
  revert d
  decide

/-- A digit character is a digit. -/
theorem isDigit_digitChar (d : Fin 10) : isDigit (digitChar d) = true := by
  simp only [isDigit, digitChar_toNat, Bool.and_eq_true, decide_eq_true_eq]
  omega

/-- The value of a digit character. -/
theorem digitValue_digitChar (d : Fin 10) : digitValue (digitChar d) = d.val := by
  simp [digitValue, digitChar_toNat]

/-- A digit character is a character of an operand. -/
theorem isNumChar_digitChar (d : Fin 10) : isNumChar (digitChar d) = true := by
  simp [isNumChar, isDigit_digitChar]

/-- A digit character is neither of the two signs. -/
theorem digitChar_ne_sign (d : Fin 10) : digitChar d ≠ '-' ∧ digitChar d ≠ '+' := by
  revert d
  decide

/-- The value of a run of digit characters. -/
theorem digitsValue_map (ds : List (Fin 10)) : digitsValue (ds.map digitChar) = digitsNat ds := by
  unfold digitsValue digitsNat
  rw [List.foldl_map]
  simp only [digitValue_digitChar]

/-- Moving letters apart goes through a concatenation. -/
theorem moveLettersApart_append (a b : List Char) :
    moveLettersApart (a ++ b) = moveLettersApart a ++ moveLettersApart b := by
  induction a with
  | nil => rfl
  | cons c cs ih => by_cases h : isLetter c = true <;> simp [moveLettersApart, h, ih]

/-- Moving letters apart leaves a string without letters as it is. -/
theorem moveLettersApart_of_no_letter (a : List Char) (h : ∀ c ∈ a, isLetter c = false) :
    moveLettersApart a = a := by
  induction a with
  | nil => rfl
  | cons c cs ih =>
    have hc : isLetter c = false := h c (List.mem_cons_self _ _)
    simp [moveLettersApart, hc, ih (fun d hd => h d (List.mem_cons_of_mem _ hd))]

/-- Trimming the end of a string of white space leaves nothing. -/
theorem trimEnd_of_whiteSpace (w : List Char) (h : ∀ c ∈ w, isWhiteSpace c = true) :
    trimEnd w = [] := by
  induction w with
  | nil => rfl
  | cons c cs ih =>
    simp [trimEnd, ih (fun d hd => h d (List.mem_cons_of_mem _ hd)),
      h c (List.mem_cons_self _ _)]

/-- Trimming the end keeps a first character that is not white space. -/
theorem trimEnd_cons_of_not_whiteSpace (c : Char) (s : List Char) (h : isWhiteSpace c = false) :
    trimEnd (c :: s) = c :: trimEnd s := by
  simp [trimEnd, h]

/-- Trimming the end only touches the end. -/
theorem trimEnd_append_left (a b : List Char) (h : trimEnd b ≠ []) :
    trimEnd (a ++ b) = a ++ trimEnd b := by
  induction a with
  | nil => rfl
  | cons c cs ih =>
    have h2 : cs ++ trimEnd b ≠ [] := by simp [h]
    simp [trimEnd, ih, h2]

/-- Trimming the end removes the white space that follows a piece without white space. -/
theorem trimEnd_piece (piece w : List Char) (h1 : ∀ c ∈ piece, isWhiteSpace c = false)
    (h2 : ∀ c ∈ w, isWhiteSpace c = true) : trimEnd (piece ++ w) = piece := by
  induction piece with
  | nil => exact trimEnd_of_whiteSpace w h2
  | cons c cs ih =>
    rw [List.cons_append, trimEnd_cons_of_not_whiteSpace _ _ (h1 c (List.mem_cons_self _ _)),
      ih (fun d hd => h1 d (List.mem_cons_of_mem _ hd))]

/-- Splitting never returns the empty list. -/
theorem splitSeparators_ne_nil (s : List Char) : splitSeparators s ≠ [] := by
  induction s with
  | nil => simp [splitSeparators]
  | cons c cs ih =>
    unfold splitSeparators
    by_cases h : isSeparator c = true
    · simp only [h, if_true]
      cases cs with
      | nil => simp
      | cons d ds =>
        by_cases hd : isSeparator d = true
        · simpa [hd] using ih
        · simp [hd]
    · simp only [h]
      cases hs : splitSeparators cs <;> simp

/-- Splitting a string that starts with a piece without separators. -/
theorem splitSeparators_piece_append (piece s p : List Char) (ps : List (List Char))
    (h : ∀ c ∈ piece, isSeparator c = false) (hs : splitSeparators s = p :: ps) :
    splitSeparators (piece ++ s) = (piece ++ p) :: ps := by
  induction piece with
  | nil => simpa using hs
  | cons c cs ih =>
    have hc : isSeparator c = false := h c (List.mem_cons_self _ _)
    have hcs := ih (fun d hd => h d (List.mem_cons_of_mem _ hd))
    rw [List.cons_append]
    unfold splitSeparators
    simp [hc, hcs]

/-- Splitting a piece without separators gives that piece. -/
theorem splitSeparators_piece (piece : List Char) (h : ∀ c ∈ piece, isSeparator c = false) :
    splitSeparators piece = [piece] := by
  have := splitSeparators_piece_append piece [] [] [] h (by simp [splitSeparators])
  simpa using this

/-- Splitting a string that starts with a run of separators followed by another character. -/
theorem splitSeparators_run (run : List Char) (x : Char) (s : List Char) (hne : run ≠ [])
    (h : ∀ c ∈ run, isSeparator c = true) (hx : isSeparator x = false) :
    splitSeparators (run ++ x :: s) = [] :: splitSeparators (x :: s) := by
  induction run with
  | nil => exact absurd rfl hne
  | cons c cs ih =>
    have hc : isSeparator c = true := h c (List.mem_cons_self _ _)
    cases cs with
    | nil =>
      show splitSeparators (c :: x :: s) = _
      rw [splitSeparators]
      simp [hc, hx]
    | cons d ds =>
      have hd : isSeparator d = true := h d (List.mem_cons_of_mem _ (List.mem_cons_self _ _))
      have := ih (by simp) (fun e he => h e (List.mem_cons_of_mem _ he))
      show splitSeparators (c :: d :: (ds ++ x :: s)) = _
      rw [splitSeparators]
      simp only [hc, hd, if_true]
      exact this

/-- Splitting at a piece, a run of separators, and the rest. -/
theorem splitSeparators_piece_run (piece run : List Char) (x : Char) (s : List Char)
    (hp : ∀ c ∈ piece, isSeparator c = false) (hne : run ≠ [])
    (h : ∀ c ∈ run, isSeparator c = true) (hx : isSeparator x = false) :
    splitSeparators (piece ++ (run ++ x :: s)) = piece :: splitSeparators (x :: s) := by
  have := splitSeparators_piece_append piece (run ++ x :: s) [] (splitSeparators (x :: s)) hp
    (splitSeparators_run run x s hne h hx)
  simpa using this

/-- Every character of a run of digit characters is a digit. -/
theorem all_isDigit_map (ds : List (Fin 10)) : ∀ c ∈ ds.map digitChar, isDigit c = true := by
  intro c hc
  obtain ⟨d, _, rfl⟩ := List.mem_map.mp hc
  exact isDigit_digitChar d

/-- The point is not a digit. -/
theorem isDigit_point : isDigit '.' = false := by decide

/-- The unsigned part of a written operand parses to its magnitude. -/
theorem parseUnsigned_chars (n : NumLit) (h : n.wf = true) :
    parseUnsigned (n.intDigits.map digitChar ++ n.fracChars) = some n.magnitude := by
  obtain ⟨sign, ints, frac⟩ := n
  cases frac with
  | none =>
    have hne : ints ≠ [] := by
      intro h0
      simp [NumLit.wf, h0] at h
    have t1 : (ints.map digitChar).takeWhile isDigit = ints.map digitChar :=
      List.takeWhile_eq_self_iff.mpr (all_isDigit_map ints)
    have d1 : (ints.map digitChar).dropWhile isDigit = [] :=
      List.dropWhile_eq_nil_iff.mpr (all_isDigit_map ints)
    simp [parseUnsigned, NumLit.fracChars, NumLit.magnitude, t1, d1, hne, digitsValue_map,
      exponentPart]
    simp [digitsValue]
  | some f =>
    have t1 : (ints.map digitChar ++ '.' :: f.map digitChar).takeWhile isDigit
        = ints.map digitChar := by
      rw [List.takeWhile_append_of_pos (all_isDigit_map ints)]
      simp [List.takeWhile, isDigit_point]
    have d1 : (ints.map digitChar ++ '.' :: f.map digitChar).dropWhile isDigit
        = '.' :: f.map digitChar := by
      rw [List.dropWhile_append_of_pos (all_isDigit_map ints)]
      simp [List.dropWhile, isDigit_point]
    have t2 : (f.map digitChar).takeWhile isDigit = f.map digitChar :=
      List.takeWhile_eq_self_iff.mpr (all_isDigit_map f)
    have d2 : (f.map digitChar).dropWhile isDigit = [] :=
      List.dropWhile_eq_nil_iff.mpr (all_isDigit_map f)
    have hne : ¬ (ints = [] ∧ f = []) := by
      rintro ⟨h1, h2⟩
      simp [NumLit.wf, h1, h2] at h
    simp only [parseUnsigned, NumLit.fracChars, NumLit.magnitude, t1, d1, t2, d2, if_true,
      List.map_eq_nil_iff, hne, if_false, digitsValue_map, exponentPart, List.length_map]
    simp

/-- Every character of a written operand is a digit, a sign or the point. -/
theorem NumLit.all_isNumChar (n : NumLit) : ∀ c ∈ n.chars, isNumChar c = true := by
  obtain ⟨sign, ints, frac⟩ := n
  intro c hc
  simp only [NumLit.chars, NumLit.fracChars, List.mem_append, List.mem_map] at hc
  rcases hc with hc | hc | hc
  · cases sign <;> simp [Sign.chars] at hc <;> subst hc <;> decide
  · obtain ⟨d, _, rfl⟩ := hc
    exact isNumChar_digitChar d
  · cases frac with
    | none => simp at hc
    | some f =>
      simp only [List.mem_cons, List.mem_map] at hc
      rcases hc with rfl | ⟨d, _, rfl⟩
      · decide
      · exact isNumChar_digitChar d

/-- The digits and the fraction of a well-formed operand start with a digit or the point. -/
theorem NumLit.body_eq_cons (n : NumLit) (h : n.wf = true) :
    ∃ x r, n.intDigits.map digitChar ++ n.fracChars = x :: r ∧ x ≠ '-' ∧ x ≠ '+' := by
  obtain ⟨sign, ints, frac⟩ := n
  cases ints with
  | cons d ds =>
    exact ⟨digitChar d, _, rfl, (digitChar_ne_sign d).1, (digitChar_ne_sign d).2⟩
  | nil =>
    cases frac with
    | none => simp [NumLit.wf] at h
    | some f => exact ⟨'.', _, rfl, by decide, by decide⟩

/-- The built-in `parseFloat` reads a written operand as its value. -/
theorem parseFloat_chars (n : NumLit) (h : n.wf = true) : parseFloat n.chars = some n.value := by
  obtain ⟨x, r, hxr, hx1, hx2⟩ := n.body_eq_cons h
  have hu := parseUnsigned_chars n h
  have hnum := n.all_isNumChar
  cases hs : n.sign with
  | absent =>
    have hchars : n.chars = x :: r := by simp [NumLit.chars, hs, Sign.chars, hxr]
    have hxw : isWhiteSpace x = false :=
      (isNumChar_spec x (hnum x (by simp [hchars]))).2.1
    rw [hxr] at hu
    simp [parseFloat, hchars, List.dropWhile, hxw, hx1, hx2, hu, NumLit.value, hs]
  | plus =>
    have hchars : n.chars = '+' :: (x :: r) := by simp [NumLit.chars, hs, Sign.chars, hxr]
    have hw : isWhiteSpace '+' = false := by decide
    have hne : ('+' : Char) ≠ '-' := by decide
    rw [hxr] at hu
    simp [parseFloat, hchars, List.dropWhile, hw, hne, hu, NumLit.value, hs]
  | minus =>
    have hchars : n.chars = '-' :: (x :: r) := by simp [NumLit.chars, hs, Sign.chars, hxr]
    have hw : isWhiteSpace '-' = false := by decide
    rw [hxr] at hu
    simp [parseFloat, hchars, List.dropWhile, hw, hu, NumLit.value, hs]

/-- The characters of a well-formed written token hold no white space and no separator. -/
theorem PathItem.chars_clean (item : PathItem) (h : item.wf = true) :
    ∀ c ∈ item.chars, isWhiteSpace c = false ∧ isSeparator c = false := by
  cases item with
  | command l =>
    intro c hc
    simp only [PathItem.chars, List.mem_singleton] at hc
    subst hc
    exact ⟨isWhiteSpace_of_isLetter c h, isSeparator_of_isLetter c h⟩
  | number n =>
    intro c hc
    have := isNumChar_spec c (n.all_isNumChar c hc)
    exact ⟨this.2.1, this.2.2⟩

/-- A well-formed written token has a first character. -/
theorem PathItem.chars_eq_cons (item : PathItem) (h : item.wf = true) :
    ∃ x r, item.chars = x :: r := by
  cases item with
  | command l => exact ⟨l, [], rfl⟩
  | number n =>
    obtain ⟨x, r, hxr, _, _⟩ := n.body_eq_cons h
    cases hs : n.sign <;> simp [PathItem.chars, NumLit.chars, hs, Sign.chars, hxr]

/-- The loop body of `splitPath` turns the characters of a written token into its token. -/
theorem pieceToken_chars (item : PathItem) (h : item.wf = true) :
    pieceToken item.chars = item.token := by
  cases item with
  | command l =>
    have hl : isLetter l = true := h
    simp [pieceToken, PathItem.chars, PathItem.token, hl]
  | number n =>
    have hno : n.chars.any isLetter = false := by
      rw [List.any_eq_false]
      intro c hc
      simp [(isNumChar_spec c (n.all_isNumChar c hc)).1]
    simp [pieceToken, PathItem.chars, PathItem.token, hno, parseFloat_chars n h]

/-- The pad around a written token is made of spaces. -/
theorem PathItem.pad_spec (item : PathItem) :
    ∀ c ∈ item.pad, isWhiteSpace c = true ∧ isSeparator c = true := by
  cases item with
  | command l =>
    intro c hc
    simp only [PathItem.pad, List.mem_singleton] at hc
    subst hc
    exact ⟨by decide, by decide⟩
  | number n => simp [PathItem.pad]

/-- Moving the letters of a written token apart puts its pad on both sides. -/
theorem moveLettersApart_item (item : PathItem) (h : item.wf = true) :
    moveLettersApart item.chars = item.pad ++ (item.chars ++ item.pad) := by
  cases item with
  | command l =>
    have hl : isLetter l = true := h
    simp [PathItem.chars, PathItem.pad, moveLettersApart, hl]
  | number n =>
    have := moveLettersApart_of_no_letter n.chars
      (fun c hc => (isNumChar_spec c (n.all_isNumChar c hc)).1)
    simpa [PathItem.chars, PathItem.pad] using this

/-- Moving the letters apart in the further tokens and the trailing white space. -/
theorem moveLettersApart_rest (rest : List (List Char × PathItem)) (previous : PathItem)
    (trailing : List Char) (hr : restWf isSeparator previous rest = true)
    (ht : ∀ c ∈ trailing, isWhiteSpace c = true) :
    moveLettersApart (restChars rest ++ trailing) = movedRest rest trailing := by
  induction rest generalizing previous with
  | nil =>
    exact moveLettersApart_of_no_letter trailing (fun c hc => isLetter_of_isWhiteSpace c (ht c hc))
  | cons head more ih =>
    obtain ⟨sep, item⟩ := head
    simp only [restWf, Bool.and_eq_true, List.all_eq_true] at hr
    obtain ⟨⟨⟨hsep, _⟩, hitem⟩, hmore⟩ := hr
    simp only [restChars, movedRest, List.append_assoc, moveLettersApart_append,
      moveLettersApart_item item hitem, ih item hmore,
      moveLettersApart_of_no_letter sep (fun c hc => isLetter_of_isSeparator c (hsep c hc))]

/-- The pieces of a trimmed, well-formed tail are the tokens as written. -/
theorem pieces_of_moved (rest : List (List Char × PathItem)) (item : PathItem)
    (trailing : List Char) (hi : item.wf = true) (hr : restWf isSeparator item rest = true)
    (ht : ∀ c ∈ trailing, isWhiteSpace c = true) :
    (splitSeparators (trimEnd (item.chars ++ (item.pad ++ movedRest rest trailing)))).map
        pieceToken
      = item.token :: rest.map (fun p => p.2.token) := by
  induction rest generalizing item with
  | nil =>
    have hws : ∀ c ∈ item.pad ++ trailing, isWhiteSpace c = true := by
      intro c hc
      rcases List.mem_append.mp hc with h | h
      · exact (item.pad_spec c h).1
      · exact ht c h
    rw [movedRest, trimEnd_piece item.chars _ (fun c hc => (item.chars_clean hi c hc).1) hws,
      splitSeparators_piece item.chars (fun c hc => (item.chars_clean hi c hc).2)]
    simp [pieceToken_chars item hi]
  | cons head more ih =>
    obtain ⟨sep, next⟩ := head
    simp only [restWf, Bool.and_eq_true, List.all_eq_true] at hr
    obtain ⟨⟨⟨hsep, hgap⟩, hnext⟩, hmore⟩ := hr
    obtain ⟨x, r, hxr⟩ := next.chars_eq_cons hnext
    have hx := next.chars_clean hnext x (by simp [hxr])
    have hT : trimEnd (next.chars ++ (next.pad ++ movedRest more trailing))
        = x :: trimEnd (r ++ (next.pad ++ movedRest more trailing)) := by
      rw [hxr, List.cons_append, trimEnd_cons_of_not_whiteSpace _ _ hx.1]
    have hne : trimEnd (next.chars ++ (next.pad ++ movedRest more trailing)) ≠ [] := by
      rw [hT]
      simp
    have hrun : ∀ c ∈ item.pad ++ (sep ++ next.pad), isSeparator c = true := by
      intro c hc
      rcases List.mem_append.mp hc with h | h
      · exact (item.pad_spec c h).2
      · rcases List.mem_append.mp h with h | h
        · exact hsep c h
        · exact (next.pad_spec c h).2
    have hrne : item.pad ++ (sep ++ next.pad) ≠ [] := by
      cases item with
      | command l => simp [PathItem.pad]
      | number n =>
        cases next with
        | command l => simp [PathItem.pad]
        | number m =>
          have : sep ≠ [] := by
            intro h0
            simp [PathItem.isOperand, h0] at hgap
          simp [PathItem.pad, this]
    have hwhole : item.chars ++ (item.pad ++ movedRest ((sep, next) :: more) trailing)
        = (item.chars ++ (item.pad ++ (sep ++ next.pad)))
          ++ (next.chars ++ (next.pad ++ movedRest more trailing)) := by
      simp [movedRest, List.append_assoc]
    rw [hwhole, trimEnd_append_left _ _ hne, List.append_assoc, hT,
      splitSeparators_piece_run item.chars _ x _ (fun c hc => (item.chars_clean hi c hc).2)
        hrne hrun hx.2,
      ← hT, List.map_cons, ih next hnext hmore, pieceToken_chars item hi]
    rfl

/-- Trimming the start removes the leading white space and the pad before the first token. -/
theorem dropWhile_leading (leading : List Char) (item : PathItem) (s : List Char)
    (hl : ∀ c ∈ leading, isWhiteSpace c = true) (hi : item.wf = true) :
    (leading ++ (item.pad ++ (item.chars ++ s))).dropWhile isWhiteSpace = item.chars ++ s := by
  obtain ⟨x, r, hxr⟩ := item.chars_eq_cons hi
  have hx := item.chars_clean hi x (by simp [hxr])
  rw [List.dropWhile_append_of_pos hl,
    List.dropWhile_append_of_pos (fun c hc => (item.pad_spec c hc).1), hxr, List.cons_append]
  simp [List.dropWhile, hx.1]

/-- The function `splitPath` on a well-formed path string returns the tokens as written. -/
theorem splitPath_chars (t : PathText) (h : t.wf = true) :
    splitPath (String.mk t.chars) = t.tokens := by
  simp only [PathText.wf, Bool.and_eq_true, List.all_eq_true] at h
  obtain ⟨⟨⟨hl, ht⟩, hf⟩, hr⟩ := h
  have hmoved : moveLettersApart t.chars
      = t.leading ++ (t.first.pad ++ (t.first.chars
          ++ (t.first.pad ++ movedRest t.rest t.trailing))) := by
    simp only [PathText.chars, moveLettersApart_append, moveLettersApart_item t.first hf,
      moveLettersApart_rest t.rest t.first t.trailing hr ht, List.append_assoc,
      moveLettersApart_of_no_letter t.leading (fun c hc => isLetter_of_isWhiteSpace c (hl c hc))]
  simp only [splitPath, hmoved, trim, dropWhile_leading t.leading t.first _ hl hf,
    pieces_of_moved t.rest t.first t.trailing hf hr ht, PathText.tokens]

/-- C2 as stated fails: in `M0<tab>0` the two operands are separated by white space, yet
`splitPath` returns the two tokens `'M'` and `0` and not the three tokens `'M'`, `0`, `0`. -/
theorem splitPath_tab_separator :
    tabText.wfAsStated = true ∧ String.mk tabText.chars = "M0\t0" ∧
    splitPath "M0\t0" = [PathToken.cmd "M", PathToken.num 0] ∧
    splitPath (String.mk tabText.chars) ≠ tabText.tokens := by
  have hpieces : splitSeparators (trim (moveLettersApart "M0\t0".data))
      = [['M'], ['0', '\t', '0']] := by decide
  have hM : pieceToken ['M'] = PathToken.cmd "M" := by decide
  have h0 : pieceToken ['0', '\t', '0'] = PathToken.num 0 := by
    have a1 : isWhiteSpace '0' = false := by decide
    have a2 : isDigit '0' = true := by decide
    have a3 : isDigit '\t' = false := by decide
    have a4 : isLetter '0' = false := by decide
    have a5 : isLetter '\t' = false := by decide
    have a6 : ('0' : Char) ≠ '-' := by decide
    have a7 : ('0' : Char) ≠ '+' := by decide
    have a8 : ('\t' : Char) ≠ '.' := by decide
    have a9 : digitValue '0' = 0 := by decide
    simp [pieceToken, parseFloat, parseUnsigned, List.takeWhile, List.dropWhile, digitsValue,
      exponentPart, a1, a2, a3, a4, a5, a6, a7, a8, a9]
  have hsplit : splitPath "M0\t0" = [PathToken.cmd "M", PathToken.num 0] := by
    simp only [splitPath, hpieces, List.map, hM, h0]
  have hchars : String.mk tabText.chars = "M0\t0" := by decide
  refine ⟨by decide, hchars, hsplit, ?_⟩
  rw [hchars, hsplit]
  simp [PathText.tokens, tabText]

/-- C2, amended: for every path string made of one-letter commands and decimal operands in
which the tokens are separated by spaces and commas (optional next to a letter, required
between two operands) and which has any white space only before the first and after the last
token, `splitPath` returns the tokens in input order, each command as a one-character string
and each operand as its numeric value; `splitPath "M0,0L10,10Z"` is
`['M', 0, 0, 'L', 10, 10, 'Z']`. -/
theorem splitPath_wellFormed (t : PathText) (h : t.wf = true) :
    splitPath (String.mk t.chars) = t.tokens ∧
    splitPath "M0,0L10,10Z"
      = [PathToken.cmd "M", PathToken.num 0, PathToken.num 0, PathToken.cmd "L",
         PathToken.num 10, PathToken.num 10, PathToken.cmd "Z"] := by
  refine ⟨splitPath_chars t h, ?_⟩
  have hchars : String.mk exampleText.chars = "M0,0L10,10Z" := by decide
  have hex := splitPath_chars exampleText (by decide)
  rw [hchars] at hex
  rw [hex]
  simp [PathText.tokens, exampleText, PathItem.token, NumLit.value, NumLit.magnitude, zeroLit,
    tenLit, digitsNat]

/-- Witness for C2, amended: the path string `M0,0L10,10Z`. -/
theorem splitPath_wellFormed_witness :
    splitPath (String.mk exampleText.chars) = exampleText.tokens :=
  (splitPath_wellFormed exampleText (by decide)).1

/-! ## Box fitting, further properties -/

/-- One dimension of `fitToBox`: an inner size above the outer size gives the outer interval. -/
theorem fitDim_of_larger (pos size opos osize : ℚ) (h : osize < size) :
    fitDim pos size opos osize = (opos, osize) := by
  dsimp only [fitDim]
  by_cases h1 : pos + size > opos + osize
  · simp [h1, h]
  · have h2 : pos < opos := by
      have := not_lt.mp h1
      linarith
    simp [h1, h, h2]

/-- One dimension of `fitToBox`: an inner size within the outer size is kept, and the position
is clamped to `[opos, opos + osize - size]`. -/
theorem fitDim_of_not_larger (pos size opos osize : ℚ) (h : size ≤ osize) :
    fitDim pos size opos osize = (max opos (min pos (opos + osize - size)), size) := by
  dsimp only [fitDim]
  have hs : ¬ (size > osize) := not_lt.mpr h
  by_cases h1 : pos + size > opos + osize
  · have h2 : ¬ (opos + osize - size < opos) := by
      intro h3
      linarith
    have h4 : min pos (opos + osize - size) = opos + osize - size :=
      min_eq_right (by linarith)
    have h5 : max opos (opos + osize - size) = opos + osize - size :=
      max_eq_right (by linarith)
    simp [h1, hs, h2, h4, h5]
  · have h4 : min pos (opos + osize - size) = pos := min_eq_left (by
      have := not_lt.mp h1
      linarith)
    by_cases h2 : pos < opos
    · simp [h1, hs, h2, h4, max_eq_left h2.le]
    · simp [h1, hs, h2, h4, max_eq_right (not_lt.mp h2)]

/-- C13: whenever the inner box is larger than the outer box on an axis, `fitToBox` returns on
that axis the outer box's position and size, whichever edge was overflowed; fitting
`{x:-10, y:0, width:120, height:50}` against `{x:0, y:0, width:100, height:50}` gives the
outer box. -/
theorem fitToBox_larger (inner outer : Box) :
    (outer.width < inner.width →
      (fitToBox inner outer).x = outer.x ∧ (fitToBox inner outer).width = outer.width) ∧
    (outer.height < inner.height →
      (fitToBox inner outer).y = outer.y ∧ (fitToBox inner outer).height = outer.height) ∧
    fitToBox wideBox boundBox = boundBox := by
  refine ⟨fun h => ?_, fun h => ?_, ?_⟩
  · simp [fitToBox, fitDim_of_larger _ _ _ _ h]
  · simp [fitToBox, fitDim_of_larger _ _ _ _ h]
  · have hw : (100 : ℚ) < 120 := by norm_num
    have hh : (50 : ℚ) ≤ 50 := le_refl _
    simp only [fitToBox, wideBox, boundBox, fitDim_of_larger _ _ _ _ hw,
      fitDim_of_not_larger _ _ _ _ hh]
    norm_num

/-- C18: whenever the inner box is not larger than the outer box on an axis, `fitToBox` keeps
its size on that axis and moves it only as far as needed: the position becomes the inner
position clamped to `[outer.pos, outer.pos + outer.size - inner.size]`. So a box that hangs over
the trailing edge ends with its trailing edge on the outer's, a box that starts before the
leading edge ends at the outer's position, and any other box is unchanged on that axis. -/
theorem fitToBox_not_larger (inner outer : Box) :
    (inner.width ≤ outer.width →
      (fitToBox inner outer).width = inner.width ∧
      (fitToBox inner outer).x = max outer.x (min inner.x (outer.x + outer.width - inner.width)) ∧
      (outer.x + outer.width < inner.x + inner.width →
        (fitToBox inner outer).x + (fitToBox inner outer).width = outer.x + outer.width) ∧
      (inner.x < outer.x → (fitToBox inner outer).x = outer.x) ∧
      (outer.x ≤ inner.x → inner.x + inner.width ≤ outer.x + outer.width →
        (fitToBox inner outer).x = inner.x)) ∧
    (inner.height ≤ outer.height →
      (fitToBox inner outer).height = inner.height ∧
      (fitToBox inner outer).y
        = max outer.y (min inner.y (outer.y + outer.height - inner.height)) ∧
      (outer.y + outer.height < inner.y + inner.height →
        (fitToBox inner outer).y + (fitToBox inner outer).height = outer.y + outer.height) ∧
      (inner.y < outer.y → (fitToBox inner outer).y = outer.y) ∧
      (outer.y ≤ inner.y → inner.y + inner.height ≤ outer.y + outer.height →
        (fitToBox inner outer).y = inner.y)) := by
  have clamp : ∀ pos size opos osize : ℚ, size ≤ osize →
      (opos + osize < pos + size →
        max opos (min pos (opos + osize - size)) + size = opos + osize) ∧
      (pos < opos → max opos (min pos (opos + osize - size)) = opos) ∧
      (opos ≤ pos → pos + size ≤ opos + osize →
        max opos (min pos (opos + osize - size)) = pos) := by
    intro pos size opos osize hs
    refine ⟨fun h => ?_, fun h => ?_, fun h1 h2 => ?_⟩
    · rw [min_eq_right (by linarith), max_eq_right (by linarith)]
      ring
    · exact max_eq_left ((min_le_left _ _).trans h.le)
    · rw [min_eq_left (by linarith), max_eq_right h1]
  constructor
  · intro h
    have e := fitDim_of_not_larger inner.x inner.width outer.x outer.width h
    have c := clamp inner.x inner.width outer.x outer.width h
    simp only [fitToBox, e]
    exact ⟨trivial, trivial, c.1, c.2.1, c.2.2⟩
  · intro h
    have e := fitDim_of_not_larger inner.y inner.height outer.y outer.height h
    have c := clamp inner.y inner.height outer.y outer.height h
    simp only [fitToBox, e]
    exact ⟨trivial, trivial, c.1, c.2.1, c.2.2⟩

/-- Witness for C18: a box that fits in the bound but hangs over its right edge is moved left
until the two right edges meet. -/
theorem fitToBox_not_larger_witness :
    (fitToBox shiftedBox boundBox).width = shiftedBox.width ∧
    (fitToBox shiftedBox boundBox).x
      = max boundBox.x (min shiftedBox.x (boundBox.x + boundBox.width - shiftedBox.width)) :=
  ⟨((fitToBox_not_larger shiftedBox boundBox).1 (by norm_num [shiftedBox, boundBox])).1,
   ((fitToBox_not_larger shiftedBox boundBox).1 (by norm_num [shiftedBox, boundBox])).2.1⟩

/-! ## Zooming back and forth -/

/-- An accepted `mapZoom` call whose candidate box is not changed by `fitToBox` stores the
edges of the candidate box. -/
theorem mapZoom_unclamped (howMuch : ℚ) (cx cy : Option ℚ) (chart : Chart)
    (hidle : chart.isMapZooming = false)
    (hfit : fitToBox (zoomCandidate chart howMuch cx cy) (dataBox chart)
      = zoomCandidate chart howMuch cx cy) :
    (mapZoom howMuch cx cy chart).xAxis.min
      = chart.xAxis.zoomCenter cx - chart.xAxis.range * howMuch / 2 ∧
    (mapZoom howMuch cx cy chart).xAxis.max
      = chart.xAxis.zoomCenter cx + chart.xAxis.range * howMuch / 2 ∧
    (mapZoom howMuch cx cy chart).yAxis.min
      = chart.yAxis.zoomCenter cy - chart.yAxis.range * howMuch / 2 ∧
    (mapZoom howMuch cx cy chart).yAxis.max
      = chart.yAxis.zoomCenter cy + chart.yAxis.range * howMuch / 2 ∧
    dataBox (mapZoom howMuch cx cy chart).idle = dataBox chart := by
  have hx : (zoomCandidate chart howMuch cx cy).x
      = chart.xAxis.zoomCenter cx - chart.xAxis.range * howMuch / 2 := by
    cases cx <;> simp [zoomCandidate, Axis.zoomCenter, Axis.range, pick]
  have hy : (zoomCandidate chart howMuch cx cy).y
      = chart.yAxis.zoomCenter cy - chart.yAxis.range * howMuch / 2 := by
    cases cy <;> simp [zoomCandidate, Axis.zoomCenter, Axis.range, pick]
  have hw : (zoomCandidate chart howMuch cx cy).width = chart.xAxis.range * howMuch := rfl
  have hh : (zoomCandidate chart howMuch cx cy).height = chart.yAxis.range * howMuch := rfl
  simp only [mapZoom, hidle, Bool.false_eq_true, if_false, hfit, Axis.setExtremes, hx, hy, hw, hh]
  refine ⟨trivial, by ring, trivial, by ring, by simp [Chart.idle, dataBox]⟩

/-- Zooming `innerChart` by 2 and then by 0.5 around the focal point (43, 43): `fitToBox`
changes neither candidate box, and the X axis ends at `[38, 48]`. -/
theorem innerChart_zoom_43 :
    fitToBox (zoomCandidate innerChart 2 (some 43) (some 43)) (dataBox innerChart)
      = zoomCandidate innerChart 2 (some 43) (some 43) ∧
    fitToBox (zoomCandidate (mapZoom 2 (some 43) (some 43) innerChart).idle (1 / 2) (some 43)
        (some 43)) (dataBox (mapZoom 2 (some 43) (some 43) innerChart).idle)
      = zoomCandidate (mapZoom 2 (some 43) (some 43) innerChart).idle (1 / 2) (some 43)
        (some 43) ∧
    (mapZoom (1 / 2) (some 43) (some 43)
      (mapZoom 2 (some 43) (some 43) innerChart).idle).xAxis.min = 38 ∧
    (mapZoom (1 / 2) (some 43) (some 43)
      (mapZoom 2 (some 43) (some 43) innerChart).idle).xAxis.max = 48 ∧
    (mapZoom (1 / 2) (some 43) (some 43)
      (mapZoom 2 (some 43) (some 43) innerChart).idle).xAxis.min ≠ innerChart.xAxis.min := by
  have hidle : innerChart.isMapZooming = false := rfl
  have h1 : fitToBox (zoomCandidate innerChart 2 (some 43) (some 43)) (dataBox innerChart)
      = zoomCandidate innerChart 2 (some 43) (some 43) := by
    simp only [fitToBox, zoomCandidate, dataBox, innerChart, pick, Option.getD]
    rw [fitDim_of_inside _ _ _ _ (by norm_num) (by norm_num)]
  obtain ⟨a1, a2, a3, a4, a5⟩ := mapZoom_unclamped 2 (some 43) (some 43) innerChart hidle h1
  have b1 : (mapZoom 2 (some 43) (some 43) innerChart).idle.xAxis.min = 33 := by
    rw [show (mapZoom 2 (some 43) (some 43) innerChart).idle.xAxis
        = (mapZoom 2 (some 43) (some 43) innerChart).xAxis from rfl, a1]
    norm_num [Axis.zoomCenter, Axis.range, innerChart]
  have b2 : (mapZoom 2 (some 43) (some 43) innerChart).idle.xAxis.max = 53 := by
    rw [show (mapZoom 2 (some 43) (some 43) innerChart).idle.xAxis
        = (mapZoom 2 (some 43) (some 43) innerChart).xAxis from rfl, a2]
    norm_num [Axis.zoomCenter, Axis.range, innerChart]
  have b3 : (mapZoom 2 (some 43) (some 43) innerChart).idle.yAxis.min = 33 := by
    rw [show (mapZoom 2 (some 43) (some 43) innerChart).idle.yAxis
        = (mapZoom 2 (some 43) (some 43) innerChart).yAxis from rfl, a3]
    norm_num [Axis.zoomCenter, Axis.range, innerChart]
  have b4 : (mapZoom 2 (some 43) (some 43) innerChart).idle.yAxis.max = 53 := by
    rw [show (mapZoom 2 (some 43) (some 43) innerChart).idle.yAxis
        = (mapZoom 2 (some 43) (some 43) innerChart).yAxis from rfl, a4]
    norm_num [Axis.zoomCenter, Axis.range, innerChart]
  have h2 : fitToBox (zoomCandidate (mapZoom 2 (some 43) (some 43) innerChart).idle (1 / 2)
        (some 43) (some 43)) (dataBox (mapZoom 2 (some 43) (some 43) innerChart).idle)
      = zoomCandidate (mapZoom 2 (some 43) (some 43) innerChart).idle (1 / 2) (some 43)
        (some 43) := by
    rw [a5]
    simp only [fitToBox, zoomCandidate, dataBox, pick, Option.getD, b1, b2, b3, b4]
    rw [fitDim_of_inside _ _ _ _ (by norm_num [innerChart]) (by norm_num [innerChart]),
      fitDim_of_inside _ _ _ _ (by norm_num [innerChart]) (by norm_num [innerChart])]
  obtain ⟨c1, c2, _, _, _⟩ := mapZoom_unclamped (1 / 2) (some 43) (some 43)
    (mapZoom 2 (some 43) (some 43) innerChart).idle rfl h2
  have d1 : (mapZoom (1 / 2) (some 43) (some 43)
      (mapZoom 2 (some 43) (some 43) innerChart).idle).xAxis.min = 38 := by
    rw [c1]
    simp only [Axis.zoomCenter, Axis.range, b1, b2]
    norm_num
  have d2 : (mapZoom (1 / 2) (some 43) (some 43)
      (mapZoom 2 (some 43) (some 43) innerChart).idle).xAxis.max = 48 := by
    rw [c2]
    simp only [Axis.zoomCenter, Axis.range, b1, b2]
    norm_num
  refine ⟨h1, h2, d1, d2, ?_⟩
  rw [d1]
  norm_num [innerChart]

/-- C11 as stated fails: the chart shows `[40, 50]` of the data bounds `[0, 100]`; zooming by 2
and then by 0.5 around the focal point (43, 43), without clamping in either call, ends at
`[38, 48]` and not at `[40, 50]`. -/
theorem mapZoom_inverse_off_centre :
    fitToBox (zoomCandidate innerChart 2 (some 43) (some 43)) (dataBox innerChart)
      = zoomCandidate innerChart 2 (some 43) (some 43) ∧
    fitToBox (zoomCandidate (mapZoom 2 (some 43) (some 43) innerChart).idle (1 / 2) (some 43)
        (some 43)) (dataBox (mapZoom 2 (some 43) (some 43) innerChart).idle)
      = zoomCandidate (mapZoom 2 (some 43) (some 43) innerChart).idle (1 / 2) (some 43)
        (some 43) ∧
    (mapZoom (1 / 2) (some 43) (some 43)
      (mapZoom 2 (some 43) (some 43) innerChart).idle).xAxis.min = 38 ∧
    (mapZoom (1 / 2) (some 43) (some 43)
      (mapZoom 2 (some 43) (some 43) innerChart).idle).xAxis.max = 48 ∧
    innerChart.xAxis.min = 40 ∧ innerChart.xAxis.max = 50 ∧
    (mapZoom (1 / 2) (some 43) (some 43)
      (mapZoom 2 (some 43) (some 43) innerChart).idle).xAxis.min ≠ innerChart.xAxis.min :=
  ⟨innerChart_zoom_43.1, innerChart_zoom_43.2.1, innerChart_zoom_43.2.2.1,
    innerChart_zoom_43.2.2.2.1, rfl, rfl, innerChart_zoom_43.2.2.2.2⟩

/-- C11, amended: from an idle chart, `mapZoom 2` followed (once idle again) by `mapZoom 0.5`
with the same focal arguments, and with no clamping by `fitToBox` in either call, gives each
axis the range it had before the first call and the extremes `[c - r/2, c + r/2]` centred on
the focal coordinate `c` (the supplied one, or the midpoint when it is omitted). These are the
extremes before the first call exactly when `c` is the centre of the previous visible
range, and so always when the focal point is omitted. -/
theorem mapZoom_out_then_in (cx cy : Option ℚ) (chart : Chart)
    (hidle : chart.isMapZooming = false)
    (h1 : fitToBox (zoomCandidate chart 2 cx cy) (dataBox chart) = zoomCandidate chart 2 cx cy)
    (h2 : fitToBox (zoomCandidate (mapZoom 2 cx cy chart).idle (1 / 2) cx cy)
        (dataBox (mapZoom 2 cx cy chart).idle)
      = zoomCandidate (mapZoom 2 cx cy chart).idle (1 / 2) cx cy) :
    (mapZoom (1 / 2) cx cy (mapZoom 2 cx cy chart).idle).xAxis.min
      = chart.xAxis.zoomCenter cx - chart.xAxis.range / 2 ∧
    (mapZoom (1 / 2) cx cy (mapZoom 2 cx cy chart).idle).xAxis.max
      = chart.xAxis.zoomCenter cx + chart.xAxis.range / 2 ∧
    (mapZoom (1 / 2) cx cy (mapZoom 2 cx cy chart).idle).yAxis.min
      = chart.yAxis.zoomCenter cy - chart.yAxis.range / 2 ∧
    (mapZoom (1 / 2) cx cy (mapZoom 2 cx cy chart).idle).yAxis.max
      = chart.yAxis.zoomCenter cy + chart.yAxis.range / 2 ∧
    (mapZoom (1 / 2) cx cy (mapZoom 2 cx cy chart).idle).xAxis.range = chart.xAxis.range ∧
    (mapZoom (1 / 2) cx cy (mapZoom 2 cx cy chart).idle).yAxis.range = chart.yAxis.range ∧
    (((mapZoom (1 / 2) cx cy (mapZoom 2 cx cy chart).idle).xAxis.min = chart.xAxis.min ∧
      (mapZoom (1 / 2) cx cy (mapZoom 2 cx cy chart).idle).xAxis.max = chart.xAxis.max) ↔
      chart.xAxis.zoomCenter cx = chart.xAxis.min + chart.xAxis.range / 2) ∧
    (((mapZoom (1 / 2) cx cy (mapZoom 2 cx cy chart).idle).yAxis.min = chart.yAxis.min ∧
      (mapZoom (1 / 2) cx cy (mapZoom 2 cx cy chart).idle).yAxis.max = chart.yAxis.max) ↔
      chart.yAxis.zoomCenter cy = chart.yAxis.min + chart.yAxis.range / 2) ∧
    (cx = none →
      (mapZoom (1 / 2) cx cy (mapZoom 2 cx cy chart).idle).xAxis.min = chart.xAxis.min ∧
      (mapZoom (1 / 2) cx cy (mapZoom 2 cx cy chart).idle).xAxis.max = chart.xAxis.max) ∧
    (cy = none →
      (mapZoom (1 / 2) cx cy (mapZoom 2 cx cy chart).idle).yAxis.min = chart.yAxis.min ∧
      (mapZoom (1 / 2) cx cy (mapZoom 2 cx cy chart).idle).yAxis.max = chart.yAxis.max) := by
  obtain ⟨a1, a2, a3, a4, _⟩ := mapZoom_unclamped 2 cx cy chart hidle h1
  obtain ⟨c1, c2, c3, c4, _⟩ :=
    mapZoom_unclamped (1 / 2) cx cy (mapZoom 2 cx cy chart).idle rfl h2
  have ex : (mapZoom 2 cx cy chart).idle.xAxis = (mapZoom 2 cx cy chart).xAxis := rfl
  have ey : (mapZoom 2 cx cy chart).idle.yAxis = (mapZoom 2 cx cy chart).yAxis := rfl
  have rx : (mapZoom 2 cx cy chart).xAxis.range = chart.xAxis.range * 2 := by
    simp only [Axis.range, a1, a2]
    ring
  have ry : (mapZoom 2 cx cy chart).yAxis.range = chart.yAxis.range * 2 := by
    simp only [Axis.range, a3, a4]
    ring
  have zx : (mapZoom 2 cx cy chart).xAxis.zoomCenter cx = chart.xAxis.zoomCenter cx := by
    cases cx with
    | some f => rfl
    | none =>
      simp only [Axis.zoomCenter, rx, a1]
      ring
  have zy : (mapZoom 2 cx cy chart).yAxis.zoomCenter cy = chart.yAxis.zoomCenter cy := by
    cases cy with
    | some f => rfl
    | none =>
      simp only [Axis.zoomCenter, ry, a3]
      ring
  rw [ex, zx, rx] at c1 c2
  rw [ey, zy, ry] at c3 c4
  have m1 : (mapZoom (1 / 2) cx cy (mapZoom 2 cx cy chart).idle).xAxis.min
      = chart.xAxis.zoomCenter cx - chart.xAxis.range / 2 := by rw [c1]; ring
  have m2 : (mapZoom (1 / 2) cx cy (mapZoom 2 cx cy chart).idle).xAxis.max
      = chart.xAxis.zoomCenter cx + chart.xAxis.range / 2 := by rw [c2]; ring
  have m3 : (mapZoom (1 / 2) cx cy (mapZoom 2 cx cy chart).idle).yAxis.min
      = chart.yAxis.zoomCenter cy - chart.yAxis.range / 2 := by rw [c3]; ring
  have m4 : (mapZoom (1 / 2) cx cy (mapZoom 2 cx cy chart).idle).yAxis.max
      = chart.yAxis.zoomCenter cy + chart.yAxis.range / 2 := by rw [c4]; ring
  have qx : chart.xAxis.range = chart.xAxis.max - chart.xAxis.min := rfl
  have qy : chart.yAxis.range = chart.yAxis.max - chart.yAxis.min := rfl
  have ix : ((mapZoom (1 / 2) cx cy (mapZoom 2 cx cy chart).idle).xAxis.min = chart.xAxis.min ∧
      (mapZoom (1 / 2) cx cy (mapZoom 2 cx cy chart).idle).xAxis.max = chart.xAxis.max) ↔
      chart.xAxis.zoomCenter cx = chart.xAxis.min + chart.xAxis.range / 2 := by
    rw [m1, m2]
    constructor
    · rintro ⟨h, _⟩
      linarith
    · intro h
      constructor <;> linarith
  have iy : ((mapZoom (1 / 2) cx cy (mapZoom 2 cx cy chart).idle).yAxis.min = chart.yAxis.min ∧
      (mapZoom (1 / 2) cx cy (mapZoom 2 cx cy chart).idle).yAxis.max = chart.yAxis.max) ↔
      chart.yAxis.zoomCenter cy = chart.yAxis.min + chart.yAxis.range / 2 := by
    rw [m3, m4]
    constructor
    · rintro ⟨h, _⟩
      linarith
    · intro h
      constructor <;> linarith
  refine ⟨m1, m2, m3, m4, ?_, ?_, ix, iy, ?_, ?_⟩
  · simp only [Axis.range, m1, m2]
    ring
  · simp only [Axis.range, m3, m4]
    ring
  · intro hc
    apply ix.mpr
    rw [hc]
    rfl
  · intro hc
    apply iy.mpr
    rw [hc]
    rfl

/-- Witness for C11, amended: `innerChart` zoomed by 2 and then by 0.5 around (43, 43). -/
theorem mapZoom_out_then_in_witness :
    (mapZoom (1 / 2) (some 43) (some 43)
        (mapZoom 2 (some 43) (some 43) innerChart).idle).xAxis.range = innerChart.xAxis.range :=
  (mapZoom_out_then_in (some 43) (some 43) innerChart rfl innerChart_zoom_43.1
    innerChart_zoom_43.2.1).2.2.2.2.1

/-! ## Centring padding -/

/-- Division of finite numbers by a nonzero finite number. -/
theorem jsDiv_fin (a b : ℚ) (h : b ≠ 0) :
    JSNum.div (JSNum.fin a) (JSNum.fin b) = JSNum.fin (a / b) := by
  simp [JSNum.div, h]

/-- The wrapper on the Y axis of a map chart whose X axis has a scale: which axis is padded,
and with what. -/
theorem setAxisTranslation_padding (proceed : Axis → Axis) (chart : Chart) (sx : JSNum)
    (hmap : chart.chartType = "map") (hx : chart.xAxis.transA = some sx) :
    (JSNum.gt
        (JSNum.div (JSNum.fin (chart.xAxis.max - chart.xAxis.min))
          (JSNum.fin ((proceed chart.yAxis).max - (proceed chart.yAxis).min)))
        (JSNum.div (JSNum.fin chart.plotWidth) (JSNum.fin chart.plotHeight)) = true →
      (setAxisTranslation proceed chart false).yAxis.minPixelPadding
        = JSNum.div
            (JSNum.sub (JSNum.fin (proceed chart.yAxis).len)
              (JSNum.mul (JSNum.fin ((proceed chart.yAxis).max - (proceed chart.yAxis).min))
                (JSNum.min (toNumber (proceed chart.yAxis).transA) sx)))
            (JSNum.fin 2) ∧
      (setAxisTranslation proceed chart false).xAxis.minPixelPadding
        = chart.xAxis.minPixelPadding) ∧
    (JSNum.gt
        (JSNum.div (JSNum.fin (chart.xAxis.max - chart.xAxis.min))
          (JSNum.fin ((proceed chart.yAxis).max - (proceed chart.yAxis).min)))
        (JSNum.div (JSNum.fin chart.plotWidth) (JSNum.fin chart.plotHeight)) = false →
      (setAxisTranslation proceed chart false).xAxis.minPixelPadding
        = JSNum.div
            (JSNum.sub (JSNum.fin chart.xAxis.len)
              (JSNum.mul (JSNum.fin (chart.xAxis.max - chart.xAxis.min))
                (JSNum.min (toNumber (proceed chart.yAxis).transA) sx)))
            (JSNum.fin 2) ∧
      (setAxisTranslation proceed chart false).yAxis.minPixelPadding
        = (proceed chart.yAxis).minPixelPadding) := by
  constructor
  · intro h
    simp [setAxisTranslation, hmap, hx, toNumber, h]
  · intro h
    simp [setAxisTranslation, hmap, hx, toNumber, h]

/-- The wrapper on the Y axis when both generic scales are `len / (max - min)` with positive
ranges and a positive plot height: the shared scale and the padding as rational numbers. -/
theorem setAxisTranslation_generic (chart : Chart)
    (hmap : chart.chartType = "map")
    (hx : chart.xAxis.transA
      = some (JSNum.div (JSNum.fin chart.xAxis.len) (JSNum.fin chart.xAxis.range)))
    (hrx : 0 < chart.xAxis.range) (hry : 0 < chart.yAxis.range) (hH : 0 < chart.plotHeight) :
    (setAxisTranslation genericSetAxisTranslation chart false).xAxis.transA
      = some (JSNum.fin (min (chart.yAxis.len / chart.yAxis.range)
          (chart.xAxis.len / chart.xAxis.range))) ∧
    (setAxisTranslation genericSetAxisTranslation chart false).yAxis.transA
      = some (JSNum.fin (min (chart.yAxis.len / chart.yAxis.range)
          (chart.xAxis.len / chart.xAxis.range))) ∧
    (chart.plotWidth / chart.plotHeight < chart.xAxis.range / chart.yAxis.range →
      (setAxisTranslation genericSetAxisTranslation chart false).yAxis.minPixelPadding
        = JSNum.fin ((chart.yAxis.len - chart.yAxis.range *
            min (chart.yAxis.len / chart.yAxis.range) (chart.xAxis.len / chart.xAxis.range)) / 2) ∧
      (setAxisTranslation genericSetAxisTranslation chart false).xAxis.minPixelPadding
        = chart.xAxis.minPixelPadding) ∧
    (¬ chart.plotWidth / chart.plotHeight < chart.xAxis.range / chart.yAxis.range →
      (setAxisTranslation genericSetAxisTranslation chart false).xAxis.minPixelPadding
        = JSNum.fin ((chart.xAxis.len - chart.xAxis.range *
            min (chart.yAxis.len / chart.yAxis.range) (chart.xAxis.len / chart.xAxis.range)) / 2) ∧
      (setAxisTranslation genericSetAxisTranslation chart false).yAxis.minPixelPadding
        = chart.yAxis.minPixelPadding) := by
  have hrx0 : chart.xAxis.max - chart.xAxis.min ≠ 0 := ne_of_gt hrx
  have hry0 : chart.yAxis.max - chart.yAxis.min ≠ 0 := ne_of_gt hry
  have hH0 : chart.plotHeight ≠ 0 := ne_of_gt hH
  have hx2 : chart.xAxis.transA
      = some (JSNum.fin (chart.xAxis.len / (chart.xAxis.max - chart.xAxis.min))) := by
    rw [hx]
    simp only [Axis.range, jsDiv_fin _ _ hrx0]
  have hy2 : (genericSetAxisTranslation chart.yAxis).transA
      = some (JSNum.fin (chart.yAxis.len / (chart.yAxis.max - chart.yAxis.min))) := by
    simp only [genericSetAxisTranslation, jsDiv_fin _ _ hry0]
  have hs := setAxisTranslation_both_scales genericSetAxisTranslation chart _ _ hmap hx2 hy2
  have hp := setAxisTranslation_padding genericSetAxisTranslation chart _ hmap hx2
  have hgt : JSNum.gt
      (JSNum.div (JSNum.fin (chart.xAxis.max - chart.xAxis.min))
        (JSNum.fin ((genericSetAxisTranslation chart.yAxis).max
          - (genericSetAxisTranslation chart.yAxis).min)))
      (JSNum.div (JSNum.fin chart.plotWidth) (JSNum.fin chart.plotHeight))
      = decide (chart.plotWidth / chart.plotHeight < chart.xAxis.range / chart.yAxis.range) := by
    simp only [genericSetAxisTranslation, jsDiv_fin _ _ hry0, jsDiv_fin _ _ hH0, JSNum.gt,
      JSNum.lt, Axis.range]
  rw [hgt] at hp
  simp only [hy2, toNumber, jsMin_fin] at hp
  refine ⟨by rw [hs.1, jsMin_fin]; rfl, by rw [hs.2, jsMin_fin]; rfl, ?_, ?_⟩
  · intro h
    obtain ⟨p1, p2⟩ := hp.1 (decide_eq_true h)
    rw [p1, p2]
    simp only [genericSetAxisTranslation, JSNum.mul, JSNum.sub, JSNum.neg, JSNum.add,
      jsDiv_fin _ _ (two_ne_zero), Axis.range]
    refine ⟨?_, trivial⟩
    congr 1
    ring
  · intro h
    obtain ⟨p1, p2⟩ := hp.2 (decide_eq_false h)
    rw [p1, p2]
    simp only [genericSetAxisTranslation, JSNum.mul, JSNum.sub, JSNum.neg, JSNum.add,
      jsDiv_fin _ _ (two_ne_zero), Axis.range]
    refine ⟨?_, trivial⟩
    congr 1
    ring

/-- The wrapper on the Y axis when the plot has no height: with generic scales
`len / (max - min)`, positive ranges and a plot width that is not negative, the shared scale is
0 and the X axis is padded by half the plot width. -/
theorem setAxisTranslation_flat (chart : Chart)
    (hmap : chart.chartType = "map")
    (hx : chart.xAxis.transA
      = some (JSNum.div (JSNum.fin chart.xAxis.len) (JSNum.fin chart.xAxis.range)))
    (hrx : 0 < chart.xAxis.range) (hry : 0 < chart.yAxis.range)
    (hW : chart.xAxis.len = chart.plotWidth) (hH : chart.yAxis.len = chart.plotHeight)
    (hflat : chart.plotHeight = 0) (hwide : 0 ≤ chart.plotWidth) :
    (setAxisTranslation genericSetAxisTranslation chart false).xAxis.transA
      = some (JSNum.fin 0) ∧
    (setAxisTranslation genericSetAxisTranslation chart false).yAxis.transA
      = some (JSNum.fin 0) ∧
    (setAxisTranslation genericSetAxisTranslation chart false).xAxis.minPixelPadding
      = JSNum.fin (chart.plotWidth / 2) ∧
    (setAxisTranslation genericSetAxisTranslation chart false).yAxis.minPixelPadding
      = chart.yAxis.minPixelPadding := by
  have hrx0 : chart.xAxis.max - chart.xAxis.min ≠ 0 := ne_of_gt hrx
  have hry0 : chart.yAxis.max - chart.yAxis.min ≠ 0 := ne_of_gt hry
  have hx2 : chart.xAxis.transA
      = some (JSNum.fin (chart.plotWidth / (chart.xAxis.max - chart.xAxis.min))) := by
    rw [hx, hW]
    simp only [Axis.range, jsDiv_fin _ _ hrx0]
  have hy2 : (genericSetAxisTranslation chart.yAxis).transA = some (JSNum.fin 0) := by
    simp only [genericSetAxisTranslation, jsDiv_fin _ _ hry0, hH, hflat, zero_div]
  have hs := setAxisTranslation_both_scales genericSetAxisTranslation chart _ _ hmap hx2 hy2
  have hnonneg : 0 ≤ chart.plotWidth / (chart.xAxis.max - chart.xAxis.min) :=
    div_nonneg hwide hrx.le
  have hmin : JSNum.min (JSNum.fin 0)
      (JSNum.fin (chart.plotWidth / (chart.xAxis.max - chart.xAxis.min))) = JSNum.fin 0 := by
    rw [jsMin_fin, min_eq_left hnonneg]
  have hp := setAxisTranslation_padding genericSetAxisTranslation chart _ hmap hx2
  have hgt : JSNum.gt
      (JSNum.div (JSNum.fin (chart.xAxis.max - chart.xAxis.min))
        (JSNum.fin ((genericSetAxisTranslation chart.yAxis).max
          - (genericSetAxisTranslation chart.yAxis).min)))
      (JSNum.div (JSNum.fin chart.plotWidth) (JSNum.fin chart.plotHeight)) = false := by
    simp only [genericSetAxisTranslation, jsDiv_fin _ _ hry0, hflat, JSNum.gt]
    by_cases hw0 : chart.plotWidth = 0
    · simp [JSNum.div, hw0, JSNum.lt]
    · have : ¬ chart.plotWidth < 0 := not_lt.mpr hwide
      simp [JSNum.div, hw0, JSNum.inf, this, JSNum.lt]
  obtain ⟨p1, p2⟩ := hp.2 hgt
  rw [hs.1, hs.2, p1, p2, hy2]
  simp only [toNumber, hmin, JSNum.mul, JSNum.sub, JSNum.neg, JSNum.add,
    jsDiv_fin _ _ (two_ne_zero), hW, genericSetAxisTranslation]
  refine ⟨trivial, trivial, ?_, trivial⟩
  congr 1
  ring

/-- On the Y axis the wrapper uses the wrapped method only through its result on that axis. -/
theorem setAxisTranslation_congr (proceed other : Axis → Axis) (chart : Chart)
    (h : proceed chart.yAxis = other chart.yAxis) :
    setAxisTranslation proceed chart false = setAxisTranslation other chart false := by
  simp only [setAxisTranslation, h, Bool.false_eq_true, if_false]

/-- C20: on a map chart, when the wrapper runs for the Y axis and the X axis has a scale, the
padded axis is the Y axis when `(xMax - xMin) / (yMax - yMin) > plotWidth / plotHeight` and the
X axis otherwise, and it gets `minPixelPadding = (len - (max - min) * sharedScale) / 2`. When
moreover both generic scales are `len / (max - min)` with positive ranges, the X length is
`plotWidth`, the Y length is `plotHeight` and the plot height is positive, the padded axis is
the one with excess length: its padding is not negative (positive when the two ratios
differ), its content and twice the padding add up to its length, and the content of the other
axis fills its length. The same holds when the plot height is 0 and the plot width is not
negative: the shared scale is 0 and the X axis is padded by half the plot width. -/
theorem setAxisTranslation_centring (proceed : Axis → Axis) (chart : Chart) (sx : JSNum)
    (hmap : chart.chartType = "map") (hx : chart.xAxis.transA = some sx) :
    (JSNum.gt
        (JSNum.div (JSNum.fin (chart.xAxis.max - chart.xAxis.min))
          (JSNum.fin ((proceed chart.yAxis).max - (proceed chart.yAxis).min)))
        (JSNum.div (JSNum.fin chart.plotWidth) (JSNum.fin chart.plotHeight)) = true →
      (setAxisTranslation proceed chart false).yAxis.minPixelPadding
        = JSNum.div
            (JSNum.sub (JSNum.fin (proceed chart.yAxis).len)
              (JSNum.mul (JSNum.fin ((proceed chart.yAxis).max - (proceed chart.yAxis).min))
                (JSNum.min (toNumber (proceed chart.yAxis).transA) sx)))
            (JSNum.fin 2) ∧
      (setAxisTranslation proceed chart false).xAxis.minPixelPadding
        = chart.xAxis.minPixelPadding) ∧
    (JSNum.gt
        (JSNum.div (JSNum.fin (chart.xAxis.max - chart.xAxis.min))
          (JSNum.fin ((proceed chart.yAxis).max - (proceed chart.yAxis).min)))
        (JSNum.div (JSNum.fin chart.plotWidth) (JSNum.fin chart.plotHeight)) = false →
      (setAxisTranslation proceed chart false).xAxis.minPixelPadding
        = JSNum.div
            (JSNum.sub (JSNum.fin chart.xAxis.len)
              (JSNum.mul (JSNum.fin (chart.xAxis.max - chart.xAxis.min))
                (JSNum.min (toNumber (proceed chart.yAxis).transA) sx)))
            (JSNum.fin 2) ∧
      (setAxisTranslation proceed chart false).yAxis.minPixelPadding
        = (proceed chart.yAxis).minPixelPadding) ∧
    (proceed chart.yAxis = genericSetAxisTranslation chart.yAxis →
      sx = JSNum.div (JSNum.fin chart.xAxis.len) (JSNum.fin chart.xAxis.range) →
      0 < chart.xAxis.range → 0 < chart.yAxis.range →
      chart.xAxis.len = chart.plotWidth → chart.yAxis.len = chart.plotHeight →
      0 < chart.plotHeight →
      (setAxisTranslation proceed chart false).xAxis.transA
        = some (JSNum.fin (sharedScale chart)) ∧
      (setAxisTranslation proceed chart false).yAxis.transA
        = some (JSNum.fin (sharedScale chart)) ∧
      (chart.xAxis.range / chart.yAxis.range > chart.plotWidth / chart.plotHeight →
        (setAxisTranslation proceed chart false).yAxis.minPixelPadding
          = JSNum.fin (centringPad chart.yAxis (sharedScale chart)) ∧
        0 < centringPad chart.yAxis (sharedScale chart) ∧
        chart.yAxis.range * sharedScale chart + 2 * centringPad chart.yAxis (sharedScale chart)
          = chart.yAxis.len ∧
        chart.xAxis.range * sharedScale chart = chart.xAxis.len) ∧
      (¬ chart.xAxis.range / chart.yAxis.range > chart.plotWidth / chart.plotHeight →
        (setAxisTranslation proceed chart false).xAxis.minPixelPadding
          = JSNum.fin (centringPad chart.xAxis (sharedScale chart)) ∧
        0 ≤ centringPad chart.xAxis (sharedScale chart) ∧
        (chart.xAxis.range / chart.yAxis.range ≠ chart.plotWidth / chart.plotHeight →
          0 < centringPad chart.xAxis (sharedScale chart)) ∧
        chart.xAxis.range * sharedScale chart + 2 * centringPad chart.xAxis (sharedScale chart)
          = chart.xAxis.len ∧
        chart.yAxis.range * sharedScale chart = chart.yAxis.len)) ∧
    (proceed chart.yAxis = genericSetAxisTranslation chart.yAxis →
      sx = JSNum.div (JSNum.fin chart.xAxis.len) (JSNum.fin chart.xAxis.range) →
      0 < chart.xAxis.range → 0 < chart.yAxis.range →
      chart.xAxis.len = chart.plotWidth → chart.yAxis.len = chart.plotHeight →
      chart.plotHeight = 0 → 0 ≤ chart.plotWidth →
      (setAxisTranslation proceed chart false).xAxis.transA = some (JSNum.fin 0) ∧
      (setAxisTranslation proceed chart false).yAxis.transA = some (JSNum.fin 0) ∧
      (setAxisTranslation proceed chart false).xAxis.minPixelPadding
        = JSNum.fin (chart.plotWidth / 2) ∧
      0 ≤ chart.plotWidth / 2 ∧
      chart.xAxis.range * 0 + 2 * (chart.plotWidth / 2) = chart.xAxis.len ∧
      chart.yAxis.range * 0 = chart.yAxis.len) := by
  have hp := setAxisTranslation_padding proceed chart sx hmap hx
  refine ⟨hp.1, hp.2, ?_, ?_⟩
  swap
  · intro hproc hsx hrx hry hW hH hflat hwide
    rw [setAxisTranslation_congr proceed genericSetAxisTranslation chart hproc]
    rw [hsx] at hx
    obtain ⟨g1, g2, g3, _⟩ := setAxisTranslation_flat chart hmap hx hrx hry hW hH hflat hwide
    refine ⟨g1, g2, g3, by linarith, ?_, ?_⟩
    · rw [hW]
      ring
    · rw [hH, hflat]
      ring
  intro hproc hsx hrx hry hW hH hHpos
  rw [setAxisTranslation_congr proceed genericSetAxisTranslation chart hproc]
  rw [hsx] at hx
  obtain ⟨g1, g2, g3, g4⟩ := setAxisTranslation_generic chart hmap hx hrx hry hHpos
  have hrx0 : chart.xAxis.range ≠ 0 := ne_of_gt hrx
  have hry0 : chart.yAxis.range ≠ 0 := ne_of_gt hry
  have hcross : chart.plotWidth / chart.plotHeight < chart.xAxis.range / chart.yAxis.range ↔
      chart.plotWidth * chart.yAxis.range < chart.xAxis.range * chart.plotHeight :=
    div_lt_div_iff₀ hHpos hry
  have hscale : chart.xAxis.len / chart.xAxis.range < chart.yAxis.len / chart.yAxis.range ↔
      chart.plotWidth * chart.yAxis.range < chart.xAxis.range * chart.plotHeight := by
    rw [div_lt_div_iff₀ hrx hry, hW, hH]
    constructor <;> intro h <;> linarith
  refine ⟨g1, g2, ?_, ?_⟩
  · intro hc
    have hc2 := hcross.mp hc
    have hmin : sharedScale chart = chart.xAxis.len / chart.xAxis.range :=
      min_eq_right (hscale.mpr hc2).le
    have hfill : chart.xAxis.range * sharedScale chart = chart.xAxis.len := by
      rw [hmin]
      field_simp
    have hcontent : chart.yAxis.range * sharedScale chart < chart.yAxis.len := by
      rw [hmin, ← mul_div_assoc, div_lt_iff₀ hrx, hW, hH]
      linarith
    refine ⟨(g3 hc).1, ?_, ?_, hfill⟩
    · unfold centringPad
      linarith
    · unfold centringPad
      ring
  · intro hc
    have hc2 : chart.xAxis.range * chart.plotHeight ≤ chart.plotWidth * chart.yAxis.range :=
      not_lt.mp (fun h => hc (hcross.mpr h))
    have hle : chart.yAxis.len / chart.yAxis.range ≤ chart.xAxis.len / chart.xAxis.range :=
      not_lt.mp (fun h => absurd (hscale.mp h) (not_lt.mpr hc2))
    have hmin : sharedScale chart = chart.yAxis.len / chart.yAxis.range := min_eq_left hle
    have hfill : chart.yAxis.range * sharedScale chart = chart.yAxis.len := by
      rw [hmin]
      field_simp
    have hcontent : chart.xAxis.range * sharedScale chart ≤ chart.xAxis.len := by
      rw [hmin, ← mul_div_assoc, div_le_iff₀ hry, hW, hH]
      linarith
    refine ⟨(g4 hc).1, ?_, ?_, ?_, hfill⟩
    · unfold centringPad
      linarith
    · intro hne
      have hne2 : chart.xAxis.range * chart.plotHeight ≠ chart.plotWidth * chart.yAxis.range := by
        intro heq
        apply hne
        rw [div_eq_div_iff hry0 (ne_of_gt hHpos)]
        exact heq
      have hlt : chart.xAxis.range * chart.plotHeight < chart.plotWidth * chart.yAxis.range :=
        lt_of_le_of_ne hc2 hne2
      have hstrict : chart.xAxis.range * sharedScale chart < chart.xAxis.len := by
        rw [hmin, ← mul_div_assoc, div_lt_iff₀ hry, hW, hH]
        linarith
      unfold centringPad
      linarith
    · unfold centringPad
      ring

/-- Witness for C20: the axis-lock example (ranges 100 and 50, lengths 200 and 200); the Y axis
is padded by 50 pixels on each side. -/
theorem setAxisTranslation_centring_witness :
    (setAxisTranslation genericSetAxisTranslation lockChartX false).yAxis.minPixelPadding
        = JSNum.fin (centringPad lockChartX.yAxis (sharedScale lockChartX)) ∧
    0 < centringPad lockChartX.yAxis (sharedScale lockChartX) ∧
    lockChartX.yAxis.range * sharedScale lockChartX
        + 2 * centringPad lockChartX.yAxis (sharedScale lockChartX) = lockChartX.yAxis.len ∧
    lockChartX.xAxis.range * sharedScale lockChartX = lockChartX.xAxis.len :=
  ((setAxisTranslation_centring genericSetAxisTranslation lockChartX
      (JSNum.div (JSNum.fin lockChartX.xAxis.len) (JSNum.fin lockChartX.xAxis.range)) rfl
      rfl).2.2.1 rfl rfl
      (by norm_num [lockChartX, lockChart, setAxisTranslation, genericSetAxisTranslation,
        Axis.range])
      (by norm_num [lockChartX, lockChart, setAxisTranslation, genericSetAxisTranslation,
        Axis.range])
      rfl rfl
      (by norm_num [lockChartX, lockChart, setAxisTranslation])).2.2.1
    (by norm_num [lockChartX, lockChart, setAxisTranslation, genericSetAxisTranslation,
      Axis.range])

/-! ## Points without a value -/

/-- C16 as stated fails: in gradient mode a point whose value is `undefined` passes through
`translateColors` without any colour being written, so it does not get `nullColor`. -/
theorem translateColors_gradient_undefined :
    translateColors gradientOptions 0 10 [Point.ofValue Value.undefined]
      = [Point.ofValue Value.undefined] ∧
    (Point.ofValue Value.undefined).optionsColor ≠ some gradientOptions.nullColor := by
  constructor
  · simp [translateColors, pointColor, gradientOptions, Point.ofValue, Point.write]
  · simp [Point.ofValue]

/-- C16, amended: with a non-empty `nullColor`, `translateColors` gives `nullColor` to every
point whose value is `null` or `undefined` in discrete-range mode and to every point whose
value is `null` in gradient mode; in gradient mode a point whose value is `undefined` is
left as it was, no colour being written. The computation returns one point for each point of
the series. -/
theorem translateColors_no_value (seriesOptions : SeriesOptions) (dataMin dataMax : ℚ)
    (data : List Point) (hnull : seriesOptions.nullColor.truthy = true) :
    (translateColors seriesOptions dataMin dataMax data).length = data.length ∧
    (∀ (valueRanges : List ValueRange) (i : ℕ) (point : Point),
      seriesOptions.valueRanges = some valueRanges → data[i]? = some point →
      point.value = Value.null ∨ point.value = Value.undefined →
      (translateColors seriesOptions dataMin dataMax data)[i]?
        = some { point with color := none, optionsColor := some seriesOptions.nullColor }) ∧
    (∀ (colorRange : ColorRange) (i : ℕ) (point : Point),
      seriesOptions.valueRanges = none → seriesOptions.colorRange = some colorRange →
      data[i]? = some point → point.value = Value.null →
      (translateColors seriesOptions dataMin dataMax data)[i]?
        = some { point with color := none, optionsColor := some seriesOptions.nullColor }) ∧
    (∀ (colorRange : ColorRange) (i : ℕ) (point : Point),
      seriesOptions.valueRanges = none → seriesOptions.colorRange = some colorRange →
      data[i]? = some point → point.value = Value.undefined →
      (translateColors seriesOptions dataMin dataMax data)[i]? = some point) := by
  refine ⟨by simp [translateColors], ?_, ?_, ?_⟩
  · intro valueRanges i point hmode hi hv
    rcases hv with hv | hv <;>
      simp [translateColors, List.getElem?_map, hi, pointColor, hmode, hv, Point.write, hnull]
  · intro colorRange i point h1 h2 hi hv
    simp [translateColors, List.getElem?_map, hi, pointColor, h1, h2, hv, Point.write, hnull]
  · intro colorRange i point h1 h2 hi hv
    simp [translateColors, List.getElem?_map, hi, pointColor, h1, h2, hv, Point.write]

/-- Witness for C16, amended: a point without a value in the discrete example. -/
theorem translateColors_no_value_witness :
    (translateColors discreteOptions 0 10 [Point.ofValue Value.undefined])[0]?
      = some { Point.ofValue Value.undefined with
          color := none, optionsColor := some discreteOptions.nullColor } :=
  (translateColors_no_value discreteOptions 0 10 [Point.ofValue Value.undefined]
    (by decide)).2.1 exampleRanges 0 (Point.ofValue Value.undefined) rfl rfl (Or.inr rfl)

/-! ## Value extremes, centroids and axis extremes -/

/-- C19 (the code departs from the claim): for the values 1, 2, 3 in this order `translate`
passes `dataMin = Number.MAX_VALUE` (not 1) and `dataMax = 3`; for the values -2, -1 it passes
`dataMin = -2` and `dataMax = Number.MIN_VALUE` (not -1). -/
theorem translateExtremes_ascending_and_negative :
    translateExtremes [MapPoint.ofNumber 1, MapPoint.ofNumber 2, MapPoint.ofNumber 3]
      = (MAX_VALUE, 3) ∧
    MAX_VALUE ≠ 1 ∧
    translateExtremes [MapPoint.ofNumber (-2), MapPoint.ofNumber (-1)] = (-2, MIN_VALUE) ∧
    MIN_VALUE ≠ -1 := by
  have a := MIN_VALUE_pos
  have b := MAX_VALUE_large
  have c : (2 : ℚ) < MAX_VALUE := by
    unfold MAX_VALUE
    have h1 : (2 : ℚ) ≤ 2 ^ 53 - 1 := by norm_num
    have h2 : (1 : ℚ) ≤ 2 ^ 971 := one_le_pow₀ (by norm_num)
    nlinarith
  have d : MIN_VALUE < 1 := by
    unfold MIN_VALUE
    rw [div_lt_iff₀ (by positivity)]
    have : (2 : ℚ) ≤ 2 ^ 1074 := by
      calc (2 : ℚ) = 2 ^ 1 := by norm_num
        _ ≤ 2 ^ 1074 := pow_le_pow_right₀ (by norm_num) (by norm_num)
    linarith
  refine ⟨?_, by linarith, ?_, by linarith⟩
  · have h1 : (1 : ℚ) > MIN_VALUE := d
    have h2 : ¬ ((1 : ℚ) > MAX_VALUE) := by
      intro h
      linarith
    norm_num [translateExtremes, extremesStep, MapPoint.ofNumber, Point.ofValue, h1]
  · have h1 : ¬ ((-2 : ℚ) > MIN_VALUE) := by
      intro h
      linarith
    have h2 : (-2 : ℚ) < MAX_VALUE := by linarith
    have h3 : ¬ ((-1 : ℚ) > MIN_VALUE) := by
      intro h
      linarith
    norm_num [translateExtremes, extremesStep, MapPoint.ofNumber, Point.ofValue, h1, h2, h3]

/-- The centroid that `getBox` caches for the example path with the default bias:
`(5, 2.5)`. -/
theorem getBox_examplePath_mid :
    (getBox [Shape.ofPath examplePath]).2
      = [{ Shape.ofPath examplePath with midX := some 5, midY := some (5 / 2) }] := by
  simp [getBox, Shape.cacheMid, Shape.box, Shape.ofPath, pick, pointBox_examplePath]
  norm_num

/-- C14 (the code departs from the claim): for the path `['M', -10, -10, 'L', -5, -5, 'Z']`,
whose bounding box runs from -10 to -5 on both axes, the centroid cached with the default
bias is `-10 + (Number.MIN_VALUE + 10) / 2` on both axes, a number above -5, and not the
midpoint -7.5 of the bounding box. -/
theorem getBox_negativePath_mid :
    (getBox [Shape.ofPath negativePath]).2
      = [{ Shape.ofPath negativePath with
            midX := some (-10 + (MIN_VALUE - -10) * (1 / 2))
            midY := some (-10 + (MIN_VALUE - -10) * (1 / 2)) }] ∧
    (-5 : ℚ) < -10 + (MIN_VALUE - -10) * (1 / 2) ∧
    -10 + (MIN_VALUE - -10) * (1 / 2) ≠ -15 / 2 := by
  have a := MIN_VALUE_pos
  refine ⟨?_, by linarith, by
    intro h
    linarith⟩
  simp [getBox, Shape.cacheMid, Shape.box, Shape.ofPath, pick, pointBox_negativePath]

/-- C15 (the code departs from the claim): on an X axis (and on a Y axis) whose only series is
a map-geometry series with extent from -10 to -5, and for which the generic discovery found
no value, the wrapper stores `dataMin = -10` but `dataMax = Number.MIN_VALUE`, a positive
number, and not -5. -/
theorem getSeriesExtremes_negative_extent :
    (getSeriesExtremes (fun _ => (none, none)) true sampleAxis [negativeSeries]).1.dataMin
      = -10 ∧
    (getSeriesExtremes (fun _ => (none, none)) true sampleAxis [negativeSeries]).1.dataMax
      = MIN_VALUE ∧
    (getSeriesExtremes (fun _ => (none, none)) false sampleAxis [negativeSeries]).1.dataMax
      = MIN_VALUE ∧
    MIN_VALUE ≠ -5 := by
  have a := MIN_VALUE_pos
  have b := MAX_VALUE_large
  have e1 : min MAX_VALUE (-10) = -10 := min_eq_right (by linarith)
  have e2 : max MIN_VALUE (-5) = MIN_VALUE := max_eq_left (by linarith)
  refine ⟨?_, ?_, ?_, by linarith⟩ <;>
    simp [getSeriesExtremes, geometryExtremes, negativeSeries, pick, hideXData, e1, e2]

/-! ## The vector-path mini-language -/

/-- Every operand among the further tokens of a well-formed path string is well formed. -/
theorem restWf_item_wf (sepChar : Char → Bool) (previous : PathItem)
    (rest : List (List Char × PathItem)) (h : restWf sepChar previous rest = true) :
    ∀ p ∈ rest, ∀ n, p.2 = PathItem.number n → n.wf = true := by
  induction rest generalizing previous with
  | nil => simp
  | cons head more ih =>
    obtain ⟨sep, item⟩ := head
    simp only [restWf, Bool.and_eq_true] at h
    intro p hp n hn
    rcases List.mem_cons.mp hp with rfl | hp
    · have := h.1.2
      simp only [] at hn
      rw [hn] at this
      exact this
    · exact ih item h.2 p hp n hn

/-- C17 as stated fails: `M10-5` and `M1e3` are valid path data, standing for `M` with the
operands 10, -5 and for `M` with the operand 1000; `splitPath` returns `['M', 10]` for the
first and `['M', 1, 'e', 3]` for the second. -/
theorem splitPath_sign_and_exponent :
    splitPath "M10-5" = [PathToken.cmd "M", PathToken.num 10] ∧
    splitPath "M10-5" ≠ [PathToken.cmd "M", PathToken.num 10, PathToken.num (-5)] ∧
    splitPath "M1e3"
      = [PathToken.cmd "M", PathToken.num 1, PathToken.cmd "e", PathToken.num 3] ∧
    splitPath "M1e3" ≠ [PathToken.cmd "M", PathToken.num 1000] := by
  have h1 : splitPath "M10-5" = [PathToken.cmd "M", PathToken.num 10] := by decide!
  have h2 : splitPath "M1e3"
      = [PathToken.cmd "M", PathToken.num 1, PathToken.cmd "e", PathToken.num 3] := by decide!
  refine ⟨h1, ?_, h2, ?_⟩
  · rw [h1]
    simp
  · rw [h2]
    simp

/-- Every command token of a path string of the mini-language is one of its command
letters. -/
theorem PathText.tokens_isSvg (t : PathText) (h : t.isSvg = true) :
    ∀ s, PathToken.cmd s ∈ t.tokens → ∃ c, isSvgCommand c = true ∧ s = String.mk [c] := by
  intro s hs
  simp only [PathText.isSvg, Bool.and_eq_true, List.all_eq_true] at h
  simp only [PathText.tokens, List.mem_cons, List.mem_map] at hs
  rcases hs with hs | ⟨p, hp, hs⟩
  · cases hf : t.first with
    | command c =>
      rw [hf] at hs
      simp only [PathItem.token, PathToken.cmd.injEq] at hs
      have := h.1
      rw [hf] at this
      exact ⟨c, this, hs⟩
    | number n =>
      rw [hf] at hs
      simp [PathItem.token] at hs
  · cases hi : p.2 with
    | command c =>
      rw [hi] at hs
      simp only [PathItem.token, PathToken.cmd.injEq] at hs
      have := h.2 p hp
      rw [hi] at this
      exact ⟨c, this, hs.symm⟩
    | number n =>
      rw [hi] at hs
      simp [PathItem.token] at hs

/-- C17, amended: `splitPath` reads the part of the vector-path mini-language in which the
operands are plain decimals without an exponent and two operands that follow one another are
separated by at least one space or comma: for every such path string with move, line,
cubic-curve and close commands the output is the sequence of its commands and operand values,
each command one of these letters. -/
theorem splitPath_miniLanguage (t : PathText) (h : t.wf = true) (hsvg : t.isSvg = true) :
    splitPath (String.mk t.chars) = t.tokens ∧
    (∀ s, PathToken.cmd s ∈ splitPath (String.mk t.chars) →
      ∃ c, isSvgCommand c = true ∧ s = String.mk [c]) ∧
    (∀ v, PathToken.num v ∈ splitPath (String.mk t.chars) →
      ∃ n : NumLit, n.wf = true ∧ v = n.value) ∧
    PathToken.nan ∉ splitPath (String.mk t.chars) := by
  rw [splitPath_chars t h]
  refine ⟨rfl, t.tokens_isSvg hsvg, ?_, ?_⟩
  · intro v hv
    simp only [PathText.wf, Bool.and_eq_true] at h
    simp only [PathText.tokens, List.mem_cons, List.mem_map] at hv
    rcases hv with hv | ⟨p, hp, hv⟩
    · cases hf : t.first with
      | command c =>
        rw [hf] at hv
        simp [PathItem.token] at hv
      | number n =>
        rw [hf] at hv
        simp only [PathItem.token, PathToken.num.injEq] at hv
        have := h.1.2
        rw [hf] at this
        exact ⟨n, this, hv⟩
    · cases hi : p.2 with
      | command c =>
        rw [hi] at hv
        simp [PathItem.token] at hv
      | number n =>
        rw [hi] at hv
        simp only [PathItem.token, PathToken.num.injEq] at hv
        exact ⟨n, restWf_item_wf isSeparator t.first t.rest h.2 p hp n hi, hv.symm⟩
  · intro hn
    simp only [PathText.tokens, List.mem_cons, List.mem_map] at hn
    rcases hn with hn | ⟨p, _, hn⟩
    · cases hf : t.first <;> rw [hf] at hn <;> simp [PathItem.token] at hn
    · cases hi : p.2 <;> rw [hi] at hn <;> simp [PathItem.token] at hn

/-- Witness for C17, amended: the path string `M10 -5L3.5,4Z`. -/
theorem splitPath_miniLanguage_witness :
    splitPath (String.mk svgText.chars) = svgText.tokens :=
  (splitPath_miniLanguage svgText (by decide) (by decide)).1

/-! ## Round trip through text -/

/-- Reading digits from a starting value. -/
theorem foldl_digits (ds : List (Fin 10)) (start : ℕ) :
    ds.foldl (fun n d => 10 * n + d.val) start = start * 10 ^ ds.length + digitsNat ds := by
  induction ds generalizing start with
  | nil => simp [digitsNat]
  | cons d more ih =>
    simp only [List.foldl_cons, digitsNat, List.length_cons]
    rw [ih, ih (10 * 0 + d.val)]
    ring

/-- The number written by a first digit and further digits. -/
theorem digitsNat_cons (d : Fin 10) (ds : List (Fin 10)) :
    digitsNat (d :: ds) = d.val * 10 ^ ds.length + digitsNat ds := by
  have := foldl_digits ds (10 * 0 + d.val)
  simp only [digitsNat, List.foldl_cons] at this ⊢
  rw [this]
  ring

/-- The number written by two runs of digits one after the other. -/
theorem digitsNat_append (a b : List (Fin 10)) :
    digitsNat (a ++ b) = digitsNat a * 10 ^ b.length + digitsNat b := by
  induction a with
  | nil => simp [digitsNat]
  | cons d more ih =>
    rw [List.cons_append, digitsNat_cons, digitsNat_cons, ih, List.length_append]
    ring

/-- Zeros in front do not change the number written. -/
theorem digitsNat_replicate_zero (z : ℕ) : digitsNat (List.replicate z (0 : Fin 10)) = 0 := by
  induction z with
  | zero => rfl
  | succ k ih => rw [List.replicate_succ, digitsNat_cons, ih]; simp

/-- The digits produced for `n` in front of `acc` write `n` followed by `acc`. -/
theorem digitsNat_natDigitsAux (fuel n : ℕ) (acc : List (Fin 10)) (h : n ≤ fuel) :
    digitsNat (natDigitsAux fuel n acc) = n * 10 ^ acc.length + digitsNat acc := by
  induction fuel generalizing n acc with
  | zero =>
    have : n = 0 := Nat.le_zero.mp h
    simp [natDigitsAux, this]
  | succ fuel ih =>
    by_cases hn : n = 0
    · simp [natDigitsAux, hn]
    · have hle : n / 10 ≤ fuel := by omega
      simp only [natDigitsAux, hn, if_false]
      rw [ih (n / 10) _ hle, digitsNat_cons, List.length_cons]
      have hval : (Fin.ofNat (n % 10) : Fin 10).val = n % 10 := by
        simp [Fin.ofNat]
      rw [hval, pow_succ]
      have hdm : n = 10 * (n / 10) + n % 10 := (Nat.div_add_mod n 10).symm
      calc n / 10 * (10 ^ acc.length * 10) + (n % 10 * 10 ^ acc.length + digitsNat acc)
          = (10 * (n / 10) + n % 10) * 10 ^ acc.length + digitsNat acc := by ring
        _ = n * 10 ^ acc.length + digitsNat acc := by rw [← hdm]

/-- The digits of a natural number write that number. -/
theorem digitsNat_natDigits (n : ℕ) : digitsNat (natDigits n) = n := by
  have := digitsNat_natDigitsAux n n [] (le_refl n)
  simpa [natDigits, digitsNat] using this

/-- The search for the decimal places finds a power of ten that `den` divides, when there is
one within reach. -/
theorem decimalPlacesAux_dvd (den fuel start : ℕ)
    (h : ∃ k, start ≤ k ∧ k ≤ start + fuel ∧ den ∣ 10 ^ k) :
    den ∣ 10 ^ decimalPlacesAux den fuel start := by
  induction fuel generalizing start with
  | zero =>
    obtain ⟨k, h1, h2, h3⟩ := h
    have : k = start := by omega
    subst this
    simpa [decimalPlacesAux] using h3
  | succ fuel ih =>
    by_cases hm : 10 ^ start % den = 0
    · simp only [decimalPlacesAux, hm, if_true]
      exact Nat.dvd_of_mod_eq_zero hm
    · simp only [decimalPlacesAux, hm, if_false]
      obtain ⟨k, h1, h2, h3⟩ := h
      have hk : k ≠ start := by
        rintro rfl
        exact hm (Nat.mod_eq_zero_of_dvd h3)
      exact ih (start + 1) ⟨k, by omega, by omega, h3⟩

/-- A number that divides a power of ten divides the power of ten with itself as exponent. -/
theorem dvd_ten_pow_self (den k : ℕ) (h : den ∣ 10 ^ k) : den ∣ 10 ^ den := by
  have h10 : (10 : ℕ) ^ k = 2 ^ k * 5 ^ k := by rw [← mul_pow]; norm_num
  rw [h10] at h
  obtain ⟨a, b, ha, hb, hab⟩ := Nat.dvd_mul.mp h
  obtain ⟨i, _, rfl⟩ := (Nat.dvd_prime_pow Nat.prime_two).mp ha
  obtain ⟨l, _, rfl⟩ := (Nat.dvd_prime_pow Nat.prime_five).mp hb
  have h2 : 1 ≤ 2 ^ i := Nat.one_le_two_pow
  have h5 : 1 ≤ 5 ^ l := Nat.one_le_pow _ _ (by norm_num)
  have hi : i < 2 ^ i := Nat.lt_two_pow i
  have hl : l < 5 ^ l := Nat.lt_pow_self (by norm_num) l
  have hi2 : i ≤ den := by
    rw [← hab]
    nlinarith
  have hl2 : l ≤ den := by
    rw [← hab]
    nlinarith
  have : (10 : ℕ) ^ den = 2 ^ den * 5 ^ den := by rw [← mul_pow]; norm_num
  rw [this, ← hab]
  exact mul_dvd_mul (pow_dvd_pow 2 (hab ▸ hi2)) (pow_dvd_pow 5 (hab ▸ hl2))

/-- For the denominator of a decimal fraction the decimal places are found. -/
theorem decimalPlaces_dvd (den k : ℕ) (h : den ∣ 10 ^ k) : den ∣ 10 ^ decimalPlaces den :=
  decimalPlacesAux_dvd den den 0 ⟨den, Nat.zero_le _, by omega, dvd_ten_pow_self den k h⟩

/-- The exponent notation holds the letter `e`. -/
theorem mem_exponentForm (ds : List (Fin 10)) (n : ℤ) : 'e' ∈ exponentForm ds n := by
  simp [exponentForm]

/-- The standard string form of a positive decimal fraction written without an exponent is a
well-formed decimal operand that denotes the fraction. -/
theorem positiveToString_plain (num den : ℕ) (hnum : 0 < num) (hden : 0 < den)
    (hdec : den ∣ 10 ^ decimalPlaces den) (he : 'e' ∉ positiveToString num den) :
    ∃ (ints : List (Fin 10)) (frac : Option (List (Fin 10))),
      (NumLit.mk Sign.absent ints frac).wf = true ∧
      ints.map digitChar ++ (NumLit.mk Sign.absent ints frac).fracChars
        = positiveToString num den ∧
      (NumLit.mk Sign.absent ints frac).magnitude = (num : ℚ) / (den : ℚ) := by
  have hdvd : den ∣ num * 10 ^ decimalPlaces den := Dvd.dvd.mul_left hdec num
  have hdenq : (den : ℚ) ≠ 0 := by exact_mod_cast (Nat.pos_iff_ne_zero.mp hden)
  have hN : ((num * 10 ^ decimalPlaces den / den : ℕ) : ℚ)
      = (num : ℚ) * 10 ^ decimalPlaces den / (den : ℚ) := by
    rw [Nat.cast_div hdvd hdenq]
    push_cast
    rfl
  have hNpos : 0 < num * 10 ^ decimalPlaces den / den :=
    Nat.div_pos (Nat.le_of_dvd (by positivity) hdvd) hden
  have hds := digitsNat_natDigits (num * 10 ^ decimalPlaces den / den)
  have hne : natDigits (num * 10 ^ decimalPlaces den / den) ≠ [] := by
    intro h0
    rw [h0] at hds
    simp [digitsNat] at hds
    omega
  have hlen : 0 < (natDigits (num * 10 ^ decimalPlaces den / den)).length :=
    List.length_pos.mpr hne
  have h10 : (10 : ℚ) ^ decimalPlaces den ≠ 0 := by positivity
  unfold positiveToString at he ⊢
  simp only [] at he ⊢
  generalize hj : decimalPlaces den = j at *
  generalize hdsdef : natDigits (num * 10 ^ j / den) = ds at *
  split_ifs at he ⊢ with c1 c2 c3
  · refine ⟨ds, none, ?_, by simp [NumLit.fracChars], ?_⟩
    · cases ds with
      | nil => exact absurd rfl hne
      | cons d more => rfl
    · simp only [NumLit.magnitude, hds]
      rw [hN, c1.1]
      simp
  · obtain ⟨cj, cn, _⟩ := c2
    have hto : (((ds.length : ℤ) - (j : ℤ)).toNat : ℤ) = (ds.length : ℤ) - (j : ℤ) :=
      Int.toNat_of_nonneg cn.le
    have hdrop : (ds.drop ((ds.length : ℤ) - (j : ℤ)).toNat).length = j := by
      rw [List.length_drop]
      omega
    refine ⟨ds.take ((ds.length : ℤ) - (j : ℤ)).toNat,
      some (ds.drop ((ds.length : ℤ) - (j : ℤ)).toNat), ?_, by simp [NumLit.fracChars], ?_⟩
    · have : ds.take ((ds.length : ℤ) - (j : ℤ)).toNat ≠ [] := by
        intro h0
        have hl := congrArg List.length h0
        rw [List.length_take] at hl
        simp only [List.length_nil] at hl
        omega
      cases htk : ds.take ((ds.length : ℤ) - (j : ℤ)).toNat with
      | nil => exact absurd htk this
      | cons d more => simp [NumLit.wf]
    · have hsplit := digitsNat_append (ds.take ((ds.length : ℤ) - (j : ℤ)).toNat)
        (ds.drop ((ds.length : ℤ) - (j : ℤ)).toNat)
      rw [List.take_append_drop, hds, hdrop] at hsplit
      simp only [NumLit.magnitude, hdrop]
      have hq : ((num * 10 ^ j / den : ℕ) : ℚ)
          = (digitsNat (ds.take ((ds.length : ℤ) - (j : ℤ)).toNat) : ℚ) * 10 ^ j
            + (digitsNat (ds.drop ((ds.length : ℤ) - (j : ℤ)).toNat) : ℚ) := by
        exact_mod_cast hsplit
      rw [hN] at hq
      field_simp
      field_simp at hq
      linarith
  · obtain ⟨_, cn⟩ := c3
    have hto : ((-((ds.length : ℤ) - (j : ℤ))).toNat : ℤ) = -((ds.length : ℤ) - (j : ℤ)) :=
      Int.toNat_of_nonneg (by omega)
    have hz : (-((ds.length : ℤ) - (j : ℤ))).toNat + ds.length = j := by omega
    refine ⟨[0], some (List.replicate (-((ds.length : ℤ) - (j : ℤ))).toNat 0 ++ ds), by rfl,
      ?_, ?_⟩
    · have h0 : digitChar 0 = '0' := by decide
      simp [NumLit.fracChars, h0]
    · have hsplit := digitsNat_append
        (List.replicate (-((ds.length : ℤ) - (j : ℤ))).toNat (0 : Fin 10)) ds
      rw [digitsNat_replicate_zero, hds] at hsplit
      simp only [NumLit.magnitude, List.length_append, List.length_replicate, hz, hsplit,
        zero_mul, zero_add, hN]
      have hzero : digitsNat [0] = 0 := by decide
      rw [hzero]
      field_simp
      ring
  · exact absurd (mem_exponentForm ds _) he

/-- The standard string form of a decimal fraction written without an exponent is a
well-formed decimal operand that denotes the fraction. -/
theorem numberToString_plain (v : ℚ) (hdec : v.den ∣ 10 ^ decimalPlaces v.den)
    (he : 'e' ∉ numberToString v) :
    ∃ n : NumLit, n.wf = true ∧ n.chars = numberToString v ∧ n.value = v := by
  have hv := Rat.num_div_den v
  by_cases h0 : v = 0
  · refine ⟨zeroLit, by decide, ?_, ?_⟩
    · rw [h0]
      decide
    · rw [h0]
      have : digitsNat [0] = 0 := by decide
      simp [NumLit.value, NumLit.magnitude, zeroLit, this]
  · have hnum0 : v.num ≠ 0 := fun h => h0 (Rat.num_eq_zero.mp h)
    have hpos : 0 < v.num.natAbs := Int.natAbs_pos.mpr hnum0
    by_cases hneg : v < 0
    · have he2 : 'e' ∉ positiveToString v.num.natAbs v.den := by
        intro h
        apply he
        simp [numberToString, h0, hneg, h]
      obtain ⟨ints, frac, hwf, hchars, hmag⟩ :=
        positiveToString_plain v.num.natAbs v.den hpos v.den_pos hdec he2
      refine ⟨NumLit.mk Sign.minus ints frac, hwf, ?_, ?_⟩
      · have : (NumLit.mk Sign.minus ints frac).fracChars
            = (NumLit.mk Sign.absent ints frac).fracChars := rfl
        simp only [numberToString, h0, hneg, if_false, if_true, NumLit.chars, Sign.chars, this,
          hchars, List.singleton_append]
      · have hm : (NumLit.mk Sign.minus ints frac).magnitude
            = (NumLit.mk Sign.absent ints frac).magnitude := rfl
        have hnumneg : v.num < 0 := Rat.num_neg.mpr hneg
        have hcast : ((v.num.natAbs : ℕ) : ℚ) = -(v.num : ℚ) := by
          rw [Nat.cast_natAbs, abs_of_neg hnumneg, Int.cast_neg]
        simp only [NumLit.value, hm, hmag, hcast]
        rw [neg_div, neg_neg, hv]
    · have hgt : 0 < v := lt_of_le_of_ne (not_lt.mp hneg) (Ne.symm h0)
      have he2 : 'e' ∉ positiveToString v.num.natAbs v.den := by
        intro h
        apply he
        simp [numberToString, h0, hneg, h]
      obtain ⟨ints, frac, hwf, hchars, hmag⟩ :=
        positiveToString_plain v.num.natAbs v.den hpos v.den_pos hdec he2
      refine ⟨NumLit.mk Sign.absent ints frac, hwf, ?_, ?_⟩
      · simp only [numberToString, h0, hneg, if_false, NumLit.chars, Sign.chars, hchars,
          List.nil_append]
      · have hnumpos : 0 < v.num := Rat.num_pos.mpr hgt
        have hcast : ((v.num.natAbs : ℕ) : ℚ) = (v.num : ℚ) := by
          rw [Nat.cast_natAbs, abs_of_pos hnumpos]
        simp only [NumLit.value, hmag, hcast, hv]

/-- The denominator of the value of a written operand divides a power of ten. -/
theorem NumLit.value_den_dvd (n : NumLit) : ∃ k, n.value.den ∣ 10 ^ k := by
  have key : ∀ (m : ℤ) (k : ℕ), ((m : ℚ) / ((10 ^ k : ℕ) : ℚ)).den ∣ 10 ^ k := by
    intro m k
    have h := Rat.den_dvd m ((10 ^ k : ℕ) : ℤ)
    rw [Rat.divInt_eq_div] at h
    have h2 : (((m : ℚ) / (((10 ^ k : ℕ) : ℤ) : ℚ)).den : ℤ) ∣ ((10 ^ k : ℕ) : ℤ) := h
    have h3 := Int.natCast_dvd_natCast.mp h2
    simpa using h3
  obtain ⟨sign, ints, frac⟩ := n
  cases frac with
  | none =>
    refine ⟨0, ?_⟩
    cases sign <;> simp [NumLit.value, NumLit.magnitude]
  | some f =>
    refine ⟨f.length, ?_⟩
    have hp : ((10 ^ f.length : ℕ) : ℚ) ≠ 0 := by positivity
    have e1 : (digitsNat ints : ℚ) + (digitsNat f : ℚ) / 10 ^ f.length
        = (((digitsNat ints * 10 ^ f.length + digitsNat f : ℕ) : ℤ) : ℚ)
          / ((10 ^ f.length : ℕ) : ℚ) := by
      push_cast
      field_simp
    cases sign
    · have := key ((digitsNat ints * 10 ^ f.length + digitsNat f : ℕ) : ℤ) f.length
      rw [← e1] at this
      simpa [NumLit.value, NumLit.magnitude] using this
    · have := key ((digitsNat ints * 10 ^ f.length + digitsNat f : ℕ) : ℤ) f.length
      rw [← e1] at this
      simpa [NumLit.value, NumLit.magnitude] using this
    · have := key (-((digitsNat ints * 10 ^ f.length + digitsNat f : ℕ) : ℤ)) f.length
      have e2 : -((digitsNat ints : ℚ) + (digitsNat f : ℚ) / 10 ^ f.length)
          = ((-((digitsNat ints * 10 ^ f.length + digitsNat f : ℕ) : ℤ) : ℤ) : ℚ)
            / ((10 ^ f.length : ℕ) : ℚ) := by
        rw [e1]
        push_cast
        ring
      rw [← e2] at this
      simpa [NumLit.value, NumLit.magnitude] using this

/-- Every further token of a well-formed path string is well formed. -/
theorem restWf_wf (sepChar : Char → Bool) (previous : PathItem)
    (rest : List (List Char × PathItem)) (h : restWf sepChar previous rest = true) :
    ∀ p ∈ rest, p.2.wf = true := by
  induction rest generalizing previous with
  | nil => simp
  | cons head more ih =>
    obtain ⟨sep, item⟩ := head
    simp only [restWf, Bool.and_eq_true] at h
    intro p hp
    rcases List.mem_cons.mp hp with rfl | hp
    · exact h.1.2
    · exact ih item h.2 p hp

/-- A well-formed written token whose value is written without an exponent: the text of its
token is again a well-formed written token, for the same token. -/
theorem item_rewritten (item : PathItem) (hwf : item.wf = true)
    (hplain : ∀ n, item = PathItem.number n → 'e' ∉ numberToString n.value) :
    ∃ again : PathItem, again.wf = true ∧ again.chars = serializeToken item.token ∧
      again.token = item.token := by
  cases item with
  | command c => exact ⟨PathItem.command c, hwf, rfl, rfl⟩
  | number n =>
    obtain ⟨k, hk⟩ := n.value_den_dvd
    obtain ⟨m, hm1, hm2, hm3⟩ :=
      numberToString_plain n.value (decimalPlaces_dvd _ k hk) (hplain n rfl)
    exact ⟨PathItem.number m, hm1, by simp [PathItem.chars, PathItem.token, serializeToken, hm2],
      by simp [PathItem.token, hm3]⟩

/-- The further tokens written back to text, each after the joining character, are again
well-formed further tokens, for the same tokens. -/
theorem rest_rewritten (sep : Char) (hsep : isSeparator sep = true)
    (rest : List (List Char × PathItem)) (hwf : ∀ p ∈ rest, p.2.wf = true)
    (hplain : ∀ p ∈ rest, ∀ n, p.2 = PathItem.number n → 'e' ∉ numberToString n.value)
    (previous : PathItem) :
    ∃ again : List (List Char × PathItem),
      restWf isSeparator previous again = true ∧
      restChars again = serializeRest sep (rest.map (fun p => p.2.token)) ∧
      again.map (fun p => p.2.token) = rest.map (fun p => p.2.token) := by
  induction rest generalizing previous with
  | nil => exact ⟨[], rfl, rfl, rfl⟩
  | cons head more ih =>
    obtain ⟨item, i1, i2, i3⟩ := item_rewritten head.2 (hwf head (List.mem_cons_self _ _))
      (hplain head (List.mem_cons_self _ _))
    obtain ⟨tail, t1, t2, t3⟩ := ih (fun p hp => hwf p (List.mem_cons_of_mem _ hp))
      (fun p hp => hplain p (List.mem_cons_of_mem _ hp)) item
    refine ⟨([sep], item) :: tail, ?_, ?_, ?_⟩
    · simp [restWf, hsep, i1, t1]
    · simp [restChars, serializeRest, i2, t2]
    · simp [i3, t3]

/-- C12 as stated fails: the well-formed path string `M0.0000001` parses to `'M'` and one
ten-millionth, whose standard string form is `1e-7`; the text `M 1e-7` parses to the four
tokens `'M'`, `1`, `'e'`, `-7`. -/
theorem splitPath_roundTrip_exponent :
    tinyText.wf = true ∧ String.mk tinyText.chars = "M0.0000001" ∧
    splitPath "M0.0000001" = [PathToken.cmd "M", PathToken.num (1 / 10000000)] ∧
    String.mk (serialize ' ' (splitPath "M0.0000001")) = "M 1e-7" ∧
    splitPath "M 1e-7"
      = [PathToken.cmd "M", PathToken.num 1, PathToken.cmd "e", PathToken.num (-7)] ∧
    splitPath (String.mk (serialize ' ' (splitPath "M0.0000001")))
      ≠ splitPath "M0.0000001" := by
  refine ⟨by decide, by decide, by decide!, by decide!, by decide!, by decide!⟩

/-- C12, amended: for every well-formed path string none of whose operands has a standard
string form with an exponent, writing the token sequence `splitPath s` back to text (a command
as its letter, a number in its standard string form, the tokens joined by a space or by a
comma) and parsing that text with `splitPath` gives the token sequence `splitPath s` again. -/
theorem splitPath_roundTrip (t : PathText) (h : t.wf = true)
    (hplain : ∀ n ∈ t.operands, 'e' ∉ numberToString n.value)
    (sep : Char) (hsep : sep = ' ' ∨ sep = ',') :
    splitPath (String.mk (serialize sep (splitPath (String.mk t.chars))))
      = splitPath (String.mk t.chars) := by
  have hsep2 : isSeparator sep = true := by
    rcases hsep with rfl | rfl <;> decide
  rw [splitPath_chars t h]
  have h2 := h
  simp only [PathText.wf, Bool.and_eq_true] at h2
  obtain ⟨⟨_, hfirst⟩, hrest⟩ := h2
  have hp1 : ∀ n, t.first = PathItem.number n → 'e' ∉ numberToString n.value := by
    intro n hn
    apply hplain
    unfold PathText.operands
    rw [hn]
    simp only [List.filterMap_cons]
    exact List.mem_cons_self _ _
  have hp2 : ∀ p ∈ t.rest, ∀ n, p.2 = PathItem.number n → 'e' ∉ numberToString n.value := by
    intro p hp n hn
    apply hplain
    simp only [PathText.operands, List.filterMap_cons, List.mem_filterMap, List.mem_map]
    cases hf : t.first with
    | command c =>
      simp only [List.mem_filterMap, List.mem_map]
      exact ⟨p.2, ⟨p, hp, rfl⟩, by rw [hn]⟩
    | number m =>
      simp only [List.mem_cons, List.mem_filterMap, List.mem_map]
      exact Or.inr ⟨p.2, ⟨p, hp, rfl⟩, by rw [hn]⟩
  obtain ⟨first, f1, f2, f3⟩ := item_rewritten t.first hfirst hp1
  obtain ⟨rest, r1, r2, r3⟩ :=
    rest_rewritten sep hsep2 t.rest (restWf_wf isSeparator t.first t.rest hrest) hp2 first
  have hwf : (PathText.mk [] first rest []).wf = true := by
    simp [PathText.wf, f1, r1]
  have hchars : (PathText.mk [] first rest []).chars = serialize sep t.tokens := by
    simp [PathText.chars, PathText.tokens, serialize, f2, r2]
  have htokens : (PathText.mk [] first rest []).tokens = t.tokens := by
    simp [PathText.tokens, f3, r3]
  rw [← hchars, splitPath_chars _ hwf, htokens]

/-- Witness for C12, amended: the path string `M10 -5L3.5,4Z` written back with spaces. -/
theorem splitPath_roundTrip_witness :
    splitPath (String.mk (serialize ' ' (splitPath (String.mk svgText.chars))))
      = splitPath (String.mk svgText.chars) :=
  splitPath_roundTrip svgText (by decide) (by decide!) ' ' (Or.inl rfl)

/-- The standard string form at the edges of the plain notation: one millionth and `10 ^ 20` are
written in full, one ten-millionth and `10 ^ 21` with an exponent. -/
theorem numberToString_edges :
    String.mk (numberToString (1 / 1000000)) = "0.000001" ∧
    String.mk (numberToString (1 / 10000000)) = "1e-7" ∧
    String.mk (numberToString (10 ^ 20)) = "100000000000000000000" ∧
    String.mk (numberToString (10 ^ 21)) = "1e+21" ∧
    String.mk (numberToString (-5 / 4)) = "-1.25" := by
  refine ⟨by decide!, by decide!, by decide!, by decide!, by decide!⟩

/-! ## The axes of the coordinates in `getBox` -/

/-- The flag `even` at the end of the loop of `getBox` tells whether the number of coordinates
visited is odd. -/
theorem pointBox_even (path : List PathToken) : (pointBox path).even = oddCoordinates path := by
  induction path with
  | nil => rfl
  | cons tok rest ih =>
    have hstep : pointBox (tok :: rest) = PointBox.step tok (pointBox rest) := rfl
    rw [hstep]
    cases tok with
    | cmd c => simpa [PointBox.step, oddCoordinates] using ih
    | nan => simpa [PointBox.step, oddCoordinates] using ih
    | num v =>
      simp only [PointBox.step, oddCoordinates]
      split_ifs <;> simp [← ih]

/-- The loop of `getBox`, which runs from the end, agrees with the reading from the start that
begins with x exactly when the coordinates left are even in number. -/
theorem pointBox_extent (path : List PathToken) :
    (pointBox path).extent = boxFromStart (!oddCoordinates path) path := by
  induction path with
  | nil => rfl
  | cons tok rest ih =>
    have hstep : pointBox (tok :: rest) = PointBox.step tok (pointBox rest) := rfl
    rw [hstep]
    cases tok with
    | cmd c => simpa [PointBox.step, oddCoordinates, boxFromStart] using ih
    | nan => simpa [PointBox.step, oddCoordinates, boxFromStart] using ih
    | num v =>
      have he := pointBox_even rest
      simp only [PointBox.step, oddCoordinates, boxFromStart, Bool.not_not]
      rw [← ih, he]
      cases oddCoordinates rest <;> simp [PointBox.extent]

/-- The bounds of the path `['M', 1, 2, 3]` in `getBox`: x runs over the single value 2 and y
from 1 to 3. -/
theorem pointBox_oddPath :
    pointBox oddPath = { maxX := 2, minX := 2, maxY := 3, minY := 1, even := true } := by
  have a := MIN_VALUE_pos
  have b := MAX_VALUE_large
  have hmin : MIN_VALUE ≤ 1 := by
    unfold MIN_VALUE
    rw [div_le_iff₀ (by positivity)]
    have : (1 : ℚ) ≤ 2 ^ 1074 := one_le_pow₀ (by norm_num)
    linarith
  have e1 : max MIN_VALUE 3 = 3 := max_eq_right (by linarith)
  have e2 : min MAX_VALUE 3 = 3 := by unfold MAX_VALUE; norm_num
  have e3 : max MIN_VALUE 2 = 2 := max_eq_right (by linarith)
  have e4 : min MAX_VALUE 2 = 2 := by unfold MAX_VALUE; norm_num
  simp [pointBox, oddPath, PointBox.step, PointBox.init, e1, e2, e3, e4]

/-- C21 as stated fails: in the path `['M', 1, 2, 3]` the coordinates counted from the start
are 1 (k = 0), 2 (k = 1) and 3 (k = 2), so by the claim x runs from 1 to 3 and y is 2; the
extent that `getBox` stores has x at 2 and y from 1 to 3. -/
theorem getBox_oddPath :
    (getBox [Shape.ofPath oddPath]).1 = { minX := 2, maxX := 2, minY := 1, maxY := 3 } ∧
    boxFromStart true oddPath = { minX := 1, maxX := 3, minY := 2, maxY := 2 } ∧
    (getBox [Shape.ofPath oddPath]).1 ≠ boxFromStart true oddPath := by
  have a := MIN_VALUE_pos
  have b := MAX_VALUE_large
  have hmin : MIN_VALUE ≤ 1 := by
    unfold MIN_VALUE
    rw [div_le_iff₀ (by positivity)]
    have : (1 : ℚ) ≤ 2 ^ 1074 := one_le_pow₀ (by norm_num)
    linarith
  have e1 : max MIN_VALUE 3 = 3 := max_eq_right (by linarith)
  have e2 : min MAX_VALUE 3 = 3 := by unfold MAX_VALUE; norm_num
  have e3 : max MIN_VALUE 2 = 2 := max_eq_right (by linarith)
  have e4 : min MAX_VALUE 2 = 2 := by unfold MAX_VALUE; norm_num
  have e5 : min MAX_VALUE 1 = 1 := min_eq_right (by linarith)
  have hbox : (getBox [Shape.ofPath oddPath]).1
      = { minX := 2, maxX := 2, minY := 1, maxY := 3 } := by
    simp [getBox, Shape.box, Shape.ofPath, pick, pointBox_oddPath, Extent.absorb, e1, e3, e4, e5]
  have hstart : boxFromStart true oddPath = { minX := 1, maxX := 3, minY := 2, maxY := 2 } := by
    simp [boxFromStart, oddPath, e1, e2, e3, e4]
  refine ⟨hbox, hstart, ?_⟩
  rw [hbox, hstart]
  intro h
  have h1 : (2 : ℚ) = 1 := congrArg Extent.minX h
  norm_num at h1

/-- The loop variables of `getBox` never pass their sentinels: a maximum is at least
`Number.MIN_VALUE` and a minimum at most `Number.MAX_VALUE`. -/
theorem pointBox_bounds (path : List PathToken) :
    MIN_VALUE ≤ (pointBox path).maxX ∧ (pointBox path).minX ≤ MAX_VALUE ∧
    MIN_VALUE ≤ (pointBox path).maxY ∧ (pointBox path).minY ≤ MAX_VALUE := by
  induction path with
  | nil => exact ⟨le_refl _, le_refl _, le_refl _, le_refl _⟩
  | cons tok rest ih =>
    have hstep : pointBox (tok :: rest) = PointBox.step tok (pointBox rest) := rfl
    rw [hstep]
    obtain ⟨h1, h2, h3, h4⟩ := ih
    cases tok with
    | cmd c => exact ⟨h1, h2, h3, h4⟩
    | nan => exact ⟨h1, h2, h3, h4⟩
    | num v =>
      simp only [PointBox.step]
      split_ifs
      · exact ⟨le_max_of_le_left h1, min_le_of_left_le h2, h3, h4⟩
      · exact ⟨h1, h2, le_max_of_le_left h3, min_le_of_left_le h4⟩

/-- For a single shape the extent that `getBox` stores is made of the bounds of that shape. -/
theorem getBox_single (point : Shape) : (getBox [point]).1 = point.box.extent := by
  obtain ⟨h1, h2, h3, h4⟩ := pointBox_bounds (pick point.path [])
  simp only [getBox, List.foldl, Extent.absorb, PointBox.extent, Shape.box]
  rw [max_eq_right h1, min_eq_right h2, max_eq_right h3, min_eq_right h4]

/-- C21, amended: `getBox` assigns the coordinates of a path (its numbers other than `NaN`) to
the axes by their parity counted from the end of the path, the last one going to y. Read from
the start, the coordinates alternate between the axes whatever commands stand around them, and
the first one goes to x exactly when the path holds an even number of coordinates; with an odd
number the first one goes to y. -/
theorem getBox_axes (path : List PathToken) :
    (getBox [Shape.ofPath path]).1 = boxFromStart (!oddCoordinates path) path := by
  rw [getBox_single, ← pointBox_extent]
  rfl

/-! ## Shapes without coordinates -/

/-- A path none of whose elements passes the test of `getBox` leaves the loop variables at
their starting values. -/
theorem pointBox_of_no_coordinate (path : List PathToken)
    (h : path.all (fun tok => !tok.isCoordinate) = true) : pointBox path = PointBox.init := by
  induction path with
  | nil => rfl
  | cons tok rest ih =>
    have hstep : pointBox (tok :: rest) = PointBox.step tok (pointBox rest) := rfl
    simp only [List.all_cons, Bool.and_eq_true] at h
    rw [hstep, ih h.2]
    cases tok with
    | cmd c => rfl
    | nan => rfl
    | num v => simp [PathToken.isCoordinate] at h

/-- The outer variables of `getBox` never pass their sentinels, whatever shapes are taken
in. -/
theorem foldl_absorb_bounds (paths : List Shape) (e : Extent)
    (h : MIN_VALUE ≤ e.maxX ∧ e.minX ≤ MAX_VALUE ∧ MIN_VALUE ≤ e.maxY ∧ e.minY ≤ MAX_VALUE) :
    MIN_VALUE ≤ (paths.foldl (fun e point => e.absorb point.box) e).maxX ∧
    (paths.foldl (fun e point => e.absorb point.box) e).minX ≤ MAX_VALUE ∧
    MIN_VALUE ≤ (paths.foldl (fun e point => e.absorb point.box) e).maxY ∧
    (paths.foldl (fun e point => e.absorb point.box) e).minY ≤ MAX_VALUE := by
  induction paths generalizing e with
  | nil => exact h
  | cons point rest ih =>
    obtain ⟨h1, h2, h3, h4⟩ := h
    exact ih (e.absorb point.box)
      ⟨le_max_of_le_left h1, min_le_of_left_le h2, le_max_of_le_left h3, min_le_of_left_le h4⟩

/-- Taking in a shape whose loop variables are still at their starting values changes none of
the outer variables of `getBox`, once these are within the sentinels. -/
theorem absorb_init (e : Extent)
    (h : MIN_VALUE ≤ e.maxX ∧ e.minX ≤ MAX_VALUE ∧ MIN_VALUE ≤ e.maxY ∧ e.minY ≤ MAX_VALUE) :
    e.absorb PointBox.init = e := by
  obtain ⟨h1, h2, h3, h4⟩ := h
  simp only [Extent.absorb, PointBox.init]
  rw [max_eq_left h1, min_eq_left h2, max_eq_left h3, min_eq_left h4]

/-- C24: for all shapes `before` and `after`, putting between them a shape without coordinates
(a missing or empty path, commands only) leaves the four bounds that `getBox` stores on the
series as they are without that shape. -/
theorem getBox_insert_empty (before after : List Shape) (point : Shape)
    (hempty : point.noCoordinates = true) :
    (getBox (before ++ point :: after)).1 = (getBox (before ++ after)).1 := by
  have hbox : point.box = PointBox.init := pointBox_of_no_coordinate _ hempty
  have hinv := foldl_absorb_bounds before
    { maxX := MIN_VALUE, minX := MAX_VALUE, maxY := MIN_VALUE, minY := MAX_VALUE }
    ⟨le_refl _, le_refl _, le_refl _, le_refl _⟩
  simp only [getBox, List.foldl_append, List.foldl_cons, hbox]
  rw [absorb_init _ hinv]

/-- Witness for C24: a shape with a missing path put between the example path and the path
`['M', 1, 2, 3]`. -/
theorem getBox_insert_empty_witness :
    pathlessShape.noCoordinates = true ∧
    (getBox ([Shape.ofPath examplePath] ++ pathlessShape :: [Shape.ofPath oddPath])).1
      = (getBox ([Shape.ofPath examplePath] ++ [Shape.ofPath oddPath])).1 :=
  ⟨by decide,
   getBox_insert_empty [Shape.ofPath examplePath] [Shape.ofPath oddPath] pathlessShape
     (by decide)⟩

/-! ## Text that is not a number -/

/-- The loop of `translatePath` leaves a `NaN` where it is. -/
theorem translateLoop_nan (xT yT : ℚ → ℚ) (yAxis : Axis) (path : List PathToken) (i : ℕ)
    (h : path[i]? = some PathToken.nan) :
    (translateLoop xT yT yAxis path).1[i]? = some PathToken.nan := by
  induction path generalizing i with
  | nil => simp at h
  | cons tok rest ih =>
    cases i with
    | zero =>
      simp only [List.getElem?_cons_zero, Option.some.injEq] at h
      subst h
      simp [translateLoop]
    | succ j =>
      simp only [List.getElem?_cons_succ] at h
      cases tok <;> simpa [translateLoop] using ih j h

/-- The loop of `getBox` gives the same values with and without the `NaN` elements of the
path. -/
theorem pointBox_filter_nan (path : List PathToken) :
    pointBox (path.filter (fun tok => !tok.isNaN)) = pointBox path := by
  induction path with
  | nil => rfl
  | cons tok rest ih =>
    have hstep : pointBox (tok :: rest) = PointBox.step tok (pointBox rest) := rfl
    cases tok with
    | cmd c =>
      have hf : (PathToken.cmd c :: rest).filter (fun tok => !tok.isNaN)
          = PathToken.cmd c :: rest.filter (fun tok => !tok.isNaN) := by
        simp [List.filter_cons, PathToken.isNaN]
      rw [hf, hstep]
      have hstep2 : pointBox (PathToken.cmd c :: rest.filter (fun tok => !tok.isNaN))
          = PointBox.step (PathToken.cmd c) (pointBox (rest.filter (fun tok => !tok.isNaN))) :=
        rfl
      rw [hstep2, ih]
    | num v =>
      have hf : (PathToken.num v :: rest).filter (fun tok => !tok.isNaN)
          = PathToken.num v :: rest.filter (fun tok => !tok.isNaN) := by
        simp [List.filter_cons, PathToken.isNaN]
      rw [hf, hstep]
      have hstep2 : pointBox (PathToken.num v :: rest.filter (fun tok => !tok.isNaN))
          = PointBox.step (PathToken.num v) (pointBox (rest.filter (fun tok => !tok.isNaN))) :=
        rfl
      rw [hstep2, ih]
    | nan =>
      have hf : (PathToken.nan :: rest).filter (fun tok => !tok.isNaN)
          = rest.filter (fun tok => !tok.isNaN) := by
        simp [List.filter_cons, PathToken.isNaN]
      rw [hf, hstep, ih]
      rfl

/-- What `splitPath` makes of a piece is `NaN` exactly when the piece holds no letter and
`parseFloat` reads no number from it. -/
theorem pieceToken_nan (piece : List Char) :
    pieceToken piece = PathToken.nan ↔ piece.any isLetter = false ∧ parseFloat piece = none := by
  unfold pieceToken
  cases hl : piece.any isLetter with
  | true => simp
  | false =>
    cases hp : parseFloat piece with
    | none => simp
    | some v => simp

/-- The tokens of the text `M1,-,2`: the lone minus sign becomes `NaN`. -/
theorem splitPath_malformed_text : splitPath "M1,-,2" = malformedPath := by
  have hpieces : splitSeparators (trim (moveLettersApart "M1,-,2".data))
      = [['M'], ['1'], ['-'], ['2']] := by decide
  have hM : pieceToken ['M'] = PathToken.cmd "M" := by decide
  have a1 : isWhiteSpace '1' = false := by decide
  have a2 : isDigit '1' = true := by decide
  have a3 : isLetter '1' = false := by decide
  have a4 : ('1' : Char) ≠ '-' := by decide
  have a5 : ('1' : Char) ≠ '+' := by decide
  have a6 : digitValue '1' = 1 := by decide
  have b1 : isWhiteSpace '2' = false := by decide
  have b2 : isDigit '2' = true := by decide
  have b3 : isLetter '2' = false := by decide
  have b4 : ('2' : Char) ≠ '-' := by decide
  have b5 : ('2' : Char) ≠ '+' := by decide
  have b6 : digitValue '2' = 2 := by decide
  have c1 : isWhiteSpace '-' = false := by decide
  have c3 : isLetter '-' = false := by decide
  have h1 : pieceToken ['1'] = PathToken.num 1 := by
    simp [pieceToken, parseFloat, parseUnsigned, List.takeWhile, List.dropWhile, digitsValue,
      exponentPart, a1, a2, a3, a4, a5, a6]
  have h2 : pieceToken ['2'] = PathToken.num 2 := by
    simp [pieceToken, parseFloat, parseUnsigned, List.takeWhile, List.dropWhile, digitsValue,
      exponentPart, b1, b2, b3, b4, b5, b6]
  have hm : pieceToken ['-'] = PathToken.nan := by
    simp [pieceToken, parseFloat, parseUnsigned, List.takeWhile, List.dropWhile, c1, c3]
  simp only [splitPath, hpieces, List.map, hM, h1, h2, hm, malformedPath]

/-- The loop variables of `getBox` after the path `['M', 1, NaN, 2]`. -/
theorem pointBox_malformedPath :
    pointBox malformedPath = { maxX := 1, minX := 1, maxY := 2, minY := 2, even := false } := by
  have a := MIN_VALUE_pos
  have b := MAX_VALUE_large
  have hmin : MIN_VALUE ≤ 1 := by
    unfold MIN_VALUE
    rw [div_le_iff₀ (by positivity)]
    have : (1 : ℚ) ≤ 2 ^ 1074 := one_le_pow₀ (by norm_num)
    linarith
  have e1 : max MIN_VALUE 1 = 1 := max_eq_right hmin
  have e2 : min MAX_VALUE 1 = 1 := min_eq_right b
  have e3 : max MIN_VALUE 2 = 2 := max_eq_right (by linarith)
  have e4 : min MAX_VALUE 2 = 2 := by unfold MAX_VALUE; norm_num
  simp [pointBox, malformedPath, PointBox.step, PointBox.init, e1, e2, e3, e4]

/-- C25 as stated fails: the text `M1,-,2` gives the tokens `['M', 1, NaN, 2]`, and the
`NaN` does not reach the bounds of the shape. The extent that `getBox` stores for these tokens
is made of the numbers 1 and 2, and it is the extent of the path `['M', 1, 2]`: the `NaN` is
dropped. -/
theorem getBox_skips_NaN :
    splitPath "M1,-,2" = [PathToken.cmd "M", PathToken.num 1, PathToken.nan, PathToken.num 2] ∧
    (getBox [Shape.ofPath (splitPath "M1,-,2")]).1
      = { minX := 1, maxX := 1, minY := 2, maxY := 2 } ∧
    (getBox [Shape.ofPath (splitPath "M1,-,2")]).1
      = (getBox [Shape.ofPath [PathToken.cmd "M", PathToken.num 1, PathToken.num 2]]).1 := by
  have hfilter : [PathToken.cmd "M", PathToken.num 1, PathToken.num 2]
      = malformedPath.filter (fun tok => !tok.isNaN) := by
    simp [malformedPath, List.filter_cons, PathToken.isNaN]
  refine ⟨splitPath_malformed_text, ?_, ?_⟩
  · rw [splitPath_malformed_text, getBox_single]
    simp [Shape.box, Shape.ofPath, pick, pointBox_malformedPath, PointBox.extent]
  · rw [splitPath_malformed_text, getBox_single, getBox_single, hfilter]
    simp only [Shape.box, Shape.ofPath, pick, Option.getD, pointBox_filter_nan]

/-- C25, amended: for every input string `splitPath` returns one token for each piece of the
text, with `NaN` exactly at the pieces that hold no letter and from which `parseFloat` reads no
number. `translatePath` keeps such a `NaN` at its position in the projected path, and the `NaN`
takes its turn in the alternation between x and y: the projected path is the reading from the
start in which every number, `NaN` included, switches the axis. `getBox` skips it: the extent
it stores is the one of the tokens without the `NaN` elements. -/
theorem splitPath_malformed (path : String) :
    (splitPath path).length = (pathPieces path).length ∧
    (∀ (i : ℕ) (piece : List Char), (pathPieces path)[i]? = some piece →
      ((splitPath path)[i]? = some PathToken.nan ↔
        piece.any isLetter = false ∧ parseFloat piece = none)) ∧
    (∀ (xT yT : ℚ → ℚ) (yAxis : Axis) (i : ℕ), (splitPath path)[i]? = some PathToken.nan →
      (translatePath xT yT yAxis (splitPath path))[i]? = some PathToken.nan) ∧
    (∀ (xT yT : ℚ → ℚ) (yAxis : Axis),
      translatePath xT yT yAxis (splitPath path)
        = projectFromStart xT yT yAxis (!oddNumbers (splitPath path)) (splitPath path)) ∧
    (getBox [Shape.ofPath (splitPath path)]).1
      = (getBox [Shape.ofPath ((splitPath path).filter (fun tok => !tok.isNaN))]).1 := by
  refine ⟨?_, ?_, ?_, ?_, ?_⟩
  · simp [splitPath, pathPieces]
  · intro i piece hpiece
    have htok : (splitPath path)[i]? = some (pieceToken piece) := by
      have hp : (splitSeparators (trim (moveLettersApart path.data)))[i]? = some piece := hpiece
      simp [splitPath, List.getElem?_map, hp]
    rw [htok, Option.some.injEq]
    exact pieceToken_nan piece
  · intro xT yT yAxis i h
    exact translateLoop_nan xT yT yAxis (splitPath path) i h
  · intro xT yT yAxis
    exact translateLoop_fst xT yT yAxis (splitPath path)
  · rw [getBox_single, getBox_single]
    simp only [Shape.box, Shape.ofPath, pick, Option.getD, pointBox_filter_nan]

/-! ## The gradient on a range of width zero -/

/-- One channel of `tweenColors` when `dataMax` equals `dataMin`: the division by zero makes
it `NaN` or an infinity, and `NaN` when the value is `dataMax` itself. -/
theorem tweenChannel_degenerate (from_ to_ d v : ℚ) :
    (tweenChannel from_ to_
      (JSNum.sub (JSNum.fin 1) (JSNum.div (JSNum.fin (d - v)) (JSNum.fin (d - d))))).isFinite
        = false ∧
    (v = d → tweenChannel from_ to_
      (JSNum.sub (JSNum.fin 1) (JSNum.div (JSNum.fin (d - v)) (JSNum.fin (d - d))))
        = JSNum.nan) := by
  have hd : d - d = 0 := sub_self d
  rw [hd]
  by_cases hv : d - v = 0
  · have hvd : v = d := by linarith
    simp [tweenChannel, JSNum.div, JSNum.sub, JSNum.add, JSNum.neg, JSNum.mul, JSNum.round,
      JSNum.isFinite, hv]
  · have hvd : ¬ v = d := fun h => hv (by rw [h]; exact sub_self d)
    by_cases hneg : d - v < 0 <;> by_cases hft : from_ - to_ = 0 <;>
      by_cases hlt : from_ - to_ < 0 <;>
      simp [tweenChannel, JSNum.div, JSNum.sub, JSNum.add, JSNum.neg, JSNum.mul, JSNum.round,
        JSNum.isFinite, JSNum.inf, hv, hvd, hneg, hft, hlt] <;>
      split_ifs <;> rfl

/-- C22 as stated fails: in gradient mode with `dataMin = dataMax = 5` a point of value 5
gets the position `1 - 0 / 0`, which is `NaN`, and the colour written on it has four `NaN`
channels; it is neither a midpoint colour nor `nullColor`. -/
theorem translateColors_degenerate_range :
    translateColors gradientOptions 5 5 [Point.ofValue (Value.num 5)]
      = [{ value := Value.num 5, color := none,
           optionsColor := some (Colour.rgba JSNum.nan JSNum.nan JSNum.nan JSNum.nan) }] ∧
    Colour.rgba JSNum.nan JSNum.nan JSNum.nan JSNum.nan ≠ gradientOptions.nullColor := by
  constructor
  · simp [translateColors, pointColor, gradientOptions, Point.ofValue, Point.write,
      tweenColors, tweenChannel, JSNum.div, JSNum.sub, JSNum.add, JSNum.neg, JSNum.mul,
      JSNum.round, Colour.truthy]
  · simp [gradientOptions]

/-- C22, amended: in gradient mode with `dataMax` equal to `dataMin` there is no special case.
The position of a point with a numeric value is computed by a division by zero, and the colour
written on the point has no finite channel: each one is `NaN` or an infinity, and all four are
`NaN` when the value equals `dataMax`. -/
theorem translateColors_degenerate (seriesOptions : SeriesOptions) (colorRange : ColorRange)
    (d : ℚ) (data : List Point) (hmode : seriesOptions.valueRanges = none)
    (hrange : seriesOptions.colorRange = some colorRange) :
    ∀ (i : ℕ) (point : Point) (v : ℚ), data[i]? = some point → point.value = Value.num v →
      ∃ r g b a : JSNum,
        (translateColors seriesOptions d d data)[i]?
          = some { point with color := none, optionsColor := some (Colour.rgba r g b a) } ∧
        r.isFinite = false ∧ g.isFinite = false ∧ b.isFinite = false ∧ a.isFinite = false ∧
        (v = d → r = JSNum.nan ∧ g = JSNum.nan ∧ b = JSNum.nan ∧ a = JSNum.nan) := by
  intro i point v hi hv
  have hr := tweenChannel_degenerate colorRange.from_.r colorRange.to_.r d v
  have hg := tweenChannel_degenerate colorRange.from_.g colorRange.to_.g d v
  have hb := tweenChannel_degenerate colorRange.from_.b colorRange.to_.b d v
  have ha := tweenChannel_degenerate colorRange.from_.a colorRange.to_.a d v
  refine ⟨_, _, _, _, ?_, hr.1, hg.1, hb.1, ha.1, fun h => ⟨hr.2 h, hg.2 h, hb.2 h, ha.2 h⟩⟩
  simp [translateColors, List.getElem?_map, hi, pointColor, hmode, hrange, hv, Point.write,
    tweenColors, Colour.truthy]

/-- Witness for C22: the gradient from black to white with `dataMin = dataMax = 5` and one
point of value 5. -/
theorem translateColors_degenerate_witness :
    gradientOptions.valueRanges = none ∧
    ∃ r g b a : JSNum,
      (translateColors gradientOptions 5 5 [Point.ofValue (Value.num 5)])[0]?
        = some { Point.ofValue (Value.num 5) with
                 color := none, optionsColor := some (Colour.rgba r g b a) } ∧
      r.isFinite = false ∧ g.isFinite = false ∧ b.isFinite = false ∧ a.isFinite = false ∧
      ((5 : ℚ) = 5 → r = JSNum.nan ∧ g = JSNum.nan ∧ b = JSNum.nan ∧ a = JSNum.nan) :=
  ⟨rfl,
   translateColors_degenerate gradientOptions
     { from_ := ⟨0, 0, 0, 1⟩, to_ := ⟨255, 255, 255, 1⟩ } 5 [Point.ofValue (Value.num 5)]
     rfl rfl 0 (Point.ofValue (Value.num 5)) 5 rfl rfl⟩

/-! ## Axes without a map-geometry series -/

/-- Without a map-geometry series the first loop of the wrapper changes no series. -/
theorem hideXData_ordinary (series : List Series)
    (h : ∀ s ∈ series, s.useMapGeometry = false) : hideXData series = series := by
  unfold hideXData
  conv_rhs => rw [← List.map_id series]
  apply List.map_congr_left
  intro s hs
  simp [h s hs]

/-- Without a map-geometry series the second loop of the wrapper keeps the pair it starts
from. -/
theorem geometryExtremes_ordinary (isXAxis : Bool) (start : ℚ × ℚ) (series : List Series)
    (h : ∀ s ∈ series, s.useMapGeometry = false) :
    geometryExtremes isXAxis start series = start := by
  unfold geometryExtremes
  induction series generalizing start with
  | nil => rfl
  | cons s rest ih =>
    have hs : s.useMapGeometry = false := h s (List.mem_cons_self _ _)
    simp only [List.foldl_cons, hs, Bool.false_eq_true, if_false]
    exact ih start (fun t ht => h t (List.mem_cons_of_mem _ ht))

/-- On an axis without a map-geometry series the wrapper hands the series to the generic
discovery as they are, gives them back as they are, and stores what the discovery found, with
`Number.MAX_VALUE` as `dataMin` and `Number.MIN_VALUE` as `dataMax` where it found no value. -/
theorem getSeriesExtremes_ordinary (proceed : List Series → Option ℚ × Option ℚ)
    (isXAxis : Bool) (axis : Axis) (series : List Series)
    (h : ∀ s ∈ series, s.useMapGeometry = false) :
    (getSeriesExtremes proceed isXAxis axis series).2 = series ∧
    (getSeriesExtremes proceed isXAxis axis series).1.dataMin
      = pick (proceed series).1 MAX_VALUE ∧
    (getSeriesExtremes proceed isXAxis axis series).1.dataMax
      = pick (proceed series).2 MIN_VALUE := by
  simp only [getSeriesExtremes, hideXData_ordinary series h,
    geometryExtremes_ordinary isXAxis _ series h]
  exact ⟨trivial, trivial, trivial⟩

/-- C23 (the code departs from the claim): on an axis (X or Y) whose only series is an
ordinary one and for which the generic discovery found no value, the wrapper leaves the
series and its `xData` as they are but stores the numbers `Number.MAX_VALUE` as `dataMin` and
`Number.MIN_VALUE` as `dataMax`, a minimum above the maximum, where the discovery had left no
value. -/
theorem getSeriesExtremes_no_value :
    getSeriesExtremes (fun _ => (none, none)) true sampleAxis [ordinarySeries]
      = ({ sampleAxis with dataMin := MAX_VALUE, dataMax := MIN_VALUE }, [ordinarySeries]) ∧
    getSeriesExtremes (fun _ => (none, none)) false sampleAxis [ordinarySeries]
      = ({ sampleAxis with dataMin := MAX_VALUE, dataMax := MIN_VALUE }, [ordinarySeries]) ∧
    MIN_VALUE < MAX_VALUE := by
  have a : MIN_VALUE < MAX_VALUE := by
    have h1 : MIN_VALUE < 1 := by
      unfold MIN_VALUE
      rw [div_lt_iff₀ (by positivity)]
      have : (2 : ℚ) ≤ 2 ^ 1074 := by
        calc (2 : ℚ) = 2 ^ 1 := by norm_num
          _ ≤ 2 ^ 1074 := pow_le_pow_right₀ (by norm_num) (by norm_num)
      linarith
    linarith [MAX_VALUE_large]
  refine ⟨?_, ?_, a⟩ <;>
    simp [getSeriesExtremes, geometryExtremes, ordinarySeries, pick, hideXData]

/-! ## The zooming state after a zoom -/

/-- C26 as stated fails: with `animation: {duration: 0}` a duration is given and it is 0, yet
the delay of the zoom is 500, not the duration, and the flag `isMapZooming` is set. -/
theorem mapZoom_zero_duration :
    zoomDelay zeroDurationChart.animation = 500 ∧
    zeroDurationChart.animation = Animation.object (some 0) ∧
    zoomDelay zeroDurationChart.animation ≠ 0 ∧
    (mapZoom (1 / 2) none none zeroDurationChart).isMapZooming = true := by
  refine ⟨?_, rfl, ?_, ?_⟩ <;>
    simp [mapZoom, zeroDurationChart, sampleChart, zoomDelay, pick]

/-- C26, amended: after a `mapZoom` call made on an idle chart the flag `isMapZooming` is set
exactly when the animation option is not `false`. The delay is 500 when the option is unset,
`null`, `true`, or an object without a duration or with the duration 0; it is the duration when
this is a number other than 0; it is 0 when the option is `false`. A second call made right
after the first is dropped when the flag is set, and otherwise it is applied: both axes get
the extremes fitted from the state that the first call left, and the chart stays idle. -/
theorem mapZoom_zooming_state (howMuch : ℚ) (cx cy : Option ℚ) (chart : Chart)
    (hidle : chart.isMapZooming = false) :
    ((mapZoom howMuch cx cy chart).isMapZooming = true
      ↔ chart.animation ≠ Animation.bool false) ∧
    (chart.animation = Animation.undefined ∨ chart.animation = Animation.null ∨
      chart.animation = Animation.bool true ∨ chart.animation = Animation.object none ∨
      chart.animation = Animation.object (some 0) → zoomDelay chart.animation = 500) ∧
    (∀ d : ℚ, d ≠ 0 → chart.animation = Animation.object (some d) →
      zoomDelay chart.animation = d) ∧
    (chart.animation = Animation.bool false → zoomDelay chart.animation = 0) ∧
    (chart.animation ≠ Animation.bool false → ∀ (again : ℚ) (cx2 cy2 : Option ℚ),
      mapZoom again cx2 cy2 (mapZoom howMuch cx cy chart) = mapZoom howMuch cx cy chart) ∧
    (chart.animation = Animation.bool false → ∀ (again : ℚ) (cx2 cy2 : Option ℚ),
      mapZoom again cx2 cy2 (mapZoom howMuch cx cy chart)
        = { mapZoom howMuch cx cy chart with
            xAxis := (mapZoom howMuch cx cy chart).xAxis.setExtremes
              (fitToBox (zoomCandidate (mapZoom howMuch cx cy chart) again cx2 cy2)
                (dataBox (mapZoom howMuch cx cy chart))).x
              ((fitToBox (zoomCandidate (mapZoom howMuch cx cy chart) again cx2 cy2)
                (dataBox (mapZoom howMuch cx cy chart))).x +
               (fitToBox (zoomCandidate (mapZoom howMuch cx cy chart) again cx2 cy2)
                (dataBox (mapZoom howMuch cx cy chart))).width)
            yAxis := (mapZoom howMuch cx cy chart).yAxis.setExtremes
              (fitToBox (zoomCandidate (mapZoom howMuch cx cy chart) again cx2 cy2)
                (dataBox (mapZoom howMuch cx cy chart))).y
              ((fitToBox (zoomCandidate (mapZoom howMuch cx cy chart) again cx2 cy2)
                (dataBox (mapZoom howMuch cx cy chart))).y +
               (fitToBox (zoomCandidate (mapZoom howMuch cx cy chart) again cx2 cy2)
                (dataBox (mapZoom howMuch cx cy chart))).height)
            isMapZooming := false }) := by
  have hflag : (mapZoom howMuch cx cy chart).isMapZooming
      = decide (zoomDelay chart.animation ≠ 0) := by
    simp only [mapZoom, hidle, Bool.false_eq_true, if_false]
    by_cases h : zoomDelay chart.animation = 0 <;> simp [h]
  have hdelay : zoomDelay chart.animation = 0 ↔ chart.animation = Animation.bool false := by
    cases hanim : chart.animation with
    | undefined => simp [zoomDelay, pick]
    | null => simp [zoomDelay, pick]
    | bool b => cases b <;> simp [zoomDelay, pick]
    | object duration =>
      cases duration with
      | none => simp [zoomDelay, pick]
      | some d =>
        by_cases hd : d = 0 <;> simp [zoomDelay, pick, hd]
  refine ⟨?_, ?_, ?_, ?_, ?_, ?_⟩
  · rw [hflag, decide_eq_true_eq, Ne, hdelay]
  · rintro (h | h | h | h | h) <;> simp [h, zoomDelay, pick]
  · intro d hd h
    simp [h, zoomDelay, pick, hd]
  · intro h
    exact hdelay.mpr h
  · intro h again cx2 cy2
    have hz : (mapZoom howMuch cx cy chart).isMapZooming = true := by
      rw [hflag, decide_eq_true_eq, Ne, hdelay]
      exact h
    have key : ∀ c : Chart, c.isMapZooming = true → mapZoom again cx2 cy2 c = c := by
      intro c hc
      simp [mapZoom, hc]
    exact key _ hz
  · intro h again cx2 cy2
    have hz : (mapZoom howMuch cx cy chart).isMapZooming = false := by
      rw [hflag, hdelay.mpr h]
      simp
    have hanim : (mapZoom howMuch cx cy chart).animation = chart.animation := by
      simp [mapZoom, hidle]
    have key : ∀ c : Chart, c.isMapZooming = false → zoomDelay c.animation = 0 →
        mapZoom again cx2 cy2 c
          = { c with
              xAxis := c.xAxis.setExtremes
                (fitToBox (zoomCandidate c again cx2 cy2) (dataBox c)).x
                ((fitToBox (zoomCandidate c again cx2 cy2) (dataBox c)).x +
                 (fitToBox (zoomCandidate c again cx2 cy2) (dataBox c)).width)
              yAxis := c.yAxis.setExtremes
                (fitToBox (zoomCandidate c again cx2 cy2) (dataBox c)).y
                ((fitToBox (zoomCandidate c again cx2 cy2) (dataBox c)).y +
                 (fitToBox (zoomCandidate c again cx2 cy2) (dataBox c)).height)
              isMapZooming := false } := by
      intro c hc hd
      simp [mapZoom, hc, hd]
    exact key _ hz (by rw [hanim]; exact hdelay.mpr h)

/-- Witness for C26: the sample chart with `animation: false` stays idle after a zoom, and a
second zoom right after it is applied. -/
theorem mapZoom_zooming_state_witness :
    instantChart.isMapZooming = false ∧
    ((mapZoom (1 / 2) none none instantChart).isMapZooming = true
      ↔ instantChart.animation ≠ Animation.bool false) ∧
    (mapZoom (1 / 2) none none instantChart).isMapZooming = false :=
  ⟨rfl, (mapZoom_zooming_state (1 / 2) none none instantChart rfl).1,
   by simp [mapZoom, instantChart, sampleChart, zoomDelay, pick]⟩

end MapModule
